import Mathlib

/-!
Shallow embedding of the Reversi engine (G2-EDAversi) core in Lean 4,
together with proofs and refutations of the specified properties.

Conventions of the embedding:
* C `uint64_t` bitboards are `Nat` values; every operation that can leave
  the 64-bit range takes an explicit `% 2 ^ 64`, mirroring C truncation.
  Theorems carry `< 2 ^ 64` hypotheses where the source type guarantees it.
* C loops become fuel-based or well-founded recursions; fuel bounds are
  chosen so that exhaustion is unreachable on the domain the C code runs on
  (at most 64 board squares), and where the exhaustion value is ever
  observable it coincides with the loop's own exit value.
* Square indices are `Nat` (0–63); the `Move_t` sentinels (`MOVE_NONE` = -1,
  `MOVE_PASS` = -2) are represented by embedding moves into `Int` at the
  few places the sentinels flow.
-/

set_option maxRecDepth 10000

namespace EDAversi

/-! ## Bitboard constants (model.cpp, model.h) -/

/-- Left column mask, `FILE_A` in model.cpp. -/
def FILE_A : Nat := 0x0101010101010101

/-- Right column mask, `FILE_H` in model.cpp. -/
def FILE_H : Nat := 0x8080808080808080

/-- Top row mask, `RANK_1` in model.cpp. -/
def RANK_1 : Nat := 0x00000000000000FF

/-- Bottom row mask, `RANK_8` in model.cpp. -/
def RANK_8 : Nat := 0xFF00000000000000

/-- Corner squares mask, `CORNERS` in model.h. -/
def CORNERS : Nat := 0x8100000000000081

/-- X-squares mask, `X_SQUARES` in model.h. -/
def X_SQUARES : Nat := 0x4200000000004200

/-- Edge squares mask (excluding corners), `EDGES` in model.h. -/
def EDGES : Nat := 0x7E8181818181817E

/-- Bitwise complement restricted to 64 bits: the meaning of C `~x` on a
`uint64_t` value `x < 2^64`. -/
def not64 (x : Nat) : Nat := x ^^^ (2 ^ 64 - 1)

/-! ## Players, squares, boards (model.h) -/

/-- PlayerColor_t from model.h. -/
inductive PlayerColor_t where
  | black
  | white
deriving DecidableEq, Repr

/-- SquareState_t from model.h. -/
inductive SquareState_t where
  | black
  | white
  | empty
deriving DecidableEq, Repr

/-- Board_t from model.h: two 64-bit occupancy masks. -/
structure Board_t where
  black : Nat
  white : Nat
deriving DecidableEq, Repr

/-- BoardState_t from model.h: snapshot for make/unmake. -/
structure BoardState_t where
  black : Nat
  white : Nat
  player : PlayerColor_t
deriving DecidableEq, Repr

/-- Square_t from model.h: 2D coordinates. -/
structure Square_t where
  x : Int
  y : Int
deriving DecidableEq, Repr

/-- getOpponent from model.h. -/
def getOpponent : PlayerColor_t → PlayerColor_t
  | PlayerColor_t.black => PlayerColor_t.white
  | PlayerColor_t.white => PlayerColor_t.black

/-- getPlayerBitboard from model.h. -/
def getPlayerBitboard (board : Board_t) (player : PlayerColor_t) : Nat :=
  match player with
  | PlayerColor_t.black => board.black
  | PlayerColor_t.white => board.white

/-- getOpponentBitboard from model.h. -/
def getOpponentBitboard (board : Board_t) (player : PlayerColor_t) : Nat :=
  match player with
  | PlayerColor_t.black => board.white
  | PlayerColor_t.white => board.black

/-- getEmptyBitboard from model.h (`~(black | white)` on uint64). -/
def getEmptyBitboard (board : Board_t) : Nat :=
  not64 (board.black ||| board.white)

/-! ## Shift primitives with edge masking (model.cpp) -/

/-- shiftN from model.cpp: `bb >> 8`. -/
def shiftN (bb : Nat) : Nat := bb >>> 8

/-- shiftS from model.cpp: `bb << 8` on uint64. -/
def shiftS (bb : Nat) : Nat := (bb <<< 8) % 2 ^ 64

/-- shiftE from model.cpp: `(bb & ~FILE_H) << 1` on uint64. -/
def shiftE (bb : Nat) : Nat := ((bb &&& not64 FILE_H) <<< 1) % 2 ^ 64

/-- shiftW from model.cpp: `(bb & ~FILE_A) >> 1`. -/
def shiftW (bb : Nat) : Nat := (bb &&& not64 FILE_A) >>> 1

/-- shiftNE from model.cpp: `(bb & ~FILE_H) >> 7`. -/
def shiftNE (bb : Nat) : Nat := (bb &&& not64 FILE_H) >>> 7

/-- shiftNW from model.cpp: `(bb & ~FILE_A) >> 9`. -/
def shiftNW (bb : Nat) : Nat := (bb &&& not64 FILE_A) >>> 9

/-- shiftSE from model.cpp: `(bb & ~FILE_H) << 9` on uint64. -/
def shiftSE (bb : Nat) : Nat := ((bb &&& not64 FILE_H) <<< 9) % 2 ^ 64

/-- shiftSW from model.cpp: `(bb & ~FILE_A) << 7` on uint64. -/
def shiftSW (bb : Nat) : Nat := ((bb &&& not64 FILE_A) <<< 7) % 2 ^ 64

/-! ## Kogge-Stone legal-move generation (model.cpp) -/

/-- generateMovesInDirection from model.cpp: one seed step plus five
propagation steps through opponent discs, then a final shift into empty
squares. -/
def generateMovesInDirection (player opponent : Nat) (shiftFunc : Nat → Nat) : Nat :=
  let empty := not64 (player ||| opponent)
  let c0 := shiftFunc player &&& opponent
  let c1 := c0 ||| (shiftFunc c0 &&& opponent)
  let c2 := c1 ||| (shiftFunc c1 &&& opponent)
  let c3 := c2 ||| (shiftFunc c2 &&& opponent)
  let c4 := c3 ||| (shiftFunc c3 &&& opponent)
  let c5 := c4 ||| (shiftFunc c4 &&& opponent)
  shiftFunc c5 &&& empty

/-- getValidMovesBitmap from model.cpp: union of the eight directional
move generators. -/
def getValidMovesBitmap (player opponent : Nat) : Nat :=
  generateMovesInDirection player opponent shiftN |||
  generateMovesInDirection player opponent shiftS |||
  generateMovesInDirection player opponent shiftE |||
  generateMovesInDirection player opponent shiftW |||
  generateMovesInDirection player opponent shiftNE |||
  generateMovesInDirection player opponent shiftNW |||
  generateMovesInDirection player opponent shiftSE |||
  generateMovesInDirection player opponent shiftSW

/-! ## Per-direction flip walker (model.cpp) -/

/-- DIRECTIONS array from model.cpp, indexed by the direction enum of
model.h (`NW = 0, N, NE, W, E, SW, S, SE`). -/
def DIRECTIONS : Nat → Int
  | 0 => 9
  | 1 => 8
  | 2 => 7
  | 3 => 1
  | 4 => -1
  | 5 => -7
  | 6 => -8
  | 7 => -9
  | _ => 0

/-- isSquareValid from model.cpp. The direction argument is the enum of
model.h; `8` is `NONE`. -/
def isSquareValid (pos : Int) (dir : Nat) : Bool :=
  if pos < 0 ∨ 64 ≤ pos then false
  else if dir = 8 then true
  else
    let bit : Nat := 1 <<< pos.toNat
    if (dir = 3 ∨ dir = 0 ∨ dir = 5) ∧ bit &&& FILE_A ≠ 0 then false
    else if (dir = 4 ∨ dir = 2 ∨ dir = 7) ∧ bit &&& FILE_H ≠ 0 then false
    else if (dir = 1 ∨ dir = 0 ∨ dir = 2) ∧ bit &&& RANK_1 ≠ 0 then false
    else if (dir = 6 ∨ dir = 5 ∨ dir = 7) ∧ bit &&& RANK_8 ≠ 0 then false
    else true

/-- Body of the while loop of getFlipsInDirection (model.cpp), with fuel.
The walker visits at most 64 valid squares (positions move monotonically by
a nonzero step and must stay in [0, 64) to pass `isSquareValid`), so with
fuel 128 exhaustion is unreachable; the exhaustion value 0 moreover
coincides with the loop's own failure value. -/
def flipsLoop (player opponent : Nat) (step : Int) (dir : Nat) :
    Nat → Int → Nat → Nat
  | 0, _, _ => 0
  | fuel + 1, curPos, flips =>
    if isSquareValid curPos dir then
      let curBit : Nat := 1 <<< curPos.toNat
      if opponent &&& curBit ≠ 0 then
        flipsLoop player opponent step dir fuel (curPos + step) (flips ||| curBit)
      else if player &&& curBit ≠ 0 then flips
      else 0
    else 0

/-- getFlipsInDirection from model.cpp. -/
def getFlipsInDirection (player opponent : Nat) (startPos step : Int) (dir : Nat) : Nat :=
  flipsLoop player opponent step dir 128 (startPos + step) 0

/-- calculateFlips from model.cpp: union of the eight directional walks. -/
def calculateFlips (player opponent : Nat) (move : Nat) : Nat :=
  (List.range 8).foldl
    (fun allFlips dir =>
      allFlips ||| getFlipsInDirection player opponent (move : Int) (DIRECTIONS dir) dir)
    0

/-! ## Bit primitives (model.cpp) -/

/-- Fuel-structured bit-counting recursion; 64 units of fuel inspect
exactly the 64 bits a `uint64_t` has. -/
def countBitsAux : Nat → Nat → Nat
  | 0, _ => 0
  | fuel + 1, bb => bb % 2 + countBitsAux fuel (bb / 2)

/-- countBits from model.cpp: population count of a 64-bit value (the
semantics of the `__builtin_popcountll` branch actually compiled). -/
def countBits (bitmap : Nat) : Nat :=
  countBitsAux 64 bitmap

/-- Fuel-structured trailing-zero count; 64 units of fuel inspect exactly
the 64 bits a `uint64_t` has. -/
def bitScanForwardAux : Nat → Nat → Nat
  | 0, _ => 0
  | fuel + 1, bb => if bb % 2 = 1 then 0 else bitScanForwardAux fuel (bb / 2) + 1

/-- bitScanForward from model.cpp: index of the least significant set bit
of a 64-bit value (the semantics of the `__builtin_ctzll` branch actually
compiled; the source documents the zero argument as having no defined
result). -/
def bitScanForward (bb : Nat) : Nat :=
  bitScanForwardAux 64 bb

/-! ## AI helper functions (model.cpp) -/

/-- Extraction loop shared by getValidMovesAI and getValidMoves
(model.cpp): repeatedly take the least significant set bit and clear it.
Each iteration clears one set bit, so 64 units of fuel cover any 64-bit
value. -/
def movesLoopAux : Nat → Nat → List Nat
  | 0, _ => []
  | fuel + 1, bb =>
    if bb = 0 then []
    else bitScanForward bb :: movesLoopAux fuel (bb &&& (bb - 1))

/-- Extraction of the set-bit indices of a 64-bit bitmap, in LSB-first
order, as done by the while loops of getValidMovesAI and getValidMoves. -/
def movesLoop (bb : Nat) : List Nat :=
  movesLoopAux 64 bb

/-- getValidMovesAI from model.cpp (the output vector, as a list of square
indices). -/
def getValidMovesAI (board : Board_t) (player : PlayerColor_t) : List Nat :=
  movesLoop (getValidMovesBitmap (getPlayerBitboard board player)
    (getOpponentBitboard board player))

/-- hasValidMoves from model.cpp. -/
def hasValidMoves (board : Board_t) (player : PlayerColor_t) : Bool :=
  getValidMovesBitmap (getPlayerBitboard board player)
    (getOpponentBitboard board player) != 0

/-- isTerminal from model.cpp. -/
def isTerminal (board : Board_t) (player : PlayerColor_t) : Bool :=
  if hasValidMoves board player then false
  else !hasValidMoves board (getOpponent player)

/-- getScoreDiff from model.cpp (int subtraction of the two popcounts). -/
def getScoreDiff (board : Board_t) (player : PlayerColor_t) : Int :=
  (countBits (getPlayerBitboard board player) : Int) -
    (countBits (getOpponentBitboard board player) : Int)

/-- makeMove from model.cpp. The C function mutates `board` and
`currentPlayer` through references and returns the pre-move snapshot; the
embedding returns the snapshot together with the new board and player. -/
def makeMove (board : Board_t) (currentPlayer : PlayerColor_t) (move : Nat) :
    BoardState_t × Board_t × PlayerColor_t :=
  let state : BoardState_t := ⟨board.black, board.white, currentPlayer⟩
  let player := getPlayerBitboard board currentPlayer
  let opponent := getOpponentBitboard board currentPlayer
  let flips := calculateFlips player opponent move
  let moveBit := 1 <<< move
  let board' :=
    match currentPlayer with
    | PlayerColor_t.black =>
      Board_t.mk (board.black ||| (moveBit ||| flips)) (board.white &&& not64 flips)
    | PlayerColor_t.white =>
      Board_t.mk (board.black &&& not64 flips) (board.white ||| (moveBit ||| flips))
  (state, board', getOpponent currentPlayer)

/-- unmakeMove from model.cpp. -/
def unmakeMove (state : BoardState_t) : Board_t × PlayerColor_t :=
  (Board_t.mk state.black state.white, state.player)

/-! ## Game model and game-level functions (model.cpp)

The GameModel fields `playerTime`, `turnTimer` (wall-clock timers) and
`humanPlayer` (UI state) play no role in any verified property and are
omitted from the embedding; playMove's timer update is dropped with them. -/

/-- GameModel from model.h, restricted to the fields the verified
properties touch. -/
structure GameModel where
  gameOver : Bool
  board : Board_t
  currentPlayer : PlayerColor_t
deriving DecidableEq, Repr

/-- getCurrentPlayer from model.cpp. -/
def getCurrentPlayer (model : GameModel) : PlayerColor_t :=
  model.currentPlayer

/-- startModel from model.cpp (timer writes omitted): initial four discs,
black to move. `GET_SQUARE_BIT_INDEX(x, y) = x + 8 * y`, and
`initialPosition` places black on (3,4) and (4,3), white on (3,3) and
(4,4). -/
def startModel : GameModel :=
  { gameOver := false
    board := Board_t.mk ((1 <<< 35) ||| (1 <<< 28)) ((1 <<< 27) ||| (1 <<< 36))
    currentPlayer := PlayerColor_t.black }

/-- setBoardPiece from model.cpp (SET_BIT / CLEAR_BIT macros expanded). -/
def setBoardPiece (model : GameModel) (n : Nat) (piece : SquareState_t) : GameModel :=
  let b :=
    match piece with
    | SquareState_t.black =>
      Board_t.mk (model.board.black ||| (1 <<< n)) (model.board.white &&& not64 (1 <<< n))
    | SquareState_t.white =>
      Board_t.mk (model.board.black &&& not64 (1 <<< n)) (model.board.white ||| (1 <<< n))
    | SquareState_t.empty =>
      Board_t.mk (model.board.black &&& not64 (1 <<< n)) (model.board.white &&& not64 (1 <<< n))
  { model with board := b }

/-- getValidMoves from model.cpp: moves of the model's current player as
`Square_t` coordinates (`x = n & 7`, `y = n >> 3`). -/
def getValidMoves (model : GameModel) : List Square_t :=
  (movesLoop (getValidMovesBitmap
      (getPlayerBitboard model.board (getCurrentPlayer model))
      (getOpponentBitboard model.board (getCurrentPlayer model)))).map
    (fun n => Square_t.mk (n % 8 : Nat) (n / 8 : Nat))

/-- playMove from model.cpp (timer update omitted). Applies the move
unconditionally, swaps the player, handles the pass / game-over scan, and
always returns `true`. -/
def playMove (model : GameModel) (move : Nat) : Bool × GameModel :=
  let currentPlayer := getCurrentPlayer model
  let player := getPlayerBitboard model.board currentPlayer
  let opponent := getOpponentBitboard model.board currentPlayer
  let flips := calculateFlips player opponent move
  let moveBit := 1 <<< move
  let board' :=
    match currentPlayer with
    | PlayerColor_t.black =>
      Board_t.mk (model.board.black ||| (moveBit ||| flips)) (model.board.white &&& not64 flips)
    | PlayerColor_t.white =>
      Board_t.mk (model.board.black &&& not64 flips) (model.board.white ||| (moveBit ||| flips))
  let m1 : GameModel :=
    { model with board := board', currentPlayer := getOpponent currentPlayer }
  if (getValidMoves m1).length = 0 then
    let m2 : GameModel := { m1 with currentPlayer := getOpponent m1.currentPlayer }
    if (getValidMoves m2).length = 0 then (true, { m2 with gameOver := true })
    else (true, m2)
  else (true, m1)

/-! ## Transposition table (transposition_table.h, src/ai/transposition_table.cpp) -/

/-- BOUND_EXACT from transposition_table.h. -/
def BOUND_EXACT : Nat := 0

/-- BOUND_LOWER from transposition_table.h. -/
def BOUND_LOWER : Nat := 1

/-- BOUND_UPPER from transposition_table.h. -/
def BOUND_UPPER : Nat := 2

/-- MOVE_NONE sentinel from model.h, as the `Int` embedding of `Move_t`. -/
def MOVE_NONE : Int := -1

/-- TTEntry from transposition_table.h. The C integer fields keep their
signedness: `score` and `depth` are signed, `bound` and `age` unsigned. -/
structure TTEntry where
  zobristKey : Nat
  score : Int
  bestMove : Int
  depth : Int
  bound : Nat
  age : Nat
deriving DecidableEq, Repr

/-- Default TTEntry (its C default constructor; `clear` zeroes the array
instead, but the code distinguishes cleared entries only by
`zobristKey == 0`). -/
def TTEntry.initial : TTEntry :=
  { zobristKey := 0, score := 0, bestMove := MOVE_NONE, depth := -1
    bound := BOUND_EXACT, age := 0 }

/-- TT_ENTRIES from transposition_table.h:
`(TT_SIZE_MB * 1024 * 1024) / sizeof(TTEntry)` with `sizeof(TTEntry) = 16`
on an LP64 target (8-byte key + 4-byte score + four 1-byte fields, 8-byte
aligned; the in-source comment claiming 24 bytes overstates the padding). -/
def TT_ENTRIES : Nat := (256 * 1024 * 1024) / 16

/-- TranspositionTable from transposition_table.h. The table array becomes
a function from index to entry; the Zobrist constants (initialized in C
from a fixed-seed `std::mt19937_64`) are carried as data, and every
verified property holds for an arbitrary choice of them. -/
structure TranspositionTable where
  table : Nat → TTEntry
  size : Nat
  currentAge : Nat
  zobristPieces : PlayerColor_t → Nat → Nat
  zobristPlayer : Nat
  hits : Nat
  misses : Nat
  collisions : Nat

namespace TranspositionTable

/-- getIndex from transposition_table.cpp. -/
def getIndex (tt : TranspositionTable) (hash : Nat) : Nat :=
  hash % tt.size

/-- Loop of computeHash (transposition_table.cpp): XOR the key of each set
bit into the accumulator, clearing the least significant set bit each
iteration; 64 units of fuel cover a 64-bit bitboard. -/
def hashPiecesAux (key : Nat → Nat) : Nat → Nat → Nat → Nat
  | 0, _, hash => hash
  | fuel + 1, bb, hash =>
    if bb = 0 then hash
    else hashPiecesAux key fuel (bb &&& (bb - 1)) (hash ^^^ key (bitScanForward bb))

/-- computeHash from transposition_table.cpp. -/
def computeHash (tt : TranspositionTable) (board : Board_t) (player : PlayerColor_t) : Nat :=
  let h1 := hashPiecesAux (tt.zobristPieces PlayerColor_t.black) 64 board.black 0
  let h2 := hashPiecesAux (tt.zobristPieces PlayerColor_t.white) 64 board.white h1
  if player = PlayerColor_t.black then h2 ^^^ tt.zobristPlayer else h2

/-- Flip loop of updateHash (transposition_table.cpp): XOR out the
opponent key and XOR in the mover key at each flipped square. -/
def updateFlipsAux (keyOpp keyPl : Nat → Nat) : Nat → Nat → Nat → Nat
  | 0, _, hash => hash
  | fuel + 1, bb, hash =>
    if bb = 0 then hash
    else
      updateFlipsAux keyOpp keyPl fuel (bb &&& (bb - 1))
        ((hash ^^^ keyOpp (bitScanForward bb)) ^^^ keyPl (bitScanForward bb))

/-- updateHash from transposition_table.cpp. -/
def updateHash (tt : TranspositionTable) (hash : Nat) (move : Nat) (flips : Nat)
    (player : PlayerColor_t) : Nat :=
  let h1 := hash ^^^ tt.zobristPieces player move
  let opponent := getOpponent player
  let h2 := updateFlipsAux (tt.zobristPieces opponent) (tt.zobristPieces player) 64 flips h1
  h2 ^^^ tt.zobristPlayer

/-- probe from transposition_table.cpp. The C out-parameters `score` and
`bestMove` become result components: `(usable, score, bestMove, table)`,
where `bestMove` starts from the caller-supplied value (the callers always
pass MOVE_NONE) and `score` keeps a default when the entry is unusable
(the callers never read it in that case). -/
def probe (tt : TranspositionTable) (hash : Nat) (depth : Int) (alpha beta : Int)
    (bestMove0 : Int) : Bool × Int × Int × TranspositionTable :=
  let index := tt.getIndex hash
  let entry := tt.table index
  if entry.zobristKey ≠ hash then
    (false, 0, bestMove0, { tt with misses := tt.misses + 1 })
  else
    let tt := { tt with hits := tt.hits + 1 }
    let bestMove := if entry.bestMove ≠ MOVE_NONE then entry.bestMove else bestMove0
    if entry.depth < depth then (false, 0, bestMove, tt)
    else
      let storedScore := entry.score
      if entry.bound = BOUND_EXACT then (true, storedScore, bestMove, tt)
      else if entry.bound = BOUND_LOWER then
        if beta ≤ storedScore then (true, storedScore, bestMove, tt)
        else (false, 0, bestMove, tt)
      else if entry.bound = BOUND_UPPER then
        if storedScore ≤ alpha then (true, storedScore, bestMove, tt)
        else (false, 0, bestMove, tt)
      else (false, 0, bestMove, tt)

/-- store from transposition_table.cpp. -/
def store (tt : TranspositionTable) (hash : Nat) (depth : Int) (score : Int) (bound : Nat)
    (bestMove : Int) : TranspositionTable :=
  let index := tt.getIndex hash
  let entry := tt.table index
  let collide := entry.zobristKey ≠ 0 ∧ entry.zobristKey ≠ hash
  let tt := if collide then { tt with collisions := tt.collisions + 1 } else tt
  let replace :=
    if entry.zobristKey = 0 then true
    else if entry.zobristKey = hash then decide (entry.depth ≤ depth)
    else if entry.age ≠ tt.currentAge then true
    else decide (entry.depth + 2 < depth)
  if replace then
    let newEntry : TTEntry :=
      { zobristKey := hash, depth := depth, score := score, bound := bound
        bestMove := bestMove, age := tt.currentAge }
    { tt with table := fun j => if j = index then newEntry else tt.table j }
  else tt

/-- getBestMove from transposition_table.cpp. -/
def getBestMove (tt : TranspositionTable) (hash : Nat) : Int :=
  let entry := tt.table (tt.getIndex hash)
  if entry.zobristKey = hash then entry.bestMove else MOVE_NONE

/-- newSearch from transposition_table.cpp: bump the age, wrapping a
`uint8_t` from 255 back to 1 (never 0). -/
def newSearch (tt : TranspositionTable) : TranspositionTable :=
  let age := (tt.currentAge + 1) % 256
  { tt with currentAge := if age = 0 then 1 else age }

end TranspositionTable

/-! ## Position evaluator (ai.cpp EXTREME branch; AIExtreme::Evaluator in
src/ai/ai_extreme.cpp is textually identical, including the weight macros
and the piece-square table, so one embedding serves both) -/

/-- WEIGHT_MOBILITY from ai.h / ai_extreme.h. -/
def WEIGHT_MOBILITY : Int := 10

/-- WEIGHT_CORNER from ai.h / ai_extreme.h. -/
def WEIGHT_CORNER : Int := 100

/-- WEIGHT_STABILITY from ai.h / ai_extreme.h. -/
def WEIGHT_STABILITY : Int := 15

/-- WEIGHT_FRONTIER from ai.h / ai_extreme.h. -/
def WEIGHT_FRONTIER : Int := -5

/-- INFINITY_SCORE from ai.h / ai_extreme.h. -/
def INFINITY_SCORE : Int := 1000000

/-- WIN_SCORE from ai.h / ai_extreme.h. -/
def WIN_SCORE : Int := 100000

/-- LOSE_SCORE from ai.h / ai_extreme.h. -/
def LOSE_SCORE : Int := -100000

/-- MAX_SEARCH_DEPTH from ai.h / ai_extreme.h. -/
def MAX_SEARCH_DEPTH : Nat := 12

/-- ENDGAME_DEPTH from ai.h / ai_extreme.h. -/
def ENDGAME_DEPTH : Nat := 16

/-- ENDGAME_THRESHOLD from ai.h / ai_extreme.h. -/
def ENDGAME_THRESHOLD : Nat := 12

/-- getDiscCount from model.h. -/
def getDiscCount (board : Board_t) : Nat :=
  countBits (board.black ||| board.white)

/-- getEmptyCount from model.h. -/
def getEmptyCount (board : Board_t) : Nat :=
  64 - getDiscCount board

/-- countRegion from model.h. -/
def countRegion (board : Board_t) (player : PlayerColor_t) (mask : Nat) : Nat :=
  countBits (getPlayerBitboard board player &&& mask)

/-- getCornerCount from model.h. -/
def getCornerCount (board : Board_t) (player : PlayerColor_t) : Nat :=
  countRegion board player CORNERS

/-- Modelled from the spec: `getMoveCount` is declared in model.h and used
by the evaluators and move ordering, but no definition exists under src/.
The spec describes it as the player's legal-move count used for the
mobility term ("(own legal-move count − opponent legal-move count)"), i.e.
the population count of the legal-move bitmask. -/
def getMoveCount (board : Board_t) (player : PlayerColor_t) : Nat :=
  countBits (getValidMovesBitmap (getPlayerBitboard board player)
    (getOpponentBitboard board player))

namespace Evaluator

/-- pieceSquareTable from ai.cpp / ai_extreme.cpp. -/
def pieceSquareTable : List Int :=
  [100, -20, 10, 5,  5,  10, -20, 100,
   -20, -50, -2, -2, -2, -2, -50, -20,
   10,  -2,  5,  1,  1,  5,  -2,  10,
   5,   -2,  1,  1,  1,  1,  -2,  5,
   5,   -2,  1,  1,  1,  1,  -2,  5,
   10,  -2,  5,  1,  1,  5,  -2,  10,
   -20, -50, -2, -2, -2, -2, -50, -20,
   100, -20, 10, 5,  5,  10, -20, 100]

/-- Evaluator::evaluateMobility from ai.cpp / ai_extreme.cpp. -/
def evaluateMobility (board : Board_t) (player : PlayerColor_t) : Int :=
  let myMoves : Int := getMoveCount board player
  let oppMoves : Int := getMoveCount board (getOpponent player)
  if myMoves + oppMoves = 0 then 0 else myMoves - oppMoves

/-- Evaluator::evaluateCorners from ai.cpp / ai_extreme.cpp. -/
def evaluateCorners (board : Board_t) (player : PlayerColor_t) : Int :=
  (getCornerCount board player : Int) - (getCornerCount board (getOpponent player) : Int)

/-- Evaluator::evaluatePositional from ai.cpp / ai_extreme.cpp. -/
def evaluatePositional (board : Board_t) (player : PlayerColor_t) : Int :=
  let myPieces := getPlayerBitboard board player
  let oppPieces := getOpponentBitboard board player
  (List.range 64).foldl
    (fun score pos =>
      let score := if myPieces &&& (1 <<< pos) ≠ 0 then score + pieceSquareTable.getD pos 0
        else score
      if oppPieces &&& (1 <<< pos) ≠ 0 then score - pieceSquareTable.getD pos 0 else score)
    0

/-- Evaluator::evaluateStability from ai.cpp / ai_extreme.cpp. -/
def evaluateStability (board : Board_t) (player : PlayerColor_t) : Int :=
  let myPieces := getPlayerBitboard board player
  let oppPieces := getOpponentBitboard board player
  (countBits (myPieces &&& CORNERS) : Int) * 5 - (countBits (oppPieces &&& CORNERS) : Int) * 5 +
    (countBits (myPieces &&& EDGES) : Int) - (countBits (oppPieces &&& EDGES) : Int)

/-- Evaluator::evaluateFrontier from ai.cpp / ai_extreme.cpp. -/
def evaluateFrontier (board : Board_t) (player : PlayerColor_t) : Int :=
  let myPieces := getPlayerBitboard board player
  let oppPieces := getOpponentBitboard board player
  let empty := getEmptyBitboard board
  let adjacentToEmpty :=
    ((empty >>> 8) ||| ((empty <<< 8) % 2 ^ 64)) |||
    (((empty &&& not64 FILE_A) >>> 1) ||| (((empty &&& not64 FILE_H) <<< 1) % 2 ^ 64)) |||
    (((empty &&& not64 FILE_A) >>> 9) ||| (((empty &&& not64 FILE_H) <<< 9) % 2 ^ 64)) |||
    (((empty &&& not64 FILE_H) >>> 7) ||| (((empty &&& not64 FILE_A) <<< 7) % 2 ^ 64))
  let myFrontier : Int := countBits (myPieces &&& adjacentToEmpty)
  let oppFrontier : Int := countBits (oppPieces &&& adjacentToEmpty)
  oppFrontier - myFrontier

/-- Evaluator::evaluateDiscParity from ai.cpp / ai_extreme.cpp. -/
def evaluateDiscParity (board : Board_t) (player : PlayerColor_t) : Int :=
  getScoreDiff board player

/-- Evaluator::evaluate from ai.cpp / ai_extreme.cpp: the phase-weighted
heuristic blend. There is no terminal-position branch; the only early
return is the endgame disc-parity shortcut for at most 10 empties. -/
def evaluate (board : Board_t) (player : PlayerColor_t) : Int :=
  let emptyCount : Int := getEmptyCount board
  if emptyCount ≤ 10 then evaluateDiscParity board player * 10
  else
    let score := evaluateMobility board player * WEIGHT_MOBILITY
    let score := score + evaluateCorners board player * WEIGHT_CORNER
    let score := score + evaluatePositional board player
    let score := if emptyCount < 30 then
      score + evaluateStability board player * WEIGHT_STABILITY else score
    let score := if 20 < emptyCount then
      score + evaluateFrontier board player * WEIGHT_FRONTIER else score
    if emptyCount < 20 then score + evaluateDiscParity board player * (30 - emptyCount)
    else score

end Evaluator

/-! ## Move ordering (ai.cpp EXTREME branch; AIExtreme::SearchEngine's
orderMoves / scoreMoveForOrdering in src/ai/ai_extreme.cpp are textually
identical, so one embedding serves both) -/

/-- scoreMoveForOrdering from ai.cpp / ai_extreme.cpp. -/
def scoreMoveForOrdering (move : Nat) (board : Board_t) (player : PlayerColor_t) : Int :=
  let score : Int :=
    if (1 <<< move) &&& CORNERS ≠ 0 then 10000
    else if (1 <<< move) &&& X_SQUARES ≠ 0 then -5000
    else if (1 <<< move) &&& EDGES ≠ 0 then 100
    else 0
  let playerBB := getPlayerBitboard board player
  let opponentBB := getOpponentBitboard board player
  let flips : Int := countBits (calculateFlips playerBB opponentBB move)
  let score := score + flips * 10
  let r := makeMove board player move
  let oppMobility : Int := getMoveCount r.2.1 r.2.2
  score - oppMobility * 5

/-- Insertion step of the sorting used to embed `std::sort`. -/
def insertByCmp (cmp : Nat → Nat → Bool) (x : Nat) : List Nat → List Nat
  | [] => [x]
  | y :: ys => if cmp x y then x :: y :: ys else y :: insertByCmp cmp x ys

/-- Insertion sort standing in for `std::sort`. With the engines'
comparator, `std::sort` fixes the order only up to ties (its order among
tie scores is implementation-defined); insertion sort realizes one
compatible order, and no verified claim depends on the choice. -/
def sortByCmp (cmp : Nat → Nat → Bool) : List Nat → List Nat
  | [] => []
  | x :: xs => insertByCmp cmp x (sortByCmp cmp xs)

/-- orderMoves from ai.cpp / ai_extreme.cpp: the pvMove first, the rest by
descending ordering score. -/
def orderMoves (pvMove : Int) (board : Board_t) (player : PlayerColor_t)
    (moves : List Nat) : List Nat :=
  sortByCmp
    (fun a b =>
      if (a : Int) = pvMove then true
      else if (b : Int) = pvMove then false
      else scoreMoveForOrdering b board player < scoreMoveForOrdering a board player)
    moves

/-! ## SearchEngine of ai.cpp (the EXTREME_DIFFICULTY branch that ai.h
selects; it owns a transposition table member but its search functions
never touch it). Wall-clock time is modeled by an oracle: the n-th call
of isTimeUp returns `oracle n`. -/

namespace SearchEngine

/-- Mutable state of a SearchEngine (ai.cpp) plus the board the C code
mutates through a reference, plus the count of isTimeUp calls made. -/
structure SState where
  board : Board_t
  nodesSearched : Nat
  cutoffs : Nat
  maxDepthReached : Nat
  pvMove : Int
  timeCalls : Nat

/-- isTimeUp from ai.cpp, as oracle consumption. -/
def checkTime (oracle : Nat → Bool) (s : SState) : Bool × SState :=
  (oracle s.timeCalls, { s with timeCalls := s.timeCalls + 1 })

/-- Move loop of SearchEngine::negamax (ai.cpp): make, recurse negated,
unmake, fold alpha and best score, beta cutoff. -/
def negamaxLoop (recur : SState → PlayerColor_t → Int → Int → Int × SState)
    (player : PlayerColor_t) :
    List Nat → SState → Int → Int → Int → Int × SState
  | [], s, _, _, best => (best, s)
  | mv :: rest, s, alpha, beta, best =>
    let r := makeMove s.board player mv
    let rr := recur { s with board := r.2.1 } r.2.2 (-beta) (-alpha)
    let score := -rr.1
    let s3 := { rr.2 with board := (unmakeMove r.1).1 }
    let best' := max best score
    let alpha' := max alpha score
    if beta ≤ alpha' then (best', { s3 with cutoffs := s3.cutoffs + 1 })
    else negamaxLoop recur player rest s3 alpha' beta best'

/-- SearchEngine::negamax from ai.cpp. -/
def negamax (oracle : Nat → Bool) :
    Nat → SState → PlayerColor_t → Int → Int → Int × SState
  | 0, s, player, _, _ =>
    let s := { s with nodesSearched := s.nodesSearched + 1 }
    (Evaluator.evaluate s.board player, s)
  | depth + 1, s, player, alpha, beta =>
    let s := { s with nodesSearched := s.nodesSearched + 1 }
    if isTerminal s.board player then (Evaluator.evaluate s.board player, s)
    else
      let tc := if s.nodesSearched &&& 0x3FF = 0 then checkTime oracle s else (false, s)
      if tc.1 then (Evaluator.evaluate tc.2.board player, tc.2)
      else
        let s := tc.2
        let moves := getValidMovesAI s.board player
        if moves.isEmpty then
          let opponent := getOpponent player
          if !hasValidMoves s.board opponent then
            let finalScore := getScoreDiff s.board player
            (if 0 < finalScore then WIN_SCORE else if finalScore < 0 then LOSE_SCORE else 0, s)
          else
            let r := negamax oracle depth s opponent (-beta) (-alpha)
            (-r.1, r.2)
        else
          let moves := orderMoves s.pvMove s.board player moves
          negamaxLoop (negamax oracle depth) player moves s alpha beta (-INFINITY_SCORE)

/-- Move loop of SearchEngine::rootSearch (ai.cpp), with its per-move
time check. -/
def rootLoop (oracle : Nat → Bool)
    (recur : SState → PlayerColor_t → Int → Int → Int × SState)
    (player : PlayerColor_t) :
    List Nat → SState → Int → Int → Int → Int → Int × SState
  | [], s, _, _, bestMove, _ => (bestMove, s)
  | mv :: rest, s, alpha, beta, bestMove, bestScore =>
    let tc := checkTime oracle s
    if tc.1 then (bestMove, tc.2)
    else
      let s0 := tc.2
      let r := makeMove s0.board player mv
      let rr := recur { s0 with board := r.2.1 } r.2.2 (-beta) (-alpha)
      let score := -rr.1
      let s3 := { rr.2 with board := (unmakeMove r.1).1 }
      let bm := if bestScore < score then ((mv : Int), score) else (bestMove, bestScore)
      let alpha' := max alpha score
      if beta ≤ alpha' then (bm.1, { s3 with cutoffs := s3.cutoffs + 1 })
      else rootLoop oracle recur player rest s3 alpha' beta bm.1 bm.2

/-- SearchEngine::rootSearch from ai.cpp. -/
def rootSearch (oracle : Nat → Bool) (s : SState) (player : PlayerColor_t) (depth : Nat)
    (alpha beta : Int) : Int × SState :=
  let moves := getValidMovesAI s.board player
  if moves.isEmpty then (MOVE_NONE, s)
  else
    let moves := orderMoves s.pvMove s.board player moves
    rootLoop oracle (negamax oracle (depth - 1)) player moves s alpha beta
      ((moves.headD 0 : Nat) : Int) (-INFINITY_SCORE)

/-- Iterative-deepening loop of SearchEngine::search (ai.cpp),
instrumented with the list of depths at which rootSearch was invoked.
Mirrors the source exactly, including the unconditional
`if (bestMove != MOVE_NONE) break;` that follows the first iteration
whose root search produced a move. -/
def searchLoop (oracle : Nat → Bool) (player : PlayerColor_t) :
    List Nat → SState → Int → Int × List Nat × SState
  | [], s, best => (best, [], s)
  | d :: rest, s, best =>
    let tc := checkTime oracle s
    if tc.1 then (best, [], tc.2)
    else
      let cs := rootSearch oracle tc.2 player d (-INFINITY_SCORE) INFINITY_SCORE
      let bs := if cs.1 ≠ MOVE_NONE then
          (cs.1, { cs.2 with pvMove := cs.1, maxDepthReached := d }) else (best, cs.2)
      if bs.1 ≠ MOVE_NONE then (bs.1, [d], bs.2)
      else
        let tc2 := checkTime oracle bs.2
        if tc2.1 then (bs.1, [d], tc2.2)
        else
          let res := searchLoop oracle player rest tc2.2 bs.1
          (res.1, d :: res.2.1, res.2.2)

/-- SearchEngine::search from ai.cpp: fresh statistics, phase-dependent
maximum depth, then the iterative-deepening loop over depths 1, 2, …. -/
def search (oracle : Nat → Bool) (board : Board_t) (player : PlayerColor_t) :
    Int × List Nat × SState :=
  let s0 : SState :=
    { board := board, nodesSearched := 0, cutoffs := 0, maxDepthReached := 0
      pvMove := MOVE_NONE, timeCalls := 0 }
  let emptyCount := getEmptyCount board
  let maxDepth := if emptyCount ≤ ENDGAME_THRESHOLD then ENDGAME_DEPTH else MAX_SEARCH_DEPTH
  searchLoop oracle player (List.range' 1 maxDepth) s0 MOVE_NONE

end SearchEngine

/-! ## AIExtreme::SearchEngine from src/ai/ai_extreme.cpp: negamax with
transposition table, node budget and time budget. -/

namespace AIExtreme

/-- Mutable state of an AIExtreme::SearchEngine plus the board the C code
mutates through a reference, plus the count of isTimeUp calls made. -/
structure XState where
  board : Board_t
  tt : TranspositionTable
  nodesSearched : Nat
  cutoffs : Nat
  maxDepthReached : Nat
  pvMove : Int
  maxNodesLimit : Nat
  timeCalls : Nat

/-- isTimeUp from ai_extreme.cpp, as oracle consumption. -/
def checkTime (oracle : Nat → Bool) (s : XState) : Bool × XState :=
  (oracle s.timeCalls, { s with timeCalls := s.timeCalls + 1 })

/-- Move-to-front of the transposition-table move (`std::find`, `erase`,
`insert(begin, ...)` in rootSearch and negamax of ai_extreme.cpp). -/
def moveToFront (ttMove : Int) (moves : List Nat) : List Nat :=
  if moves.any (fun m => (m : Int) == ttMove) then
    ttMove.toNat :: moves.eraseP (fun m => (m : Int) == ttMove)
  else moves

/-- Move loop of AIExtreme::SearchEngine::negamax: node-limit break, flip
computation, make, incremental hash, recurse negated, unmake, alpha and
bound bookkeeping, beta cutoff clamping bestScore to beta. -/
def negamaxXLoop (recur : XState → PlayerColor_t → Int → Int → Nat → Int × XState)
    (player : PlayerColor_t) (hash : Nat) :
    List Nat → XState → Int → Int → Int → Int → Nat → Int × Int × Nat × XState
  | [], s, _, _, bestScore, bestMove, bound => (bestScore, bestMove, bound, s)
  | mv :: rest, s, alpha, beta, bestScore, bestMove, bound =>
    if s.maxNodesLimit ≤ s.nodesSearched then (bestScore, bestMove, bound, s)
    else
      let flips := calculateFlips (getPlayerBitboard s.board player)
        (getOpponentBitboard s.board player) mv
      let r := makeMove s.board player mv
      let nextHash := s.tt.updateHash hash mv flips player
      let rr := recur { s with board := r.2.1 } r.2.2 (-beta) (-alpha) nextHash
      let score := -rr.1
      let s3 := { rr.2 with board := (unmakeMove r.1).1 }
      let bb := if bestScore < score then (score, (mv : Int)) else (bestScore, bestMove)
      let ab := if alpha < score then (score, BOUND_EXACT) else (alpha, bound)
      if beta ≤ ab.1 then (beta, bb.2, BOUND_LOWER, { s3 with cutoffs := s3.cutoffs + 1 })
      else negamaxXLoop recur player hash rest s3 ab.1 beta bb.1 bb.2 ab.2

/-- AIExtreme::SearchEngine::negamax from ai_extreme.cpp. -/
def negamaxX (oracle : Nat → Bool) :
    Nat → XState → PlayerColor_t → Int → Int → Nat → Int × XState
  | 0, s, player, alpha, beta, hash =>
    let s := { s with nodesSearched := s.nodesSearched + 1 }
    let pr := s.tt.probe hash 0 alpha beta MOVE_NONE
    let s := { s with tt := pr.2.2.2 }
    if pr.1 then (pr.2.1, s)
    else
      let score := Evaluator.evaluate s.board player
      (score, { s with tt := s.tt.store hash 0 score BOUND_EXACT MOVE_NONE })
  | depth + 1, s, player, alpha, beta, hash =>
    let s := { s with nodesSearched := s.nodesSearched + 1 }
    let pr := s.tt.probe hash (depth + 1) alpha beta MOVE_NONE
    let s := { s with tt := pr.2.2.2 }
    let ttMove := pr.2.2.1
    if pr.1 then (pr.2.1, s)
    else if isTerminal s.board player then
      let score := Evaluator.evaluate s.board player
      (score, { s with tt := s.tt.store hash (depth + 1) score BOUND_EXACT MOVE_NONE })
    else
      let tc := if s.nodesSearched &&& 0x3FF = 0 then checkTime oracle s else (false, s)
      let s := tc.2
      if tc.1 || decide (s.maxNodesLimit ≤ s.nodesSearched) then
        (Evaluator.evaluate s.board player, s)
      else
        let moves := getValidMovesAI s.board player
        if moves.isEmpty then
          let opponent := getOpponent player
          if !hasValidMoves s.board opponent then
            let finalScore := getScoreDiff s.board player
            let score := if 0 < finalScore then WIN_SCORE
              else if finalScore < 0 then LOSE_SCORE else 0
            (score, { s with tt := s.tt.store hash (depth + 1) score BOUND_EXACT MOVE_NONE })
          else
            let passHash := hash ^^^ s.tt.zobristPlayer
            let r := negamaxX oracle depth s opponent (-beta) (-alpha) passHash
            (-r.1, r.2)
        else
          let moves := if ttMove ≠ MOVE_NONE then moveToFront ttMove moves else moves
          let moves := orderMoves s.pvMove s.board player moves
          let res := negamaxXLoop (negamaxX oracle depth) player hash moves s alpha beta
            (-INFINITY_SCORE) ((moves.headD 0 : Nat) : Int) BOUND_UPPER
          (res.1, { res.2.2.2 with
            tt := res.2.2.2.tt.store hash (depth + 1) res.1 res.2.2.1 res.2.1 })

/-- Move loop of AIExtreme::SearchEngine::rootSearch: per-move time and
node-limit break, otherwise as the negamax loop but without clamping the
best score to beta on a cutoff. -/
def rootXLoop (oracle : Nat → Bool)
    (recur : XState → PlayerColor_t → Int → Int → Nat → Int × XState)
    (player : PlayerColor_t) (hash : Nat) :
    List Nat → XState → Int → Int → Int → Int → Nat → Int × Int × Nat × XState
  | [], s, _, _, bestScore, bestMove, bound => (bestScore, bestMove, bound, s)
  | mv :: rest, s, alpha, beta, bestScore, bestMove, bound =>
    let tc := checkTime oracle s
    if tc.1 || decide (tc.2.maxNodesLimit ≤ tc.2.nodesSearched) then
      (bestScore, bestMove, bound, tc.2)
    else
      let s0 := tc.2
      let flips := calculateFlips (getPlayerBitboard s0.board player)
        (getOpponentBitboard s0.board player) mv
      let r := makeMove s0.board player mv
      let nextHash := s0.tt.updateHash hash mv flips player
      let rr := recur { s0 with board := r.2.1 } r.2.2 (-beta) (-alpha) nextHash
      let score := -rr.1
      let s3 := { rr.2 with board := (unmakeMove r.1).1 }
      let bb := if bestScore < score then (score, (mv : Int)) else (bestScore, bestMove)
      let ab := if alpha < score then (score, BOUND_EXACT) else (alpha, bound)
      if beta ≤ ab.1 then (bb.1, bb.2, BOUND_LOWER, { s3 with cutoffs := s3.cutoffs + 1 })
      else rootXLoop oracle recur player hash rest s3 ab.1 beta bb.1 bb.2 ab.2

/-- AIExtreme::SearchEngine::rootSearch from ai_extreme.cpp. -/
def rootSearchX (oracle : Nat → Bool) (s : XState) (player : PlayerColor_t) (depth : Nat)
    (alpha beta : Int) : Int × XState :=
  let moves := getValidMovesAI s.board player
  if moves.isEmpty then (MOVE_NONE, s)
  else
    let hash := s.tt.computeHash s.board player
    let ttMove := s.tt.getBestMove hash
    let moves := if ttMove ≠ MOVE_NONE then moveToFront ttMove moves else moves
    let moves := orderMoves s.pvMove s.board player moves
    let res := rootXLoop oracle (negamaxX oracle (depth - 1)) player hash moves s alpha beta
      (-INFINITY_SCORE) ((moves.headD 0 : Nat) : Int) BOUND_UPPER
    (res.2.1, { res.2.2.2 with
      tt := res.2.2.2.tt.store hash depth res.1 res.2.2.1 res.2.1 })

/-- Iterative-deepening loop of AIExtreme::SearchEngine::search. -/
def searchXLoop (oracle : Nat → Bool) (player : PlayerColor_t) :
    List Nat → XState → Int → Int × XState
  | [], s, best => (best, s)
  | d :: rest, s, best =>
    let tc := checkTime oracle s
    if tc.1 then (best, tc.2)
    else
      let cs := rootSearchX oracle tc.2 player d (-INFINITY_SCORE) INFINITY_SCORE
      let bs := if cs.1 ≠ MOVE_NONE then
          (cs.1, { cs.2 with pvMove := cs.1, maxDepthReached := d }) else (best, cs.2)
      let tc2 := checkTime oracle bs.2
      if tc2.1 then (bs.1, tc2.2)
      else searchXLoop oracle player rest tc2.2 bs.1

/-- AIExtreme::SearchEngine::search from ai_extreme.cpp. -/
def searchX (oracle : Nat → Bool) (board : Board_t) (player : PlayerColor_t)
    (tt : TranspositionTable) (maxNodesLimit : Nat) : Int × XState :=
  let s0 : XState :=
    { board := board, tt := tt.newSearch, nodesSearched := 0, cutoffs := 0
      maxDepthReached := 0, pvMove := MOVE_NONE, maxNodesLimit := maxNodesLimit
      timeCalls := 0 }
  let emptyCount := getEmptyCount board
  let maxDepth := if emptyCount ≤ ENDGAME_THRESHOLD then ENDGAME_DEPTH else MAX_SEARCH_DEPTH
  searchXLoop oracle player (List.range' 1 maxDepth) s0 MOVE_NONE

end AIExtreme

/-! ## Opening book (src/ai/opening_book.cpp). The book map becomes an
association list; the statistics fields and the RNG-based probe (seeded
from `std::random_device`, hence not a function of its inputs) are outside
the verified claims and are not embedded. -/

namespace OpeningBook

/-- BOOK_MAX_DEPTH from opening_book.h. -/
def BOOK_MAX_DEPTH : Nat := 12

/-- BookMove from opening_book.h. -/
structure BookMove where
  move : Int
  gameCount : Nat
  winCount : Nat
  drawCount : Nat
  lossCount : Nat
deriving DecidableEq, Repr

/-- BookPosition from opening_book.h. -/
structure BookPosition where
  moves : List BookMove
  totalGames : Nat
deriving DecidableEq, Repr

/-- Default-constructed BookPosition. -/
def BookPosition.initial : BookPosition := ⟨[], 0⟩

/-- Book storage: the `unordered_map<uint64_t, BookPosition>` as an
association list. -/
abbrev Book := List (Nat × BookPosition)

/-- Lookup with default construction, as `book[hash]` reads. -/
def bookGet (book : Book) (hash : Nat) : BookPosition :=
  match book.find? (fun e => e.1 == hash) with
  | some e => e.2
  | none => BookPosition.initial

/-- Write-back of `book[hash]`, creating the entry if absent. -/
def bookSet : Book → Nat → BookPosition → Book
  | [], h, p => [(h, p)]
  | (k, v) :: rest, h, p =>
    if k = h then (h, p) :: rest else (k, v) :: bookSet rest h p

/-- decodeWThorMove from opening_book.cpp. For 0 < w < 10 the C code
computes a negative column (truncating division of the negative
`decoded`), which its range check rejects, hence MOVE_NONE. -/
def decodeWThorMove (w : Nat) : Int :=
  if w = 0 then MOVE_NONE
  else if w < 10 then MOVE_NONE
  else
    let decoded := w - 10
    let row := decoded / 10
    let col := decoded % 10
    if 8 ≤ row ∨ 8 ≤ col then MOVE_NONE
    else ((row * 8 + col : Nat) : Int)

/-- Per-move update of a position's move list in addGame: bump the
matching entry or append a fresh one, then apply the outcome counter. -/
def updateBookMoves (mvs : List BookMove) (move : Int) (playerWon draw : Bool) :
    List BookMove :=
  let bump := fun (bm : BookMove) =>
    let bm := { bm with gameCount := bm.gameCount + 1 }
    if draw then { bm with drawCount := bm.drawCount + 1 }
    else if playerWon then { bm with winCount := bm.winCount + 1 }
    else { bm with lossCount := bm.lossCount + 1 }
  match mvs with
  | [] => [bump ⟨move, 0, 0, 0, 0⟩]
  | bm :: rest =>
    if bm.move = move then bump bm :: rest
    else bm :: updateBookMoves rest move playerWon draw

/-- Replay loop of addGame (opening_book.cpp): hash the position, record
the move with its outcome, apply the move (the same flip application as
makeMove), swap sides; stop at MOVE_NONE. -/
def addGameLoop (tt : TranspositionTable) (blackWon draw : Bool) :
    List Int → Board_t → PlayerColor_t → Book → Book
  | [], _, _, book => book
  | mv :: rest, board, player, book =>
    if mv = MOVE_NONE then book
    else
      let hash := tt.computeHash board player
      let pos := bookGet book hash
      let playerIsBlack := player = PlayerColor_t.black
      let playerWon : Bool := (playerIsBlack ∧ blackWon) ∨ (¬playerIsBlack ∧ ¬blackWon ∧ ¬draw)
      let pos' : BookPosition :=
        { totalGames := pos.totalGames + 1
          moves := updateBookMoves pos.moves mv playerWon draw }
      let book' := bookSet book hash pos'
      let board' := (makeMove board player mv.toNat).2.1
      addGameLoop tt blackWon draw rest board' (getOpponent player) book'

/-- addGame from opening_book.cpp. The initial four discs match the
engine's starting position; at most BOOK_MAX_DEPTH moves are replayed. -/
def addGame (tt : TranspositionTable) (moves : List Int) (blackScore : Int)
    (book : Book) : Book :=
  if moves.isEmpty then book
  else
    let whiteScore : Int := 64 - blackScore
    let blackWon : Bool := whiteScore < blackScore
    let draw : Bool := blackScore = whiteScore
    let board0 : Board_t := Board_t.mk ((1 <<< 35) ||| (1 <<< 28)) ((1 <<< 27) ||| (1 <<< 36))
    addGameLoop tt blackWon draw (moves.take BOOK_MAX_DEPTH) board0 PlayerColor_t.black book

/-- Move extraction of loadWTBFile: decode bytes 8..67, stopping at the
first byte that decodes to MOVE_NONE. -/
def extractMoves : List Nat → List Int
  | [] => []
  | b :: bs =>
    let m := decodeWThorMove b
    if m = MOVE_NONE then [] else m :: extractMoves bs

/-- Game loop of loadWTBFile: up to the declared number of games, read a
68-byte record (breaking when fewer bytes remain, as the failed
`file.read` does), decode its moves and score byte, and ingest it when
the score is in range and at least one move decoded. -/
def loadGamesLoop (tt : TranspositionTable) :
    Nat → List Nat → Book → Nat → Nat × Book
  | 0, _, book, loaded => (loaded, book)
  | g + 1, stream, book, loaded =>
    if stream.length < 68 then (loaded, book)
    else
      let gameData := stream.take 68
      let rest := stream.drop 68
      let moves := extractMoves (gameData.drop 8)
      let blackScore := gameData.getD 7 0
      if blackScore ≤ 64 ∧ ¬moves.isEmpty then
        loadGamesLoop tt g rest (addGame tt moves (blackScore : Int) book) (loaded + 1)
      else loadGamesLoop tt g rest book loaded

/-- loadWTBFile from opening_book.cpp, over the file's byte stream: read
the 16-byte header (failing to 0 games when shorter), take the
little-endian declared game count of bytes 4..7 (as the signed `int` the
C code uses, so a count with the top bit set goes negative and loads
nothing), then run the game loop. -/
def loadWTBFile (tt : TranspositionTable) (bytes : List Nat) (book : Book) : Nat × Book :=
  if bytes.length < 16 then (0, book)
  else
    let header := bytes.take 16
    let raw := header.getD 4 0 ||| (header.getD 5 0 <<< 8) |||
      (header.getD 6 0 <<< 16) ||| (header.getD 7 0 <<< 24)
    let gameCount : Int := if raw < 2 ^ 31 then (raw : Int) else (raw : Int) - 2 ^ 32
    loadGamesLoop tt gameCount.toNat (bytes.drop 16) book 0

end OpeningBook

/-! ## Proof-side geometry: board coordinates, rays and chains.

These definitions are not part of the source; they give the common
language in which the Kogge-Stone generator and the per-square walker are
both characterized. -/

/-- Coordinates lie on the 8×8 board. -/
def inBoard (cx cy : Int) : Prop :=
  0 ≤ cx ∧ cx < 8 ∧ 0 ≤ cy ∧ cy < 8

instance (cx cy : Int) : Decidable (inBoard cx cy) := by
  unfold inBoard
  infer_instance

/-- Square index of coordinates (row-major, `x + 8 * y`). -/
def sqIdx (cx cy : Int) : Nat :=
  (cy * 8 + cx).toNat

/-- ray player opponent cx cy dx dy len: starting at (cx, cy) and stepping
by (dx, dy), there are `len` consecutive opponent discs followed by one
player disc, all on the board. -/
def ray (player opponent : Nat) (cx cy dx dy : Int) (len : Nat) : Prop :=
  (∀ j : Nat, j < len →
    inBoard (cx + j * dx) (cy + j * dy) ∧
      opponent.testBit (sqIdx (cx + j * dx) (cy + j * dy)) = true) ∧
  inBoard (cx + len * dx) (cy + len * dy) ∧
  player.testBit (sqIdx (cx + len * dx) (cy + len * dy)) = true

/-- Kogge-Stone candidate accumulator: `ksCand p o sh t` is the value of
the `candidates` variable of generateMovesInDirection after `t` of its
five propagation updates. -/
def ksCand (p o : Nat) (sh : Nat → Nat) : Nat → Nat
  | 0 => sh p &&& o
  | t + 1 => ksCand p o sh t ||| (sh (ksCand p o sh t) &&& o)

/-- Disjointness invariant of the two occupancy masks. -/
def disjointMasks (b : Board_t) : Prop :=
  b.black &&& b.white = 0

instance (b : Board_t) : Decidable (disjointMasks b) := by
  unfold disjointMasks
  infer_instance

/-- XOR of `key` over a list of square indices (proof-side). -/
def xorFold (key : Nat → Nat) (l : List Nat) : Nat :=
  l.foldl (fun a i => a ^^^ key i) 0

/-- XOR of `key` over the set bits of a 64-bit bitboard (proof-side):
the canonical value both computeHash and updateHash are reduced to. -/
def bitsXor (key : Nat → Nat) (bb : Nat) : Nat :=
  xorFold key ((List.range 64).filter (fun i => bb.testBit i))

/-- Concrete transposition table used to instantiate table-generic
theorems on concrete inputs. -/
def sampleTT : TranspositionTable :=
  { table := fun _ => TTEntry.initial
    size := 16
    currentAge := 1
    zobristPieces := fun _ n => n + 1
    zobristPlayer := 7
    hits := 0
    misses := 0
    collisions := 0 }

end EDAversi

namespace EDAversi

/-! # Theorems

First a small toolkit of bit-level lemmas, then the claim theorems with
their supporting lemmas. -/

/-! ## Bit toolkit -/

theorem testBit_ge_64 {x : Nat} (hx : x < 2 ^ 64) {i : Nat} (hi : 64 ≤ i) :
    x.testBit i = false :=
  Nat.testBit_eq_false_of_lt (lt_of_lt_of_le hx (Nat.pow_le_pow_right (by omega) hi))

theorem lor_lt_64 {x y : Nat} (hx : x < 2 ^ 64) (hy : y < 2 ^ 64) : x ||| y < 2 ^ 64 :=
  Nat.or_lt_two_pow hx hy

theorem and_lt_64_right {x y : Nat} (hy : y < 2 ^ 64) : x &&& y < 2 ^ 64 :=
  lt_of_le_of_lt Nat.and_le_right hy

theorem and_lt_64_left {x y : Nat} (hx : x < 2 ^ 64) : x &&& y < 2 ^ 64 :=
  lt_of_le_of_lt Nat.and_le_left hx

theorem not64_lt {x : Nat} (hx : x < 2 ^ 64) : not64 x < 2 ^ 64 :=
  Nat.xor_lt_two_pow hx (Nat.sub_lt (by positivity) one_pos)

theorem shiftRight_lt_64 {x : Nat} (hx : x < 2 ^ 64) (n : Nat) : x >>> n < 2 ^ 64 := by
  calc x >>> n = x / 2 ^ n := Nat.shiftRight_eq_div_pow x n
  _ ≤ x := Nat.div_le_self x _
  _ < 2 ^ 64 := hx

theorem mod_two_pow_lt_64 (x : Nat) : x % 2 ^ 64 < 2 ^ 64 :=
  Nat.mod_lt _ (by positivity)

theorem testBit_not64 {x : Nat} (hx : x < 2 ^ 64) (i : Nat) :
    (not64 x).testBit i = (decide (i < 64) && !x.testBit i) := by
  unfold not64
  rw [Nat.testBit_xor, Nat.testBit_two_pow_sub_one]
  rcases Nat.lt_or_ge i 64 with h | h
  · simp [h]
  · simp [Nat.not_lt.mpr h, testBit_ge_64 hx h]

theorem testBit_one_shiftLeft (n i : Nat) : (1 <<< n).testBit i = decide (n = i) := by
  rw [Nat.one_shiftLeft]
  exact Nat.testBit_two_pow

theorem and_one_shiftLeft_ne_zero (x n : Nat) : x &&& (1 <<< n) ≠ 0 ↔ x.testBit n = true := by
  rw [Nat.one_shiftLeft, Nat.and_two_pow]
  have hpow : 2 ^ n ≠ 0 := Nat.pos_iff_ne_zero.mp (Nat.pos_pow_of_pos n (by omega))
  cases h : x.testBit n <;> simp [h, hpow]

theorem one_shiftLeft_and_ne_zero (x n : Nat) : (1 <<< n) &&& x ≠ 0 ↔ x.testBit n = true := by
  rw [Nat.land_comm]
  exact and_one_shiftLeft_ne_zero x n

theorem testBit_of_and_eq_zero {x y : Nat} (h : x &&& y = 0) {i : Nat}
    (hx : x.testBit i = true) : y.testBit i = false := by
  by_contra hc
  have hy : y.testBit i = true := by
    cases hyy : y.testBit i
    · exact absurd hyy hc
    · rfl
  have : (x &&& y).testBit i = true := by
    rw [Nat.testBit_and, hx, hy]
    rfl
  rw [h] at this
  simp [Nat.zero_testBit] at this

theorem and_eq_zero_of_testBit {x y : Nat}
    (h : ∀ i, x.testBit i = true → y.testBit i = false) : x &&& y = 0 := by
  apply Nat.eq_of_testBit_eq
  intro i
  rw [Nat.testBit_and, Nat.zero_testBit]
  cases hx : x.testBit i
  · rfl
  · rw [h i hx]
    rfl

theorem FILE_A_testBit : ∀ i, i < 64 → (FILE_A.testBit i = decide (i % 8 = 0)) := by decide

theorem FILE_H_testBit : ∀ i, i < 64 → (FILE_H.testBit i = decide (i % 8 = 7)) := by decide

theorem FILE_A_lt : FILE_A < 2 ^ 64 := by decide

theorem FILE_H_lt : FILE_H < 2 ^ 64 := by decide

/-! ## Coordinate bookkeeping -/

theorem sqIdx_lt {cx cy : Int} (h : inBoard cx cy) : sqIdx cx cy < 64 := by
  unfold inBoard at h
  unfold sqIdx
  omega

theorem sqIdx_cast {cx cy : Int} (h : inBoard cx cy) : ((sqIdx cx cy : Nat) : Int) = cy * 8 + cx := by
  unfold inBoard at h
  unfold sqIdx
  omega

theorem sqIdx_coords {cx cy : Int} (h : inBoard cx cy) :
    ((sqIdx cx cy % 8 : Nat) : Int) = cx ∧ ((sqIdx cx cy / 8 : Nat) : Int) = cy := by
  unfold inBoard at h
  unfold sqIdx
  omega

theorem inBoard_of_lt {m : Nat} (hm : m < 64) :
    inBoard ((m % 8 : Nat) : Int) ((m / 8 : Nat) : Int) := by
  unfold inBoard
  omega

theorem sqIdx_self {m : Nat} (hm : m < 64) :
    sqIdx ((m % 8 : Nat) : Int) ((m / 8 : Nat) : Int) = m := by
  unfold sqIdx
  omega

/-! ## Claims settled by direct evaluation, and the make/unmake law -/

/-- Claim C3: for every board, side to move and move, makeMove followed by
unmakeMove with the returned snapshot restores the black mask, the white
mask and the current player exactly. -/
theorem claim_C3_make_unmake_roundtrip (board : Board_t) (player : PlayerColor_t) (move : Nat) :
    unmakeMove (makeMove board player move).1 = (board, player) := rfl

/-- Claim C2, evidence of the code bug: on the initial position, playMove
accepts the zero-flip move 0 (calculateFlips is 0 there and the square is
empty) and also the move 27 onto a white-occupied square; in both cases it
returns true and mutates the board instead of rejecting. -/
theorem claim_C2_playMove_accepts_invalid :
    calculateFlips startModel.board.black startModel.board.white 0 = 0 ∧
    (startModel.board.black ||| startModel.board.white).testBit 0 = false ∧
    (playMove startModel 0).1 = true ∧
    (playMove startModel 0).2.board ≠ startModel.board ∧
    startModel.board.white.testBit 27 = true ∧
    (playMove startModel 27).1 = true ∧
    (playMove startModel 27).2.board ≠ startModel.board := by decide

/-- Claim C1, counterexample to the claim as stated: with the disjoint
masks player = {0, 2} and opponent = {1} and the square m = 0 (occupied by
the player), calculateFlips is nonzero although bit 0 of the legal-move
bitmap is clear, so the claimed equivalence fails on occupied squares. -/
theorem claim_C1_counterexample :
    (5 : Nat) &&& 2 = 0 ∧ (getValidMovesBitmap 5 2).testBit 0 = false ∧
      calculateFlips 5 2 0 ≠ 0 := by decide

/-- Claim C6, evidence of the code bug: the evaluator has no terminal
bypass. On the fully played board with 33 black and 31 white discs
(terminal, winning for black) it returns 20 — ten times the disc
difference — while the non-terminal position black = {0, 2}, white = {1}
receives the larger heuristic-blend score 225, so the terminal score's
magnitude dominates nothing. -/
theorem claim_C6_no_terminal_bypass :
    isTerminal (Board_t.mk (2 ^ 33 - 1) (2 ^ 64 - 2 ^ 33)) PlayerColor_t.black = true ∧
    getScoreDiff (Board_t.mk (2 ^ 33 - 1) (2 ^ 64 - 2 ^ 33)) PlayerColor_t.black = 2 ∧
    Evaluator.evaluate (Board_t.mk (2 ^ 33 - 1) (2 ^ 64 - 2 ^ 33)) PlayerColor_t.black = 20 ∧
    isTerminal (Board_t.mk 5 2) PlayerColor_t.black = false ∧
    Evaluator.evaluate (Board_t.mk 5 2) PlayerColor_t.black = 225 := by decide

/-! ## Shift semantics

Each shift lemma states: bit `i` of the shifted board is the bit of the
source board one step away in the chain direction `(dx, dy)` attached to
that shift (the direction in which the legal-move chain extends from the
move square), guarded by that step staying on the board. -/

theorem shiftN_spec (bb : Nat) (hbb : bb < 2 ^ 64) (i : Nat) (hi : i < 64) :
    ((shiftN bb).testBit i = true ↔
      inBoard ((i % 8 : Nat) : Int) (((i / 8 : Nat) : Int) + 1) ∧
        bb.testBit (sqIdx ((i % 8 : Nat) : Int) (((i / 8 : Nat) : Int) + 1)) = true) := by
  unfold shiftN
  rw [Nat.testBit_shiftRight]
  rcases Nat.lt_or_ge i 56 with h | h
  · have hsq : sqIdx ((i % 8 : Nat) : Int) (((i / 8 : Nat) : Int) + 1) = 8 + i := by
      unfold sqIdx
      omega
    have hib : inBoard ((i % 8 : Nat) : Int) (((i / 8 : Nat) : Int) + 1) := by
      unfold inBoard
      omega
    rw [hsq]
    exact ⟨fun hb => ⟨hib, hb⟩, fun hb => hb.2⟩
  · rw [testBit_ge_64 hbb (show 64 ≤ 8 + i by omega)]
    constructor
    · intro hf
      exact absurd hf (by decide)
    · rintro ⟨hib, -⟩
      exfalso
      unfold inBoard at hib
      omega

theorem shiftS_spec (bb : Nat) (hbb : bb < 2 ^ 64) (i : Nat) (hi : i < 64) :
    ((shiftS bb).testBit i = true ↔
      inBoard ((i % 8 : Nat) : Int) (((i / 8 : Nat) : Int) - 1) ∧
        bb.testBit (sqIdx ((i % 8 : Nat) : Int) (((i / 8 : Nat) : Int) - 1)) = true) := by
  unfold shiftS
  simp only [Nat.testBit_mod_two_pow, Nat.testBit_shiftLeft, Bool.and_eq_true,
    decide_eq_true_eq]
  rcases Nat.lt_or_ge i 8 with h | h
  · constructor
    · rintro ⟨-, h8, -⟩
      omega
    · rintro ⟨hib, -⟩
      unfold inBoard at hib
      omega
  · have hsq : sqIdx ((i % 8 : Nat) : Int) (((i / 8 : Nat) : Int) - 1) = i - 8 := by
      unfold sqIdx
      omega
    have hib : inBoard ((i % 8 : Nat) : Int) (((i / 8 : Nat) : Int) - 1) := by
      unfold inBoard
      omega
    rw [hsq]
    constructor
    · rintro ⟨-, -, hb⟩
      exact ⟨hib, hb⟩
    · rintro ⟨-, hb⟩
      exact ⟨hi, h, hb⟩

theorem shiftW_spec (bb : Nat) (hbb : bb < 2 ^ 64) (i : Nat) (hi : i < 64) :
    ((shiftW bb).testBit i = true ↔
      inBoard (((i % 8 : Nat) : Int) + 1) ((i / 8 : Nat) : Int) ∧
        bb.testBit (sqIdx (((i % 8 : Nat) : Int) + 1) ((i / 8 : Nat) : Int)) = true) := by
  unfold shiftW
  rw [Nat.testBit_shiftRight, Nat.testBit_and, testBit_not64 FILE_A_lt]
  simp only [Bool.and_eq_true, Bool.not_eq_true', decide_eq_true_eq]
  rcases Nat.lt_or_ge (i % 8) 7 with h | h
  · have h64 : 1 + i < 64 := by omega
    rw [FILE_A_testBit (1 + i) h64]
    have hsq : sqIdx (((i % 8 : Nat) : Int) + 1) ((i / 8 : Nat) : Int) = 1 + i := by
      unfold sqIdx
      omega
    have hib : inBoard (((i % 8 : Nat) : Int) + 1) ((i / 8 : Nat) : Int) := by
      unfold inBoard
      omega
    rw [hsq]
    simp only [decide_eq_false_iff_not]
    constructor
    · rintro ⟨hb, -⟩
      exact ⟨hib, hb⟩
    · rintro ⟨-, hb⟩
      exact ⟨hb, h64, by omega⟩
  · constructor
    · rintro ⟨-, h64, hmod⟩
      rw [FILE_A_testBit (1 + i) h64] at hmod
      simp only [decide_eq_false_iff_not] at hmod
      exfalso
      omega
    · rintro ⟨hib, -⟩
      exfalso
      unfold inBoard at hib
      omega

theorem shiftE_spec (bb : Nat) (hbb : bb < 2 ^ 64) (i : Nat) (hi : i < 64) :
    ((shiftE bb).testBit i = true ↔
      inBoard (((i % 8 : Nat) : Int) - 1) ((i / 8 : Nat) : Int) ∧
        bb.testBit (sqIdx (((i % 8 : Nat) : Int) - 1) ((i / 8 : Nat) : Int)) = true) := by
  unfold shiftE
  rw [Nat.testBit_mod_two_pow, Nat.testBit_shiftLeft, Nat.testBit_and,
    testBit_not64 FILE_H_lt]
  simp only [Bool.and_eq_true, Bool.not_eq_true', decide_eq_true_eq]
  rcases Nat.lt_or_ge 0 (i % 8) with h | h
  · have h64 : i - 1 < 64 := by omega
    rw [FILE_H_testBit (i - 1) h64]
    have hsq : sqIdx (((i % 8 : Nat) : Int) - 1) ((i / 8 : Nat) : Int) = i - 1 := by
      unfold sqIdx
      omega
    have hib : inBoard (((i % 8 : Nat) : Int) - 1) ((i / 8 : Nat) : Int) := by
      unfold inBoard
      omega
    rw [hsq]
    simp only [decide_eq_false_iff_not]
    constructor
    · rintro ⟨-, -, hb, -⟩
      exact ⟨hib, hb⟩
    · rintro ⟨-, hb⟩
      exact ⟨hi, by omega, hb, h64, by omega⟩
  · constructor
    · rintro ⟨-, h1, -, h64, hmod⟩
      rw [FILE_H_testBit (i - 1) h64] at hmod
      simp only [decide_eq_false_iff_not] at hmod
      exfalso
      omega
    · rintro ⟨hib, -⟩
      exfalso
      unfold inBoard at hib
      omega

theorem shiftNE_spec (bb : Nat) (hbb : bb < 2 ^ 64) (i : Nat) (hi : i < 64) :
    ((shiftNE bb).testBit i = true ↔
      inBoard (((i % 8 : Nat) : Int) - 1) (((i / 8 : Nat) : Int) + 1) ∧
        bb.testBit (sqIdx (((i % 8 : Nat) : Int) - 1) (((i / 8 : Nat) : Int) + 1)) = true) := by
  unfold shiftNE
  rw [Nat.testBit_shiftRight, Nat.testBit_and, testBit_not64 FILE_H_lt]
  simp only [Bool.and_eq_true, Bool.not_eq_true', decide_eq_true_eq]
  by_cases h : 0 < i % 8 ∧ i / 8 < 7
  · have h64 : 7 + i < 64 := by omega
    rw [FILE_H_testBit (7 + i) h64]
    have hsq : sqIdx (((i % 8 : Nat) : Int) - 1) (((i / 8 : Nat) : Int) + 1) = 7 + i := by
      unfold sqIdx
      omega
    have hib : inBoard (((i % 8 : Nat) : Int) - 1) (((i / 8 : Nat) : Int) + 1) := by
      unfold inBoard
      omega
    rw [hsq]
    simp only [decide_eq_false_iff_not]
    constructor
    · rintro ⟨hb, -⟩
      exact ⟨hib, hb⟩
    · rintro ⟨-, hb⟩
      exact ⟨hb, h64, by omega⟩
  · constructor
    · rintro ⟨hb, h64, hmod⟩
      rw [FILE_H_testBit (7 + i) h64] at hmod
      simp only [decide_eq_false_iff_not] at hmod
      have : ¬ (7 + i) % 8 = 7 := hmod
      have hbound : 7 + i < 64 := h64
      exfalso
      rcases Nat.lt_or_ge i 8 with hy | hy
      · omega
      · omega
    · rintro ⟨hib, -⟩
      exfalso
      unfold inBoard at hib
      omega

theorem shiftNW_spec (bb : Nat) (hbb : bb < 2 ^ 64) (i : Nat) (hi : i < 64) :
    ((shiftNW bb).testBit i = true ↔
      inBoard (((i % 8 : Nat) : Int) + 1) (((i / 8 : Nat) : Int) + 1) ∧
        bb.testBit (sqIdx (((i % 8 : Nat) : Int) + 1) (((i / 8 : Nat) : Int) + 1)) = true) := by
  unfold shiftNW
  rw [Nat.testBit_shiftRight, Nat.testBit_and, testBit_not64 FILE_A_lt]
  simp only [Bool.and_eq_true, Bool.not_eq_true', decide_eq_true_eq]
  by_cases h : i % 8 < 7 ∧ i / 8 < 7
  · have h64 : 9 + i < 64 := by omega
    rw [FILE_A_testBit (9 + i) h64]
    have hsq : sqIdx (((i % 8 : Nat) : Int) + 1) (((i / 8 : Nat) : Int) + 1) = 9 + i := by
      unfold sqIdx
      omega
    have hib : inBoard (((i % 8 : Nat) : Int) + 1) (((i / 8 : Nat) : Int) + 1) := by
      unfold inBoard
      omega
    rw [hsq]
    simp only [decide_eq_false_iff_not]
    constructor
    · rintro ⟨hb, -⟩
      exact ⟨hib, hb⟩
    · rintro ⟨-, hb⟩
      exact ⟨hb, h64, by omega⟩
  · constructor
    · rintro ⟨hb, h64, hmod⟩
      rw [FILE_A_testBit (9 + i) h64] at hmod
      simp only [decide_eq_false_iff_not] at hmod
      exfalso
      omega
    · rintro ⟨hib, -⟩
      exfalso
      unfold inBoard at hib
      omega

theorem shiftSE_spec (bb : Nat) (hbb : bb < 2 ^ 64) (i : Nat) (hi : i < 64) :
    ((shiftSE bb).testBit i = true ↔
      inBoard (((i % 8 : Nat) : Int) - 1) (((i / 8 : Nat) : Int) - 1) ∧
        bb.testBit (sqIdx (((i % 8 : Nat) : Int) - 1) (((i / 8 : Nat) : Int) - 1)) = true) := by
  unfold shiftSE
  rw [Nat.testBit_mod_two_pow, Nat.testBit_shiftLeft, Nat.testBit_and,
    testBit_not64 FILE_H_lt]
  simp only [Bool.and_eq_true, Bool.not_eq_true', decide_eq_true_eq]
  by_cases h : 0 < i % 8 ∧ 0 < i / 8
  · have h9 : 9 ≤ i := by omega
    have h64 : i - 9 < 64 := by omega
    rw [FILE_H_testBit (i - 9) h64]
    have hsq : sqIdx (((i % 8 : Nat) : Int) - 1) (((i / 8 : Nat) : Int) - 1) = i - 9 := by
      unfold sqIdx
      omega
    have hib : inBoard (((i % 8 : Nat) : Int) - 1) (((i / 8 : Nat) : Int) - 1) := by
      unfold inBoard
      omega
    rw [hsq]
    simp only [decide_eq_false_iff_not]
    constructor
    · rintro ⟨-, -, hb, -⟩
      exact ⟨hib, hb⟩
    · rintro ⟨-, hb⟩
      exact ⟨hi, h9, hb, h64, by omega⟩
  · constructor
    · rintro ⟨-, h9, -, h64, hmod⟩
      rw [FILE_H_testBit (i - 9) h64] at hmod
      simp only [decide_eq_false_iff_not] at hmod
      exfalso
      omega
    · rintro ⟨hib, -⟩
      exfalso
      unfold inBoard at hib
      omega

theorem shiftSW_spec (bb : Nat) (hbb : bb < 2 ^ 64) (i : Nat) (hi : i < 64) :
    ((shiftSW bb).testBit i = true ↔
      inBoard (((i % 8 : Nat) : Int) + 1) (((i / 8 : Nat) : Int) - 1) ∧
        bb.testBit (sqIdx (((i % 8 : Nat) : Int) + 1) (((i / 8 : Nat) : Int) - 1)) = true) := by
  unfold shiftSW
  rw [Nat.testBit_mod_two_pow, Nat.testBit_shiftLeft, Nat.testBit_and,
    testBit_not64 FILE_A_lt]
  simp only [Bool.and_eq_true, Bool.not_eq_true', decide_eq_true_eq]
  by_cases h : i % 8 < 7 ∧ 0 < i / 8
  · have h7 : 7 ≤ i := by omega
    have h64 : i - 7 < 64 := by omega
    rw [FILE_A_testBit (i - 7) h64]
    have hsq : sqIdx (((i % 8 : Nat) : Int) + 1) (((i / 8 : Nat) : Int) - 1) = i - 7 := by
      unfold sqIdx
      omega
    have hib : inBoard (((i % 8 : Nat) : Int) + 1) (((i / 8 : Nat) : Int) - 1) := by
      unfold inBoard
      omega
    rw [hsq]
    simp only [decide_eq_false_iff_not]
    constructor
    · rintro ⟨-, -, hb, -⟩
      exact ⟨hib, hb⟩
    · rintro ⟨-, hb⟩
      exact ⟨hi, h7, hb, h64, by omega⟩
  · constructor
    · rintro ⟨-, h7, -, h64, hmod⟩
      rw [FILE_A_testBit (i - 7) h64] at hmod
      simp only [decide_eq_false_iff_not] at hmod
      exfalso
      omega
    · rintro ⟨hib, -⟩
      exfalso
      unfold inBoard at hib
      omega

/-! ## Walker-side validity characterization -/

theorem RANK_1_testBit : ∀ i, i < 64 → (RANK_1.testBit i = decide (i / 8 = 0)) := by decide

theorem RANK_8_testBit : ∀ i, i < 64 → (RANK_8.testBit i = decide (i / 8 = 7)) := by decide

theorem isSquareValid_out (pos : Int) (dir : Nat) (h : pos < 0 ∨ 64 ≤ pos) :
    isSquareValid pos dir = false := by
  unfold isSquareValid
  rw [if_pos h]

theorem isSquareValid_iff (pos : Int) (h0 : 0 ≤ pos) (h64 : pos < 64) (dir : Nat)
    (hdir : dir < 8) :
    (isSquareValid pos dir = true ↔
      ((dir = 3 ∨ dir = 0 ∨ dir = 5) → pos.toNat % 8 ≠ 0) ∧
      ((dir = 4 ∨ dir = 2 ∨ dir = 7) → pos.toNat % 8 ≠ 7) ∧
      ((dir = 1 ∨ dir = 0 ∨ dir = 2) → pos.toNat / 8 ≠ 0) ∧
      ((dir = 6 ∨ dir = 5 ∨ dir = 7) → pos.toNat / 8 ≠ 7)) := by
  have hn : pos.toNat < 64 := by omega
  have hA : ((1 <<< pos.toNat) &&& FILE_A ≠ 0) ↔ pos.toNat % 8 = 0 := by
    rw [one_shiftLeft_and_ne_zero, FILE_A_testBit _ hn]
    simp
  have hH : ((1 <<< pos.toNat) &&& FILE_H ≠ 0) ↔ pos.toNat % 8 = 7 := by
    rw [one_shiftLeft_and_ne_zero, FILE_H_testBit _ hn]
    simp
  have hR1 : ((1 <<< pos.toNat) &&& RANK_1 ≠ 0) ↔ pos.toNat / 8 = 0 := by
    rw [one_shiftLeft_and_ne_zero, RANK_1_testBit _ hn]
    simp
  have hR8 : ((1 <<< pos.toNat) &&& RANK_8 ≠ 0) ↔ pos.toNat / 8 = 7 := by
    rw [one_shiftLeft_and_ne_zero, RANK_8_testBit _ hn]
    simp
  have ite4 : ∀ (c1 c2 c3 c4 : Prop), ∀ (h1 : Decidable c1) (h2 : Decidable c2)
      (h3 : Decidable c3) (h4 : Decidable c4),
      ((if c1 then false else if c2 then false else if c3 then false
        else if c4 then false else true) = true ↔ ¬c1 ∧ ¬c2 ∧ ¬c3 ∧ ¬c4) := by
    intro c1 c2 c3 c4 h1 h2 h3 h4
    split_ifs <;> simp_all
  unfold isSquareValid
  rw [if_neg (by omega)]
  rw [if_neg (by omega : ¬ dir = 8)]
  rw [ite4]
  simp only [hA, hH, hR1, hR8, not_and]

/-! ## Ray algebra -/

theorem ray_head_inBoard {p o : Nat} {cx cy dx dy : Int} {len : Nat}
    (h : ray p o cx cy dx dy len) (h1 : 1 ≤ len) : inBoard cx cy := by
  have := h.1 0 (by omega)
  simpa using this.1

theorem ray_cons {p o : Nat} {cx cy dx dy : Int} {len : Nat}
    (hib : inBoard cx cy) (ho : o.testBit (sqIdx cx cy) = true)
    (h : ray p o (cx + dx) (cy + dy) dx dy len) :
    ray p o cx cy dx dy (len + 1) := by
  obtain ⟨hrun, hibp, hp⟩ := h
  refine ⟨?_, ?_, ?_⟩
  · intro j hj
    rcases Nat.eq_zero_or_pos j with rfl | hj0
    · simpa using ⟨hib, ho⟩
    · have hc : ((j - 1 : Nat) : Int) = (j : Int) - 1 := by omega
      have e1 : cx + dx + ((j - 1 : Nat) : Int) * dx = cx + (j : Int) * dx := by
        rw [hc]
        ring
      have e2 : cy + dy + ((j - 1 : Nat) : Int) * dy = cy + (j : Int) * dy := by
        rw [hc]
        ring
      have := hrun (j - 1) (by omega)
      rw [e1, e2] at this
      exact this
  · have e1 : cx + dx + (len : Int) * dx = cx + ((len + 1 : Nat) : Int) * dx := by
      push_cast
      ring
    have e2 : cy + dy + (len : Int) * dy = cy + ((len + 1 : Nat) : Int) * dy := by
      push_cast
      ring
    rw [e1, e2] at hibp
    exact hibp
  · have e1 : cx + dx + (len : Int) * dx = cx + ((len + 1 : Nat) : Int) * dx := by
      push_cast
      ring
    have e2 : cy + dy + (len : Int) * dy = cy + ((len + 1 : Nat) : Int) * dy := by
      push_cast
      ring
    rw [e1, e2] at hp
    exact hp

theorem ray_tail {p o : Nat} {cx cy dx dy : Int} {len : Nat}
    (h : ray p o cx cy dx dy (len + 1)) (h1 : 1 ≤ len) :
    o.testBit (sqIdx cx cy) = true ∧ ray p o (cx + dx) (cy + dy) dx dy len := by
  obtain ⟨hrun, hibp, hp⟩ := h
  have h0 := hrun 0 (by omega)
  refine ⟨by simpa using h0.2, ?_, ?_, ?_⟩
  · intro j hj
    have hc : ((j + 1 : Nat) : Int) = (j : Int) + 1 := by push_cast; ring
    have e1 : cx + ((j + 1 : Nat) : Int) * dx = cx + dx + (j : Int) * dx := by
      rw [hc]
      ring
    have e2 : cy + ((j + 1 : Nat) : Int) * dy = cy + dy + (j : Int) * dy := by
      rw [hc]
      ring
    have := hrun (j + 1) (by omega)
    rw [e1, e2] at this
    exact this
  · have e1 : cx + ((len + 1 : Nat) : Int) * dx = cx + dx + (len : Int) * dx := by
      push_cast
      ring
    have e2 : cy + ((len + 1 : Nat) : Int) * dy = cy + dy + (len : Int) * dy := by
      push_cast
      ring
    rw [e1, e2] at hibp
    exact hibp
  · have e1 : cx + ((len + 1 : Nat) : Int) * dx = cx + dx + (len : Int) * dx := by
      push_cast
      ring
    have e2 : cy + ((len + 1 : Nat) : Int) * dy = cy + dy + (len : Int) * dy := by
      push_cast
      ring
    rw [e1, e2] at hp
    exact hp

/-! ## Kogge-Stone characterization (generic in the shift function) -/

section KoggeStone

variable {p o : Nat} {sh : Nat → Nat} {dx dy : Int}

theorem ksCand_lt (Hlt : ∀ bb, bb < 2 ^ 64 → sh bb < 2 ^ 64) (ho : o < 2 ^ 64) :
    ∀ t, ksCand p o sh t < 2 ^ 64 := by
  intro t
  induction t with
  | zero => exact and_lt_64_right ho
  | succ t ih => exact lor_lt_64 ih (and_lt_64_right ho)

theorem ksCand_testBit
    (Hsh : ∀ bb : Nat, bb < 2 ^ 64 → ∀ i : Nat, i < 64 →
      ((sh bb).testBit i = true ↔
        inBoard (((i % 8 : Nat) : Int) + dx) (((i / 8 : Nat) : Int) + dy) ∧
          bb.testBit (sqIdx (((i % 8 : Nat) : Int) + dx) (((i / 8 : Nat) : Int) + dy)) = true))
    (Hlt : ∀ bb, bb < 2 ^ 64 → sh bb < 2 ^ 64)
    (hp : p < 2 ^ 64) (ho : o < 2 ^ 64) :
    ∀ t, ∀ i, i < 64 →
      ((ksCand p o sh t).testBit i = true ↔
        ∃ len, 1 ≤ len ∧ len ≤ t + 1 ∧
          ray p o ((i % 8 : Nat) : Int) ((i / 8 : Nat) : Int) dx dy len) := by
  intro t
  induction t with
  | zero =>
    intro i hi
    show ((sh p &&& o).testBit i = true ↔ _)
    rw [Nat.testBit_and, Bool.and_eq_true, Hsh p hp i hi]
    constructor
    · rintro ⟨⟨hib, hpb⟩, hob⟩
      refine ⟨1, le_refl 1, le_refl 1, ?_, ?_, ?_⟩
      · intro j hj
        have hj0 : j = 0 := by omega
        subst hj0
        simp only [Nat.cast_zero, zero_mul, add_zero]
        exact ⟨inBoard_of_lt hi, by rw [sqIdx_self hi]; exact hob⟩
      · simpa using hib
      · simpa using hpb
    · rintro ⟨len, h1, hle, hray⟩
      have hlen : len = 1 := by omega
      subst hlen
      obtain ⟨hrun, hibp, hpb⟩ := hray
      have h0 := hrun 0 (by omega)
      simp only [Nat.cast_zero, zero_mul, add_zero] at h0
      rw [sqIdx_self hi] at h0
      simp only [Nat.cast_one, one_mul] at hibp hpb
      exact ⟨⟨hibp, hpb⟩, h0.2⟩
  | succ t ih =>
    intro i hi
    show ((ksCand p o sh t ||| (sh (ksCand p o sh t) &&& o)).testBit i = true ↔ _)
    rw [Nat.testBit_or, Bool.or_eq_true, Nat.testBit_and, Bool.and_eq_true,
      ih i hi, Hsh (ksCand p o sh t) (ksCand_lt Hlt ho t) i hi]
    constructor
    · rintro (⟨len, h1, hle, hray⟩ | ⟨⟨hib, hcb⟩, hob⟩)
      · exact ⟨len, h1, by omega, hray⟩
      · have hq := sqIdx_lt hib
        have hco := sqIdx_coords hib
        rw [ih (sqIdx (((i % 8 : Nat) : Int) + dx) (((i / 8 : Nat) : Int) + dy)) hq,
          hco.1, hco.2] at hcb
        obtain ⟨len, h1, hle, hray⟩ := hcb
        refine ⟨len + 1, by omega, by omega, ?_⟩
        exact ray_cons (inBoard_of_lt hi) (by rw [sqIdx_self hi]; exact hob) hray
    · rintro ⟨len, h1, hle, hray⟩
      rcases Nat.lt_or_ge len (t + 2) with hlt | hge
      · exact Or.inl ⟨len, h1, by omega, hray⟩
      · have hlen : len = t + 2 := by omega
        subst hlen
        obtain ⟨hob, htail⟩ := ray_tail hray (by omega)
        rw [sqIdx_self hi] at hob
        have hib : inBoard (((i % 8 : Nat) : Int) + dx) (((i / 8 : Nat) : Int) + dy) :=
          ray_head_inBoard htail (by omega)
        have hq := sqIdx_lt hib
        have hco := sqIdx_coords hib
        refine Or.inr ⟨⟨hib, ?_⟩, hob⟩
        rw [ih (sqIdx (((i % 8 : Nat) : Int) + dx) (((i / 8 : Nat) : Int) + dy)) hq,
          hco.1, hco.2]
        exact ⟨t + 1, by omega, by omega, htail⟩

theorem generateMoves_testBit
    (Hsh : ∀ bb : Nat, bb < 2 ^ 64 → ∀ i : Nat, i < 64 →
      ((sh bb).testBit i = true ↔
        inBoard (((i % 8 : Nat) : Int) + dx) (((i / 8 : Nat) : Int) + dy) ∧
          bb.testBit (sqIdx (((i % 8 : Nat) : Int) + dx) (((i / 8 : Nat) : Int) + dy)) = true))
    (Hlt : ∀ bb, bb < 2 ^ 64 → sh bb < 2 ^ 64)
    (hp : p < 2 ^ 64) (ho : o < 2 ^ 64) (m : Nat) (hm : m < 64)
    (hempty : (p ||| o).testBit m = false) :
    ((generateMovesInDirection p o sh).testBit m = true ↔
      ∃ len, 1 ≤ len ∧ len ≤ 6 ∧
        ray p o (((m % 8 : Nat) : Int) + dx) (((m / 8 : Nat) : Int) + dy) dx dy len) := by
  have hgen : generateMovesInDirection p o sh =
      sh (ksCand p o sh 5) &&& not64 (p ||| o) := rfl
  rw [hgen, Nat.testBit_and, Bool.and_eq_true,
    Hsh (ksCand p o sh 5) (ksCand_lt Hlt ho 5) m hm,
    testBit_not64 (lor_lt_64 hp ho) m]
  constructor
  · rintro ⟨⟨hib, hcb⟩, -⟩
    have hq := sqIdx_lt hib
    have hco := sqIdx_coords hib
    rw [ksCand_testBit Hsh Hlt hp ho 5
      (sqIdx (((m % 8 : Nat) : Int) + dx) (((m / 8 : Nat) : Int) + dy)) hq,
      hco.1, hco.2] at hcb
    obtain ⟨len, h1, hle, hray⟩ := hcb
    exact ⟨len, h1, hle, hray⟩
  · rintro ⟨len, h1, hle, hray⟩
    have hib : inBoard (((m % 8 : Nat) : Int) + dx) (((m / 8 : Nat) : Int) + dy) :=
      ray_head_inBoard hray h1
    have hq := sqIdx_lt hib
    have hco := sqIdx_coords hib
    refine ⟨⟨hib, ?_⟩, ?_⟩
    · rw [ksCand_testBit Hsh Hlt hp ho 5
        (sqIdx (((m % 8 : Nat) : Int) + dx) (((m / 8 : Nat) : Int) + dy)) hq,
        hco.1, hco.2]
      exact ⟨len, h1, hle, hray⟩
    · simp [hm, hempty]

end KoggeStone

/-! ## Walker characterization (generic in the direction).

The hypothesis pack ties a direction index `dir` to its travel vector
`(dx, dy)` and index step `s`: the source pairs each walker step with the
validity checks of the opposite-named direction, and these four
equivalences record exactly which edge checks the enum index carries. -/

section Walker

variable {dx dy s : Int} {dir : Nat}

theorem stepValid (hdx1 : (dir = 3 ∨ dir = 0 ∨ dir = 5) ↔ dx = 1)
    (hdx2 : (dir = 4 ∨ dir = 2 ∨ dir = 7) ↔ dx = -1)
    (hdy1 : (dir = 1 ∨ dir = 0 ∨ dir = 2) ↔ dy = 1)
    (hdy2 : (dir = 6 ∨ dir = 5 ∨ dir = 7) ↔ dy = -1)
    (hdir : dir < 8) (hs : s = dy * 8 + dx)
    (cx cy : Int) (hib : inBoard cx cy) (hib2 : inBoard (cx + dx) (cy + dy)) :
    isSquareValid ((sqIdx cx cy : Int) + s) dir = true ∧
      ((sqIdx cx cy : Int) + s) = ((sqIdx (cx + dx) (cy + dy) : Nat) : Int) := by
  have hpos : ((sqIdx cx cy : Int)) + s = ((sqIdx (cx + dx) (cy + dy) : Nat) : Int) := by
    rw [sqIdx_cast hib, sqIdx_cast hib2, hs]
    ring
  refine ⟨?_, hpos⟩
  rw [hpos]
  have hq := sqIdx_lt hib2
  obtain ⟨hco1, hco2⟩ := sqIdx_coords hib2
  rw [isSquareValid_iff _ (by omega) (by exact_mod_cast hq) dir hdir, Int.toNat_natCast]
  unfold inBoard at hib hib2
  refine ⟨fun hd => ?_, fun hd => ?_, fun hd => ?_, fun hd => ?_⟩
  · have h1 : dx = 1 := hdx1.mp hd
    omega
  · have h1 : dx = -1 := hdx2.mp hd
    omega
  · have h1 : dy = 1 := hdy1.mp hd
    omega
  · have h1 : dy = -1 := hdy2.mp hd
    omega

theorem stepInvalid (hdx1 : (dir = 3 ∨ dir = 0 ∨ dir = 5) ↔ dx = 1)
    (hdx2 : (dir = 4 ∨ dir = 2 ∨ dir = 7) ↔ dx = -1)
    (hdir : dir < 8) (hs : s = dy * 8 + dx)
    (hdxr : dx = -1 ∨ dx = 0 ∨ dx = 1) (hdyr : dy = -1 ∨ dy = 0 ∨ dy = 1)
    (cx cy : Int) (hib : inBoard cx cy) (hnb : ¬ inBoard (cx + dx) (cy + dy)) :
    isSquareValid ((sqIdx cx cy : Int) + s) dir = false := by
  have hposval : ((sqIdx cx cy : Int)) + s = (cy + dy) * 8 + (cx + dx) := by
    rw [sqIdx_cast hib, hs]
    ring
  by_cases hrange : ((sqIdx cx cy : Int) + s < 0 ∨ 64 ≤ (sqIdx cx cy : Int) + s)
  · exact isSquareValid_out _ _ hrange
  · push_neg at hrange
    cases hval : isSquareValid ((sqIdx cx cy : Int) + s) dir
    · rfl
    · exfalso
      obtain ⟨i1, i2, -, -⟩ :=
        (isSquareValid_iff _ (by omega) (by omega) dir hdir).mp hval
      have j1 : dx = 1 → ((sqIdx cx cy : Int) + s).toNat % 8 ≠ 0 :=
        fun h => i1 (hdx1.mpr h)
      have j2 : dx = -1 → ((sqIdx cx cy : Int) + s).toNat % 8 ≠ 7 :=
        fun h => i2 (hdx2.mpr h)
      unfold inBoard at hib hnb
      clear hval i1 i2 hdx1 hdx2
      have hviol : cx + dx < 0 ∨ 7 < cx + dx ∨ cy + dy < 0 ∨ 7 < cy + dy := by
        by_contra hc
        push_neg at hc
        exact hnb ⟨by omega, by omega, by omega, by omega⟩
      clear hnb
      rcases hviol with hv | hv | hv | hv
      · have hdxe : dx = -1 := by omega
        exact j2 hdxe (by omega)
      · have hdxe : dx = 1 := by omega
        exact j1 hdxe (by omega)
      · have hdxe : dx = 1 := by omega
        exact j1 hdxe (by omega)
      · have hdxe : dx = -1 := by omega
        exact j2 hdxe (by omega)

end Walker

/-! ## Walker loop characterization -/

theorem ne_zero_of_testBit {x : Nat} {i : Nat} (h : x.testBit i = true) : x ≠ 0 := by
  intro h0
  subst h0
  rw [Nat.zero_testBit] at h
  cases h

theorem coord_succ (c d : Int) (t : Nat) :
    c + (((t + 1 : Nat)) : Int) * d = (c + (t : Int) * d) + d := by
  push_cast
  ring

section WalkerLoop

variable {dx dy s : Int} {dir : Nat} {p o : Nat} {m : Nat}

/-- Opponent-run square of a ray rooted one step from the move square,
re-indexed to steps counted from the move square itself. -/
theorem ray_shift_opp {k : Nat}
    (hray : ray p o (((m % 8 : Nat) : Int) + dx) (((m / 8 : Nat) : Int) + dy) dx dy k)
    (j : Nat) (h1 : 1 ≤ j) (hk : j ≤ k) :
    inBoard (((m % 8 : Nat) : Int) + (j : Int) * dx) (((m / 8 : Nat) : Int) + (j : Int) * dy) ∧
      o.testBit (sqIdx (((m % 8 : Nat) : Int) + (j : Int) * dx)
        (((m / 8 : Nat) : Int) + (j : Int) * dy)) = true := by
  have h := hray.1 (j - 1) (by omega)
  have hc : ((j - 1 : Nat) : Int) = (j : Int) - 1 := by omega
  have e1 : ((m % 8 : Nat) : Int) + dx + ((j - 1 : Nat) : Int) * dx =
      ((m % 8 : Nat) : Int) + (j : Int) * dx := by
    rw [hc]
    ring
  have e2 : ((m / 8 : Nat) : Int) + dy + ((j - 1 : Nat) : Int) * dy =
      ((m / 8 : Nat) : Int) + (j : Int) * dy := by
    rw [hc]
    ring
  rw [e1, e2] at h
  exact h

/-- Closing player square of a ray rooted one step from the move square,
re-indexed to steps counted from the move square itself. -/
theorem ray_shift_player {k : Nat}
    (hray : ray p o (((m % 8 : Nat) : Int) + dx) (((m / 8 : Nat) : Int) + dy) dx dy k) :
    inBoard (((m % 8 : Nat) : Int) + ((k + 1 : Nat) : Int) * dx)
        (((m / 8 : Nat) : Int) + ((k + 1 : Nat) : Int) * dy) ∧
      p.testBit (sqIdx (((m % 8 : Nat) : Int) + ((k + 1 : Nat) : Int) * dx)
        (((m / 8 : Nat) : Int) + ((k + 1 : Nat) : Int) * dy)) = true := by
  obtain ⟨-, hibp, hp⟩ := hray
  have e1 : ((m % 8 : Nat) : Int) + dx + (k : Int) * dx =
      ((m % 8 : Nat) : Int) + ((k + 1 : Nat) : Int) * dx := by
    push_cast
    ring
  have e2 : ((m / 8 : Nat) : Int) + dy + (k : Int) * dy =
      ((m / 8 : Nat) : Int) + ((k + 1 : Nat) : Int) * dy := by
    push_cast
    ring
  rw [e1, e2] at hibp hp
  exact ⟨hibp, hp⟩

/-- Coordinates of the move square itself, as step 0 of the walk. -/
theorem coords_zero (hm : m < 64) :
    inBoard (((m % 8 : Nat) : Int) + (0 : Nat) * dx) (((m / 8 : Nat) : Int) + (0 : Nat) * dy) ∧
      sqIdx (((m % 8 : Nat) : Int) + (0 : Nat) * dx) (((m / 8 : Nat) : Int) + (0 : Nat) * dy)
        = m := by
  simp only [Nat.cast_zero, zero_mul, add_zero]
  exact ⟨inBoard_of_lt hm, sqIdx_self hm⟩

theorem flipsLoop_complete
    (hdx1 : (dir = 3 ∨ dir = 0 ∨ dir = 5) ↔ dx = 1)
    (hdx2 : (dir = 4 ∨ dir = 2 ∨ dir = 7) ↔ dx = -1)
    (hdy1 : (dir = 1 ∨ dir = 0 ∨ dir = 2) ↔ dy = 1)
    (hdy2 : (dir = 6 ∨ dir = 5 ∨ dir = 7) ↔ dy = -1)
    (hdir : dir < 8) (hs : s = dy * 8 + dx)
    (hm : m < 64) (hdisj : p &&& o = 0) {k : Nat} (hk1 : 1 ≤ k)
    (hray : ray p o (((m % 8 : Nat) : Int) + dx) (((m / 8 : Nat) : Int) + dy) dx dy k) :
    ∀ (fuel t acc : Nat), t ≤ k → k + 1 - t ≤ fuel →
      (∀ b, acc.testBit b = true →
        (flipsLoop p o s dir fuel
          (((sqIdx (((m % 8 : Nat) : Int) + (t : Int) * dx)
            (((m / 8 : Nat) : Int) + (t : Int) * dy) : Nat) : Int) + s) acc).testBit b = true) ∧
      (t < k →
        (flipsLoop p o s dir fuel
          (((sqIdx (((m % 8 : Nat) : Int) + (t : Int) * dx)
            (((m / 8 : Nat) : Int) + (t : Int) * dy) : Nat) : Int) + s) acc).testBit
          (sqIdx (((m % 8 : Nat) : Int) + ((t + 1 : Nat) : Int) * dx)
            (((m / 8 : Nat) : Int) + ((t + 1 : Nat) : Int) * dy)) = true) := by
  intro fuel
  induction fuel with
  | zero =>
    intro t acc ht hf
    omega
  | succ f ih =>
    intro t acc ht hf
    have hibt : inBoard (((m % 8 : Nat) : Int) + (t : Int) * dx)
        (((m / 8 : Nat) : Int) + (t : Int) * dy) := by
      rcases Nat.eq_zero_or_pos t with rfl | ht0
      · exact (coords_zero hm).1
      · exact (ray_shift_opp hray t ht0 ht).1
    have hibt1 : inBoard (((m % 8 : Nat) : Int) + ((t + 1 : Nat) : Int) * dx)
        (((m / 8 : Nat) : Int) + ((t + 1 : Nat) : Int) * dy) := by
      rcases Nat.lt_or_ge t k with hlt | hge
      · exact (ray_shift_opp hray (t + 1) (by omega) (by omega)).1
      · have hk' : t = k := by omega
        rw [hk']
        exact (ray_shift_player hray).1
    have hibt1' : inBoard ((((m % 8 : Nat) : Int) + (t : Int) * dx) + dx)
        ((((m / 8 : Nat) : Int) + (t : Int) * dy) + dy) := by
      rw [← coord_succ, ← coord_succ]
      exact hibt1
    have hsv := stepValid hdx1 hdx2 hdy1 hdy2 hdir hs _ _ hibt hibt1'
    rw [← coord_succ, ← coord_succ] at hsv
    have hval : isSquareValid (((sqIdx (((m % 8 : Nat) : Int) + (t : Int) * dx)
        (((m / 8 : Nat) : Int) + (t : Int) * dy) : Nat) : Int) + s) dir = true := hsv.1
    simp only [flipsLoop]
    rw [if_pos hval, hsv.2, Int.toNat_natCast]
    rcases Nat.lt_or_ge t k with hlt | hge
    · have hopp := ray_shift_opp hray (t + 1) (by omega) (by omega)
      have hcond : o &&& (1 <<< sqIdx (((m % 8 : Nat) : Int) + ((t + 1 : Nat) : Int) * dx)
          (((m / 8 : Nat) : Int) + ((t + 1 : Nat) : Int) * dy)) ≠ 0 :=
        (and_one_shiftLeft_ne_zero o _).mpr hopp.2
      rw [if_pos hcond]
      have hih := ih (t + 1)
        (acc ||| (1 <<< sqIdx (((m % 8 : Nat) : Int) + ((t + 1 : Nat) : Int) * dx)
          (((m / 8 : Nat) : Int) + ((t + 1 : Nat) : Int) * dy)))
        (by omega) (by omega)
      constructor
      · intro b hb
        exact hih.1 b (by rw [Nat.testBit_or, hb]; rfl)
      · intro hlt2
        apply hih.1
        rw [Nat.testBit_or, testBit_one_shiftLeft]
        simp
    · have hk' : t = k := by omega
      subst hk'
      have hpl := ray_shift_player hray
      have hob : o.testBit (sqIdx (((m % 8 : Nat) : Int) + ((t + 1 : Nat) : Int) * dx)
          (((m / 8 : Nat) : Int) + ((t + 1 : Nat) : Int) * dy)) = false :=
        testBit_of_and_eq_zero hdisj hpl.2
      have hcond : ¬ (o &&& (1 <<< sqIdx (((m % 8 : Nat) : Int) + ((t + 1 : Nat) : Int) * dx)
          (((m / 8 : Nat) : Int) + ((t + 1 : Nat) : Int) * dy)) ≠ 0) := by
        rw [and_one_shiftLeft_ne_zero, hob]
        simp
      have hcondp : p &&& (1 <<< sqIdx (((m % 8 : Nat) : Int) + ((t + 1 : Nat) : Int) * dx)
          (((m / 8 : Nat) : Int) + ((t + 1 : Nat) : Int) * dy)) ≠ 0 :=
        (and_one_shiftLeft_ne_zero p _).mpr hpl.2
      rw [if_neg hcond, if_pos hcondp]
      constructor
      · intro b hb
        exact hb
      · intro hlt2
        omega

theorem flipsLoop_sound
    (hdx1 : (dir = 3 ∨ dir = 0 ∨ dir = 5) ↔ dx = 1)
    (hdx2 : (dir = 4 ∨ dir = 2 ∨ dir = 7) ↔ dx = -1)
    (hdy1 : (dir = 1 ∨ dir = 0 ∨ dir = 2) ↔ dy = 1)
    (hdy2 : (dir = 6 ∨ dir = 5 ∨ dir = 7) ↔ dy = -1)
    (hdir : dir < 8) (hs : s = dy * 8 + dx)
    (hdxr : dx = -1 ∨ dx = 0 ∨ dx = 1) (hdyr : dy = -1 ∨ dy = 0 ∨ dy = 1)
    (hm : m < 64)
    (hnochain : ∀ k, 1 ≤ k →
      ¬ ray p o (((m % 8 : Nat) : Int) + dx) (((m / 8 : Nat) : Int) + dy) dx dy k) :
    ∀ (fuel t acc : Nat),
      (∀ j, 1 ≤ j → j ≤ t →
        inBoard (((m % 8 : Nat) : Int) + (j : Int) * dx)
            (((m / 8 : Nat) : Int) + (j : Int) * dy) ∧
          o.testBit (sqIdx (((m % 8 : Nat) : Int) + (j : Int) * dx)
            (((m / 8 : Nat) : Int) + (j : Int) * dy)) = true) →
      (t = 0 → acc = 0) →
      flipsLoop p o s dir fuel
        (((sqIdx (((m % 8 : Nat) : Int) + (t : Int) * dx)
          (((m / 8 : Nat) : Int) + (t : Int) * dy) : Nat) : Int) + s) acc = 0 := by
  intro fuel
  induction fuel with
  | zero =>
    intro t acc hrun hacc
    rfl
  | succ f ih =>
    intro t acc hrun hacc
    have hibt : inBoard (((m % 8 : Nat) : Int) + (t : Int) * dx)
        (((m / 8 : Nat) : Int) + (t : Int) * dy) := by
      rcases Nat.eq_zero_or_pos t with rfl | ht0
      · exact (coords_zero hm).1
      · exact (hrun t ht0 (le_refl t)).1
    by_cases hib2 : inBoard (((m % 8 : Nat) : Int) + ((t + 1 : Nat) : Int) * dx)
        (((m / 8 : Nat) : Int) + ((t + 1 : Nat) : Int) * dy)
    · have hib2' : inBoard ((((m % 8 : Nat) : Int) + (t : Int) * dx) + dx)
          ((((m / 8 : Nat) : Int) + (t : Int) * dy) + dy) := by
        rw [← coord_succ, ← coord_succ]
        exact hib2
      have hsv := stepValid hdx1 hdx2 hdy1 hdy2 hdir hs _ _ hibt hib2'
      rw [← coord_succ, ← coord_succ] at hsv
      simp only [flipsLoop]
      rw [if_pos hsv.1, hsv.2, Int.toNat_natCast]
      cases hob : o.testBit (sqIdx (((m % 8 : Nat) : Int) + ((t + 1 : Nat) : Int) * dx)
          (((m / 8 : Nat) : Int) + ((t + 1 : Nat) : Int) * dy))
      · have hcond : ¬ (o &&& (1 <<< sqIdx (((m % 8 : Nat) : Int) + ((t + 1 : Nat) : Int) * dx)
            (((m / 8 : Nat) : Int) + ((t + 1 : Nat) : Int) * dy)) ≠ 0) := by
          rw [and_one_shiftLeft_ne_zero, hob]
          simp
        rw [if_neg hcond]
        cases hpb : p.testBit (sqIdx (((m % 8 : Nat) : Int) + ((t + 1 : Nat) : Int) * dx)
            (((m / 8 : Nat) : Int) + ((t + 1 : Nat) : Int) * dy))
        · have hcondp : ¬ (p &&& (1 <<< sqIdx
              (((m % 8 : Nat) : Int) + ((t + 1 : Nat) : Int) * dx)
              (((m / 8 : Nat) : Int) + ((t + 1 : Nat) : Int) * dy)) ≠ 0) := by
            rw [and_one_shiftLeft_ne_zero, hpb]
            simp
          rw [if_neg hcondp]
        · have hcondp : p &&& (1 <<< sqIdx
              (((m % 8 : Nat) : Int) + ((t + 1 : Nat) : Int) * dx)
              (((m / 8 : Nat) : Int) + ((t + 1 : Nat) : Int) * dy)) ≠ 0 :=
            (and_one_shiftLeft_ne_zero p _).mpr hpb
          rw [if_pos hcondp]
          rcases Nat.eq_zero_or_pos t with rfl | ht0
          · exact hacc rfl
          · exfalso
            apply hnochain t ht0
            refine ⟨?_, ?_, ?_⟩
            · intro j hj
              have h := hrun (j + 1) (by omega) (by omega)
              rw [coord_succ, coord_succ] at h
              have e1 : (((m % 8 : Nat) : Int) + (j : Int) * dx) + dx =
                  ((m % 8 : Nat) : Int) + dx + (j : Int) * dx := by ring
              have e2 : (((m / 8 : Nat) : Int) + (j : Int) * dy) + dy =
                  ((m / 8 : Nat) : Int) + dy + (j : Int) * dy := by ring
              rw [e1, e2] at h
              exact h
            · have e1 : ((m % 8 : Nat) : Int) + ((t + 1 : Nat) : Int) * dx =
                  ((m % 8 : Nat) : Int) + dx + (t : Int) * dx := by
                push_cast
                ring
              have e2 : ((m / 8 : Nat) : Int) + ((t + 1 : Nat) : Int) * dy =
                  ((m / 8 : Nat) : Int) + dy + (t : Int) * dy := by
                push_cast
                ring
              rw [e1, e2] at hib2
              exact hib2
            · have e1 : ((m % 8 : Nat) : Int) + ((t + 1 : Nat) : Int) * dx =
                  ((m % 8 : Nat) : Int) + dx + (t : Int) * dx := by
                push_cast
                ring
              have e2 : ((m / 8 : Nat) : Int) + ((t + 1 : Nat) : Int) * dy =
                  ((m / 8 : Nat) : Int) + dy + (t : Int) * dy := by
                push_cast
                ring
              rw [e1, e2] at hpb
              exact hpb
      · have hcond : o &&& (1 <<< sqIdx (((m % 8 : Nat) : Int) + ((t + 1 : Nat) : Int) * dx)
            (((m / 8 : Nat) : Int) + ((t + 1 : Nat) : Int) * dy)) ≠ 0 :=
          (and_one_shiftLeft_ne_zero o _).mpr hob
        rw [if_pos hcond]
        apply ih (t + 1)
        · intro j hj1 hjt
          rcases Nat.lt_or_ge j (t + 1) with hlt | hge
          · exact hrun j hj1 (by omega)
          · have hj : j = t + 1 := by omega
            rw [hj]
            exact ⟨hib2, hob⟩
        · intro h0
          omega
    · have hsi := stepInvalid hdx1 hdx2 hdir hs hdxr hdyr _ _ hibt
        (by rw [← coord_succ, ← coord_succ]; exact hib2)
      simp only [flipsLoop]
      rw [if_neg (by rw [hsi]; exact fun h => Bool.noConfusion h)]

/-- Chains are at most six discs long: the move square and the closing
player square both lie on the board, so at most six opponent squares fit
between them. -/
theorem ray_le_six
    (hdxr : dx = -1 ∨ dx = 0 ∨ dx = 1) (hdyr : dy = -1 ∨ dy = 0 ∨ dy = 1)
    (hnz : ¬ (dx = 0 ∧ dy = 0)) (hm : m < 64) {k : Nat}
    (hray : ray p o (((m % 8 : Nat) : Int) + dx) (((m / 8 : Nat) : Int) + dy) dx dy k) :
    k ≤ 6 := by
  have hp := (ray_shift_player hray).1
  have hib0 : inBoard ((m % 8 : Nat) : Int) ((m / 8 : Nat) : Int) := inBoard_of_lt hm
  unfold inBoard at hp hib0
  push_cast at hp
  rcases hdxr with h | h | h <;> rcases hdyr with h' | h' | h' <;> subst h <;> subst h'
  · omega
  · omega
  · omega
  · omega
  · exact absurd ⟨rfl, rfl⟩ hnz
  · omega
  · omega
  · omega
  · omega

theorem getFlipsInDirection_iff
    (hdx1 : (dir = 3 ∨ dir = 0 ∨ dir = 5) ↔ dx = 1)
    (hdx2 : (dir = 4 ∨ dir = 2 ∨ dir = 7) ↔ dx = -1)
    (hdy1 : (dir = 1 ∨ dir = 0 ∨ dir = 2) ↔ dy = 1)
    (hdy2 : (dir = 6 ∨ dir = 5 ∨ dir = 7) ↔ dy = -1)
    (hdir : dir < 8) (hs : s = dy * 8 + dx)
    (hdxr : dx = -1 ∨ dx = 0 ∨ dx = 1) (hdyr : dy = -1 ∨ dy = 0 ∨ dy = 1)
    (hnz : ¬ (dx = 0 ∧ dy = 0))
    (hm : m < 64) (hdisj : p &&& o = 0) :
    (getFlipsInDirection p o (m : Int) s dir ≠ 0 ↔
      ∃ k, 1 ≤ k ∧
        ray p o (((m % 8 : Nat) : Int) + dx) (((m / 8 : Nat) : Int) + dy) dx dy k) := by
  have hpos0 : (((sqIdx (((m % 8 : Nat) : Int) + ((0 : Nat) : Int) * dx)
      (((m / 8 : Nat) : Int) + ((0 : Nat) : Int) * dy) : Nat) : Int) + s) = (m : Int) + s := by
    have h := (@coords_zero dx dy m hm).2
    simp only [Nat.cast_zero, zero_mul, add_zero] at h ⊢
    rw [h]
  have hunf : getFlipsInDirection p o (m : Int) s dir =
      flipsLoop p o s dir 128 ((m : Int) + s) 0 := rfl
  constructor
  · intro hne
    by_contra hno
    push_neg at hno
    apply hne
    have hsound := flipsLoop_sound hdx1 hdx2 hdy1 hdy2 hdir hs hdxr hdyr hm
      (fun k hk => hno k hk) 128 0 0 (by intro j hj1 hj0; omega) (fun _ => rfl)
    rw [hpos0] at hsound
    rw [hunf, hsound]
  · rintro ⟨k, hk1, hray⟩
    have hk6 : k ≤ 6 := ray_le_six hdxr hdyr hnz hm hray
    have hc := flipsLoop_complete hdx1 hdx2 hdy1 hdy2 hdir hs hm hdisj hk1 hray
      128 0 0 (by omega) (by omega)
    have hbit := hc.2 (by omega)
    rw [hpos0] at hbit
    rw [hunf]
    exact ne_zero_of_testBit hbit

end WalkerLoop

/-! ## Per-direction equivalences and the legal-move / flip agreement -/

theorem lor_eq_zero_iff (x y : Nat) : x ||| y = 0 ↔ x = 0 ∧ y = 0 := by
  constructor
  · intro h
    constructor
    · apply Nat.eq_of_testBit_eq
      intro i
      rw [Nat.zero_testBit]
      cases hx : x.testBit i
      · rfl
      · have : (x ||| y).testBit i = true := by rw [Nat.testBit_or, hx]; rfl
        rw [h, Nat.zero_testBit] at this
        cases this
    · apply Nat.eq_of_testBit_eq
      intro i
      rw [Nat.zero_testBit]
      cases hy : y.testBit i
      · rfl
      · have : (x ||| y).testBit i = true := by
          rw [Nat.testBit_or, hy, Bool.or_true]
        rw [h, Nat.zero_testBit] at this
        cases this
  · rintro ⟨rfl, rfl⟩
    rfl

theorem lor_ne_zero_iff (x y : Nat) : x ||| y ≠ 0 ↔ x ≠ 0 ∨ y ≠ 0 := by
  rw [ne_eq, lor_eq_zero_iff]
  tauto

theorem shiftN_lt : ∀ bb, bb < 2 ^ 64 → shiftN bb < 2 ^ 64 :=
  fun bb hbb => shiftRight_lt_64 hbb 8

theorem shiftS_lt : ∀ bb, bb < 2 ^ 64 → shiftS bb < 2 ^ 64 :=
  fun bb _ => mod_two_pow_lt_64 _

theorem shiftE_lt : ∀ bb, bb < 2 ^ 64 → shiftE bb < 2 ^ 64 :=
  fun bb _ => mod_two_pow_lt_64 _

theorem shiftW_lt : ∀ bb, bb < 2 ^ 64 → shiftW bb < 2 ^ 64 :=
  fun bb hbb => shiftRight_lt_64 (and_lt_64_left hbb) 1

theorem shiftNE_lt : ∀ bb, bb < 2 ^ 64 → shiftNE bb < 2 ^ 64 :=
  fun bb hbb => shiftRight_lt_64 (and_lt_64_left hbb) 7

theorem shiftNW_lt : ∀ bb, bb < 2 ^ 64 → shiftNW bb < 2 ^ 64 :=
  fun bb hbb => shiftRight_lt_64 (and_lt_64_left hbb) 9

theorem shiftSE_lt : ∀ bb, bb < 2 ^ 64 → shiftSE bb < 2 ^ 64 :=
  fun bb _ => mod_two_pow_lt_64 _

theorem shiftSW_lt : ∀ bb, bb < 2 ^ 64 → shiftSW bb < 2 ^ 64 :=
  fun bb _ => mod_two_pow_lt_64 _

theorem shiftN_spec' : ∀ bb : Nat, bb < 2 ^ 64 → ∀ i : Nat, i < 64 →
    ((shiftN bb).testBit i = true ↔
      inBoard (((i % 8 : Nat) : Int) + 0) (((i / 8 : Nat) : Int) + 1) ∧
        bb.testBit (sqIdx (((i % 8 : Nat) : Int) + 0) (((i / 8 : Nat) : Int) + 1)) = true) := by
  intro bb hbb i hi
  simpa using shiftN_spec bb hbb i hi

theorem shiftS_spec' : ∀ bb : Nat, bb < 2 ^ 64 → ∀ i : Nat, i < 64 →
    ((shiftS bb).testBit i = true ↔
      inBoard (((i % 8 : Nat) : Int) + 0) (((i / 8 : Nat) : Int) + (-1)) ∧
        bb.testBit (sqIdx (((i % 8 : Nat) : Int) + 0)
          (((i / 8 : Nat) : Int) + (-1))) = true) := by
  intro bb hbb i hi
  have h := shiftS_spec bb hbb i hi
  simpa [sub_eq_add_neg] using h

theorem shiftE_spec' : ∀ bb : Nat, bb < 2 ^ 64 → ∀ i : Nat, i < 64 →
    ((shiftE bb).testBit i = true ↔
      inBoard (((i % 8 : Nat) : Int) + (-1)) (((i / 8 : Nat) : Int) + 0) ∧
        bb.testBit (sqIdx (((i % 8 : Nat) : Int) + (-1))
          (((i / 8 : Nat) : Int) + 0)) = true) := by
  intro bb hbb i hi
  have h := shiftE_spec bb hbb i hi
  simpa [sub_eq_add_neg] using h

theorem shiftW_spec' : ∀ bb : Nat, bb < 2 ^ 64 → ∀ i : Nat, i < 64 →
    ((shiftW bb).testBit i = true ↔
      inBoard (((i % 8 : Nat) : Int) + 1) (((i / 8 : Nat) : Int) + 0) ∧
        bb.testBit (sqIdx (((i % 8 : Nat) : Int) + 1) (((i / 8 : Nat) : Int) + 0)) = true) := by
  intro bb hbb i hi
  simpa using shiftW_spec bb hbb i hi

theorem shiftNE_spec' : ∀ bb : Nat, bb < 2 ^ 64 → ∀ i : Nat, i < 64 →
    ((shiftNE bb).testBit i = true ↔
      inBoard (((i % 8 : Nat) : Int) + (-1)) (((i / 8 : Nat) : Int) + 1) ∧
        bb.testBit (sqIdx (((i % 8 : Nat) : Int) + (-1))
          (((i / 8 : Nat) : Int) + 1)) = true) := by
  intro bb hbb i hi
  have h := shiftNE_spec bb hbb i hi
  simpa [sub_eq_add_neg] using h

theorem shiftNW_spec' : ∀ bb : Nat, bb < 2 ^ 64 → ∀ i : Nat, i < 64 →
    ((shiftNW bb).testBit i = true ↔
      inBoard (((i % 8 : Nat) : Int) + 1) (((i / 8 : Nat) : Int) + 1) ∧
        bb.testBit (sqIdx (((i % 8 : Nat) : Int) + 1) (((i / 8 : Nat) : Int) + 1)) = true) := by
  intro bb hbb i hi
  exact shiftNW_spec bb hbb i hi

theorem shiftSE_spec' : ∀ bb : Nat, bb < 2 ^ 64 → ∀ i : Nat, i < 64 →
    ((shiftSE bb).testBit i = true ↔
      inBoard (((i % 8 : Nat) : Int) + (-1)) (((i / 8 : Nat) : Int) + (-1)) ∧
        bb.testBit (sqIdx (((i % 8 : Nat) : Int) + (-1))
          (((i / 8 : Nat) : Int) + (-1))) = true) := by
  intro bb hbb i hi
  have h := shiftSE_spec bb hbb i hi
  simpa [sub_eq_add_neg] using h

theorem shiftSW_spec' : ∀ bb : Nat, bb < 2 ^ 64 → ∀ i : Nat, i < 64 →
    ((shiftSW bb).testBit i = true ↔
      inBoard (((i % 8 : Nat) : Int) + 1) (((i / 8 : Nat) : Int) + (-1)) ∧
        bb.testBit (sqIdx (((i % 8 : Nat) : Int) + 1)
          (((i / 8 : Nat) : Int) + (-1))) = true) := by
  intro bb hbb i hi
  have h := shiftSW_spec bb hbb i hi
  simpa [sub_eq_add_neg] using h

theorem flips_dir0_iff (p o m : Nat) (hm : m < 64) (hdisj : p &&& o = 0) :
    (getFlipsInDirection p o (m : Int) 9 0 ≠ 0 ↔
      ∃ k, 1 ≤ k ∧ ray p o (((m % 8 : Nat) : Int) + 1) (((m / 8 : Nat) : Int) + 1)
        1 1 k) :=
  getFlipsInDirection_iff (by decide) (by decide) (by decide) (by decide) (by decide)
    (by decide) (by decide) (by decide) (by decide) hm hdisj

theorem flips_dir1_iff (p o m : Nat) (hm : m < 64) (hdisj : p &&& o = 0) :
    (getFlipsInDirection p o (m : Int) 8 1 ≠ 0 ↔
      ∃ k, 1 ≤ k ∧ ray p o (((m % 8 : Nat) : Int) + 0) (((m / 8 : Nat) : Int) + 1)
        0 1 k) :=
  getFlipsInDirection_iff (by decide) (by decide) (by decide) (by decide) (by decide)
    (by decide) (by decide) (by decide) (by decide) hm hdisj

theorem flips_dir2_iff (p o m : Nat) (hm : m < 64) (hdisj : p &&& o = 0) :
    (getFlipsInDirection p o (m : Int) 7 2 ≠ 0 ↔
      ∃ k, 1 ≤ k ∧ ray p o (((m % 8 : Nat) : Int) + (-1)) (((m / 8 : Nat) : Int) + 1)
        (-1) 1 k) :=
  getFlipsInDirection_iff (by decide) (by decide) (by decide) (by decide) (by decide)
    (by decide) (by decide) (by decide) (by decide) hm hdisj

theorem flips_dir3_iff (p o m : Nat) (hm : m < 64) (hdisj : p &&& o = 0) :
    (getFlipsInDirection p o (m : Int) 1 3 ≠ 0 ↔
      ∃ k, 1 ≤ k ∧ ray p o (((m % 8 : Nat) : Int) + 1) (((m / 8 : Nat) : Int) + 0)
        1 0 k) :=
  getFlipsInDirection_iff (by decide) (by decide) (by decide) (by decide) (by decide)
    (by decide) (by decide) (by decide) (by decide) hm hdisj

theorem flips_dir4_iff (p o m : Nat) (hm : m < 64) (hdisj : p &&& o = 0) :
    (getFlipsInDirection p o (m : Int) (-1) 4 ≠ 0 ↔
      ∃ k, 1 ≤ k ∧ ray p o (((m % 8 : Nat) : Int) + (-1)) (((m / 8 : Nat) : Int) + 0)
        (-1) 0 k) :=
  getFlipsInDirection_iff (by decide) (by decide) (by decide) (by decide) (by decide)
    (by decide) (by decide) (by decide) (by decide) hm hdisj

theorem flips_dir5_iff (p o m : Nat) (hm : m < 64) (hdisj : p &&& o = 0) :
    (getFlipsInDirection p o (m : Int) (-7) 5 ≠ 0 ↔
      ∃ k, 1 ≤ k ∧ ray p o (((m % 8 : Nat) : Int) + 1) (((m / 8 : Nat) : Int) + (-1))
        1 (-1) k) :=
  getFlipsInDirection_iff (by decide) (by decide) (by decide) (by decide) (by decide)
    (by decide) (by decide) (by decide) (by decide) hm hdisj

theorem flips_dir6_iff (p o m : Nat) (hm : m < 64) (hdisj : p &&& o = 0) :
    (getFlipsInDirection p o (m : Int) (-8) 6 ≠ 0 ↔
      ∃ k, 1 ≤ k ∧ ray p o (((m % 8 : Nat) : Int) + 0) (((m / 8 : Nat) : Int) + (-1))
        0 (-1) k) :=
  getFlipsInDirection_iff (by decide) (by decide) (by decide) (by decide) (by decide)
    (by decide) (by decide) (by decide) (by decide) hm hdisj

theorem flips_dir7_iff (p o m : Nat) (hm : m < 64) (hdisj : p &&& o = 0) :
    (getFlipsInDirection p o (m : Int) (-9) 7 ≠ 0 ↔
      ∃ k, 1 ≤ k ∧ ray p o (((m % 8 : Nat) : Int) + (-1)) (((m / 8 : Nat) : Int) + (-1))
        (-1) (-1) k) :=
  getFlipsInDirection_iff (by decide) (by decide) (by decide) (by decide) (by decide)
    (by decide) (by decide) (by decide) (by decide) hm hdisj

theorem movegen_N_iff (p o : Nat) (hp : p < 2 ^ 64) (ho : o < 2 ^ 64) (hdisj : p &&& o = 0)
    (m : Nat) (hm : m < 64) (hempty : (p ||| o).testBit m = false) :
    ((generateMovesInDirection p o shiftN).testBit m = true ↔
      getFlipsInDirection p o (m : Int) 8 1 ≠ 0) := by
  rw [generateMoves_testBit shiftN_spec' shiftN_lt hp ho m hm hempty,
    flips_dir1_iff p o m hm hdisj]
  constructor
  · rintro ⟨len, h1, h6, hr⟩
    exact ⟨len, h1, hr⟩
  · rintro ⟨k, h1, hr⟩
    exact ⟨k, h1, ray_le_six (by decide) (by decide) (by decide) hm hr, hr⟩

theorem movegen_S_iff (p o : Nat) (hp : p < 2 ^ 64) (ho : o < 2 ^ 64) (hdisj : p &&& o = 0)
    (m : Nat) (hm : m < 64) (hempty : (p ||| o).testBit m = false) :
    ((generateMovesInDirection p o shiftS).testBit m = true ↔
      getFlipsInDirection p o (m : Int) (-8) 6 ≠ 0) := by
  rw [generateMoves_testBit shiftS_spec' shiftS_lt hp ho m hm hempty,
    flips_dir6_iff p o m hm hdisj]
  constructor
  · rintro ⟨len, h1, h6, hr⟩
    exact ⟨len, h1, hr⟩
  · rintro ⟨k, h1, hr⟩
    exact ⟨k, h1, ray_le_six (by decide) (by decide) (by decide) hm hr, hr⟩

theorem movegen_E_iff (p o : Nat) (hp : p < 2 ^ 64) (ho : o < 2 ^ 64) (hdisj : p &&& o = 0)
    (m : Nat) (hm : m < 64) (hempty : (p ||| o).testBit m = false) :
    ((generateMovesInDirection p o shiftE).testBit m = true ↔
      getFlipsInDirection p o (m : Int) (-1) 4 ≠ 0) := by
  rw [generateMoves_testBit shiftE_spec' shiftE_lt hp ho m hm hempty,
    flips_dir4_iff p o m hm hdisj]
  constructor
  · rintro ⟨len, h1, h6, hr⟩
    exact ⟨len, h1, hr⟩
  · rintro ⟨k, h1, hr⟩
    exact ⟨k, h1, ray_le_six (by decide) (by decide) (by decide) hm hr, hr⟩

theorem movegen_W_iff (p o : Nat) (hp : p < 2 ^ 64) (ho : o < 2 ^ 64) (hdisj : p &&& o = 0)
    (m : Nat) (hm : m < 64) (hempty : (p ||| o).testBit m = false) :
    ((generateMovesInDirection p o shiftW).testBit m = true ↔
      getFlipsInDirection p o (m : Int) 1 3 ≠ 0) := by
  rw [generateMoves_testBit shiftW_spec' shiftW_lt hp ho m hm hempty,
    flips_dir3_iff p o m hm hdisj]
  constructor
  · rintro ⟨len, h1, h6, hr⟩
    exact ⟨len, h1, hr⟩
  · rintro ⟨k, h1, hr⟩
    exact ⟨k, h1, ray_le_six (by decide) (by decide) (by decide) hm hr, hr⟩

theorem movegen_NE_iff (p o : Nat) (hp : p < 2 ^ 64) (ho : o < 2 ^ 64) (hdisj : p &&& o = 0)
    (m : Nat) (hm : m < 64) (hempty : (p ||| o).testBit m = false) :
    ((generateMovesInDirection p o shiftNE).testBit m = true ↔
      getFlipsInDirection p o (m : Int) 7 2 ≠ 0) := by
  rw [generateMoves_testBit shiftNE_spec' shiftNE_lt hp ho m hm hempty,
    flips_dir2_iff p o m hm hdisj]
  constructor
  · rintro ⟨len, h1, h6, hr⟩
    exact ⟨len, h1, hr⟩
  · rintro ⟨k, h1, hr⟩
    exact ⟨k, h1, ray_le_six (by decide) (by decide) (by decide) hm hr, hr⟩

theorem movegen_NW_iff (p o : Nat) (hp : p < 2 ^ 64) (ho : o < 2 ^ 64) (hdisj : p &&& o = 0)
    (m : Nat) (hm : m < 64) (hempty : (p ||| o).testBit m = false) :
    ((generateMovesInDirection p o shiftNW).testBit m = true ↔
      getFlipsInDirection p o (m : Int) 9 0 ≠ 0) := by
  rw [generateMoves_testBit shiftNW_spec' shiftNW_lt hp ho m hm hempty,
    flips_dir0_iff p o m hm hdisj]
  constructor
  · rintro ⟨len, h1, h6, hr⟩
    exact ⟨len, h1, hr⟩
  · rintro ⟨k, h1, hr⟩
    exact ⟨k, h1, ray_le_six (by decide) (by decide) (by decide) hm hr, hr⟩

theorem movegen_SE_iff (p o : Nat) (hp : p < 2 ^ 64) (ho : o < 2 ^ 64) (hdisj : p &&& o = 0)
    (m : Nat) (hm : m < 64) (hempty : (p ||| o).testBit m = false) :
    ((generateMovesInDirection p o shiftSE).testBit m = true ↔
      getFlipsInDirection p o (m : Int) (-9) 7 ≠ 0) := by
  rw [generateMoves_testBit shiftSE_spec' shiftSE_lt hp ho m hm hempty,
    flips_dir7_iff p o m hm hdisj]
  constructor
  · rintro ⟨len, h1, h6, hr⟩
    exact ⟨len, h1, hr⟩
  · rintro ⟨k, h1, hr⟩
    exact ⟨k, h1, ray_le_six (by decide) (by decide) (by decide) hm hr, hr⟩

theorem movegen_SW_iff (p o : Nat) (hp : p < 2 ^ 64) (ho : o < 2 ^ 64) (hdisj : p &&& o = 0)
    (m : Nat) (hm : m < 64) (hempty : (p ||| o).testBit m = false) :
    ((generateMovesInDirection p o shiftSW).testBit m = true ↔
      getFlipsInDirection p o (m : Int) (-7) 5 ≠ 0) := by
  rw [generateMoves_testBit shiftSW_spec' shiftSW_lt hp ho m hm hempty,
    flips_dir5_iff p o m hm hdisj]
  constructor
  · rintro ⟨len, h1, h6, hr⟩
    exact ⟨len, h1, hr⟩
  · rintro ⟨k, h1, hr⟩
    exact ⟨k, h1, ray_le_six (by decide) (by decide) (by decide) hm hr, hr⟩

set_option maxHeartbeats 2000000 in
/-- Claim C1, amended: for disjoint 64-bit masks and an empty square m,
bit m of the Kogge-Stone legal-move bitmap is set exactly when the
per-direction flip walker finds a nonempty flip set for m. -/
theorem claim_C1_legalmoves_iff_flips (p o : Nat) (hp : p < 2 ^ 64) (ho : o < 2 ^ 64)
    (hdisj : p &&& o = 0) (m : Nat) (hm : m < 64)
    (hempty : (p ||| o).testBit m = false) :
    ((getValidMovesBitmap p o).testBit m = true ↔ calculateFlips p o m ≠ 0) := by
  have hcf : calculateFlips p o m =
      ((((((((0 ||| getFlipsInDirection p o (m : Int) 9 0) |||
        getFlipsInDirection p o (m : Int) 8 1) |||
        getFlipsInDirection p o (m : Int) 7 2) |||
        getFlipsInDirection p o (m : Int) 1 3) |||
        getFlipsInDirection p o (m : Int) (-1) 4) |||
        getFlipsInDirection p o (m : Int) (-7) 5) |||
        getFlipsInDirection p o (m : Int) (-8) 6) |||
        getFlipsInDirection p o (m : Int) (-9) 7) := by
    simp only [calculateFlips, List.range_succ, List.range_zero, List.foldl_append,
      List.foldl_cons, List.foldl_nil, List.nil_append, List.cons_append, DIRECTIONS]
  simp only [getValidMovesBitmap, Nat.testBit_or, Bool.or_eq_true]
  rw [movegen_N_iff p o hp ho hdisj m hm hempty, movegen_S_iff p o hp ho hdisj m hm hempty,
    movegen_E_iff p o hp ho hdisj m hm hempty, movegen_W_iff p o hp ho hdisj m hm hempty,
    movegen_NE_iff p o hp ho hdisj m hm hempty, movegen_NW_iff p o hp ho hdisj m hm hempty,
    movegen_SE_iff p o hp ho hdisj m hm hempty, movegen_SW_iff p o hp ho hdisj m hm hempty,
    hcf]
  simp only [lor_ne_zero_iff, Nat.zero_or]
  tauto

/-- Witness for the amended claim C1 at the initial position and the legal
black move 19. -/
theorem claim_C1_witness :
    ((getValidMovesBitmap ((1 <<< 35) ||| (1 <<< 28)) ((1 <<< 27) ||| (1 <<< 36))).testBit 19
        = true ↔
      calculateFlips ((1 <<< 35) ||| (1 <<< 28)) ((1 <<< 27) ||| (1 <<< 36)) 19 ≠ 0) :=
  claim_C1_legalmoves_iff_flips ((1 <<< 35) ||| (1 <<< 28)) ((1 <<< 27) ||| (1 <<< 36))
    (by decide) (by decide) (by decide) 19 (by decide) (by decide)

/-! ## Claim C5: disjointness of the occupancy masks -/

theorem testBit_not64_any (x i : Nat) (hi : i < 64) :
    (not64 x).testBit i = !x.testBit i := by
  unfold not64
  rw [Nat.testBit_xor, Nat.testBit_two_pow_sub_one]
  simp [hi]

theorem testBit_not64_ge (x i : Nat) (hi : 64 ≤ i) :
    (not64 x).testBit i = x.testBit i := by
  unfold not64
  rw [Nat.testBit_xor, Nat.testBit_two_pow_sub_one]
  have h : ¬i < 64 := by omega
  simp [h]

/-- Every square marked legal by the Kogge-Stone bitmap is empty: each
directional generator ends with an AND against the empty mask. -/
theorem valid_move_empty (p o m : Nat) (hm : m < 64)
    (h : (getValidMovesBitmap p o).testBit m = true) :
    (p ||| o).testBit m = false := by
  by_contra hc
  have hpo : (p ||| o).testBit m = true := by
    cases hx : (p ||| o).testBit m
    · exact absurd hx hc
    · rfl
  have hemod : (not64 (p ||| o)).testBit m = false := by
    rw [testBit_not64_any _ _ hm, hpo]
    rfl
  have hfalse : (getValidMovesBitmap p o).testBit m = false := by
    simp only [getValidMovesBitmap, generateMovesInDirection, Nat.testBit_or, Nat.testBit_and,
      hemod, Bool.and_false, Bool.or_false]
  rw [hfalse] at h
  exact Bool.false_ne_true h

/-- Placing a disc plus flips for one side and clearing the flips on the
other side preserves disjointness, provided the placed bit does not sit on
the other side's mask (below 64) and the high bits are controlled. -/
theorem disjoint_after_place (p o mb fl : Nat) (hpo : p &&& o = 0)
    (hmb : ∀ i, i < 64 → mb.testBit i = true → o.testBit i = false)
    (hhi : ∀ i, 64 ≤ i → o.testBit i = false ∨ mb.testBit i = false ∧ fl.testBit i = false) :
    (p ||| (mb ||| fl)) &&& (o &&& not64 fl) = 0 := by
  apply and_eq_zero_of_testBit
  intro i hbi
  rw [Nat.testBit_or, Nat.testBit_or, Bool.or_eq_true, Bool.or_eq_true] at hbi
  rw [Nat.testBit_and]
  by_cases hi : i < 64
  · rw [testBit_not64_any _ _ hi]
    rcases hbi with hp | hmb' | hf
    · rw [testBit_of_and_eq_zero hpo hp, Bool.false_and]
    · rw [hmb i hi hmb', Bool.false_and]
    · rw [hf, Bool.not_true, Bool.and_false]
  · have hi' : 64 ≤ i := le_of_not_lt hi
    rcases hhi i hi' with ho' | ⟨_, hf'⟩
    · rw [ho', Bool.false_and]
    · rw [testBit_not64_ge _ _ hi', hf', Bool.and_false]

/-- Setting a single square for one side and clearing it on the other
preserves disjointness. -/
theorem disjoint_after_set (p o n : Nat) (hn : n < 64) (hpo : p &&& o = 0) :
    (p ||| 1 <<< n) &&& (o &&& not64 (1 <<< n)) = 0 := by
  apply and_eq_zero_of_testBit
  intro i hbi
  rw [Nat.testBit_or, Bool.or_eq_true, testBit_one_shiftLeft] at hbi
  rw [Nat.testBit_and]
  by_cases hi : i < 64
  · rw [testBit_not64_any _ _ hi, testBit_one_shiftLeft]
    rcases hbi with hp | hni
    · rw [testBit_of_and_eq_zero hpo hp, Bool.false_and]
    · rw [hni, Bool.not_true, Bool.and_false]
  · have hi' : 64 ≤ i := le_of_not_lt hi
    have hni : decide (n = i) = false := by
      rw [decide_eq_false_iff_not]
      omega
    rw [testBit_not64_ge _ _ hi', testBit_one_shiftLeft, hni, Bool.and_false]

/-- Clearing the same square on both sides preserves disjointness. -/
theorem disjoint_after_clear (p o b : Nat) (hpo : p &&& o = 0) :
    (p &&& not64 b) &&& (o &&& not64 b) = 0 := by
  apply and_eq_zero_of_testBit
  intro i hbi
  rw [Nat.testBit_and, Bool.and_eq_true] at hbi
  rw [Nat.testBit_and, testBit_of_and_eq_zero hpo hbi.1, Bool.false_and]

/-- makeMove preserves disjointness of the masks on a legal move. -/
theorem makeMove_preserves_disjoint (board : Board_t) (player : PlayerColor_t) (move : Nat)
    (hb : board.black < 2 ^ 64) (hw : board.white < 2 ^ 64)
    (hdisj : disjointMasks board)
    (hlegal : (getValidMovesBitmap (getPlayerBitboard board player)
        (getOpponentBitboard board player)).testBit move = true) :
    disjointMasks (makeMove board player move).2.1 := by
  have hd : board.black &&& board.white = 0 := hdisj
  cases player with
  | black =>
    have hlegal' : (getValidMovesBitmap board.black board.white).testBit move = true := hlegal
    show (board.black ||| (1 <<< move ||| calculateFlips board.black board.white move)) &&&
        (board.white &&& not64 (calculateFlips board.black board.white move)) = 0
    apply disjoint_after_place _ _ _ _ hd
    · intro i hi hmb
      rw [testBit_one_shiftLeft] at hmb
      have hmi : move = i := of_decide_eq_true hmb
      rw [← hmi] at hi ⊢
      have he : (board.black ||| board.white).testBit move = false :=
        valid_move_empty _ _ _ hi hlegal'
      rw [Nat.testBit_or, Bool.or_eq_false_iff] at he
      exact he.2
    · intro i hi
      exact Or.inl (testBit_ge_64 hw hi)
  | white =>
    have hlegal' : (getValidMovesBitmap board.white board.black).testBit move = true := hlegal
    have hd' : board.white &&& board.black = 0 := by
      rw [Nat.land_comm]
      exact hd
    show (board.black &&& not64 (calculateFlips board.white board.black move)) &&&
        (board.white ||| (1 <<< move ||| calculateFlips board.white board.black move)) = 0
    rw [Nat.land_comm]
    apply disjoint_after_place _ _ _ _ hd'
    · intro i hi hmb
      rw [testBit_one_shiftLeft] at hmb
      have hmi : move = i := of_decide_eq_true hmb
      rw [← hmi] at hi ⊢
      have he : (board.white ||| board.black).testBit move = false :=
        valid_move_empty _ _ _ hi hlegal'
      rw [Nat.testBit_or, Bool.or_eq_false_iff] at he
      exact he.2
    · intro i hi
      exact Or.inl (testBit_ge_64 hb hi)

/-- playMove builds the post-move board exactly as makeMove does. -/
theorem playMove_board_eq (model : GameModel) (move : Nat) :
    (playMove model move).2.board = (makeMove model.board model.currentPlayer move).2.1 := by
  cases hcp : model.currentPlayer <;>
    simp only [playMove, makeMove, getCurrentPlayer, hcp] <;> split_ifs <;> rfl

/-- setBoardPiece preserves disjointness of the masks. -/
theorem setBoardPiece_preserves_disjoint (model : GameModel) (n : Nat) (piece : SquareState_t)
    (hn : n < 64) (hd : disjointMasks model.board) :
    disjointMasks (setBoardPiece model n piece).board := by
  have hd' : model.board.black &&& model.board.white = 0 := hd
  cases piece with
  | black =>
    show (model.board.black ||| 1 <<< n) &&& (model.board.white &&& not64 (1 <<< n)) = 0
    exact disjoint_after_set _ _ _ hn hd'
  | white =>
    show (model.board.black &&& not64 (1 <<< n)) &&& (model.board.white ||| 1 <<< n) = 0
    rw [Nat.land_comm]
    exact disjoint_after_set _ _ _ hn (by rw [Nat.land_comm]; exact hd')
  | empty =>
    show (model.board.black &&& not64 (1 <<< n)) &&&
        (model.board.white &&& not64 (1 <<< n)) = 0
    exact disjoint_after_clear _ _ _ hd'

/-- Claim C5: the two occupancy masks are disjoint initially, and the
board-mutating core operations preserve disjointness: makeMove and
playMove on a legal move of the side to move, unmakeMove on a snapshot of
a disjoint board, and setBoardPiece on any square and piece value. -/
theorem claim_C5_disjoint_invariant :
    disjointMasks startModel.board ∧
    (∀ (board : Board_t) (player : PlayerColor_t) (move : Nat),
      board.black < 2 ^ 64 → board.white < 2 ^ 64 → disjointMasks board →
      (getValidMovesBitmap (getPlayerBitboard board player)
        (getOpponentBitboard board player)).testBit move = true →
      disjointMasks (makeMove board player move).2.1) ∧
    (∀ (model : GameModel) (move : Nat),
      model.board.black < 2 ^ 64 → model.board.white < 2 ^ 64 → disjointMasks model.board →
      (getValidMovesBitmap (getPlayerBitboard model.board (getCurrentPlayer model))
        (getOpponentBitboard model.board (getCurrentPlayer model))).testBit move = true →
      disjointMasks (playMove model move).2.board) ∧
    (∀ state : BoardState_t, state.black &&& state.white = 0 →
      disjointMasks (unmakeMove state).1) ∧
    (∀ (model : GameModel) (n : Nat) (piece : SquareState_t), n < 64 →
      disjointMasks model.board → disjointMasks (setBoardPiece model n piece).board) := by
  refine ⟨by decide, ?_, ?_, ?_, ?_⟩
  · exact fun board player move hb hw hd hl =>
      makeMove_preserves_disjoint board player move hb hw hd hl
  · intro model move hb hw hd hl
    have h := makeMove_preserves_disjoint model.board (getCurrentPlayer model) move hb hw hd hl
    unfold disjointMasks at h ⊢
    rw [playMove_board_eq]
    exact h
  · intro state h
    exact h
  · intro model n piece hn hd
    exact setBoardPiece_preserves_disjoint model n piece hn hd

/-- Witness for claim C5: the initial position is disjoint and each
operation yields a disjoint board on concrete legal inputs (black move 19
from the start position). -/
theorem claim_C5_witness :
    disjointMasks (makeMove startModel.board PlayerColor_t.black 19).2.1 ∧
    disjointMasks (playMove startModel 19).2.board ∧
    disjointMasks (unmakeMove (BoardState_t.mk 5 2 PlayerColor_t.white)).1 ∧
    disjointMasks (setBoardPiece startModel 0 SquareState_t.white).board :=
  ⟨claim_C5_disjoint_invariant.2.1 startModel.board PlayerColor_t.black 19 (by decide) (by decide)
      (by decide) (by decide),
   claim_C5_disjoint_invariant.2.2.1 startModel 19 (by decide) (by decide) (by decide) (by decide),
   claim_C5_disjoint_invariant.2.2.2.1 (BoardState_t.mk 5 2 PlayerColor_t.white) (by decide),
   claim_C5_disjoint_invariant.2.2.2.2 startModel 0 SquareState_t.white (by decide) (by decide)⟩

/-! ## Claim C10: the AI move list is exactly the set bits in increasing order -/

theorem testBit_two_pow_mul_add (n a b i : Nat) (hb : b < 2 ^ n) :
    (2 ^ n * a + b).testBit i = (b.testBit i || (decide (n ≤ i) && a.testBit (i - n))) := by
  by_cases hi : i < n
  · have hni : decide (n ≤ i) = false := by
      rw [decide_eq_false_iff_not]
      omega
    rw [hni, Bool.false_and, Bool.or_false]
    rw [Nat.testBit_to_div_mod, Nat.testBit_to_div_mod]
    have hsplit : (2 : Nat) ^ n = 2 ^ (n - i) * 2 ^ i := by
      rw [← pow_add]
      congr 1
      omega
    have hdiv : (2 ^ n * a + b) / 2 ^ i = b / 2 ^ i + 2 ^ (n - i) * a := by
      rw [hsplit]
      rw [show 2 ^ (n - i) * 2 ^ i * a + b = b + 2 ^ (n - i) * a * 2 ^ i by ring]
      exact Nat.add_mul_div_right b _ (by positivity)
    rw [hdiv]
    have hsplit2 : 2 ^ (n - i) * a = 2 ^ (n - i - 1) * a * 2 := by
      rw [show (2 : Nat) ^ (n - i) = 2 ^ (n - i - 1) * 2 by
        rw [← pow_succ]
        congr 1
        omega]
      ring
    rw [hsplit2, Nat.add_mul_mod_self_right]
  · have hni : decide (n ≤ i) = true := by
      rw [decide_eq_true_eq]
      omega
    have hbi : b.testBit i = false :=
      Nat.testBit_eq_false_of_lt
        (lt_of_lt_of_le hb (Nat.pow_le_pow_right (by omega) (by omega)))
    rw [hni, hbi, Bool.true_and, Bool.false_or]
    rw [Nat.testBit_to_div_mod, Nat.testBit_to_div_mod]
    have hsplit : (2 : Nat) ^ i = 2 ^ n * 2 ^ (i - n) := by
      rw [← pow_add]
      congr 1
      omega
    rw [hsplit, ← Nat.div_div_eq_div_mul, Nat.mul_add_div (by positivity),
      Nat.div_eq_of_lt hb, Nat.add_zero]

/-- Clearing the least significant set bit: `bb &&& (bb - 1)` keeps exactly
the set bits strictly above the least one. -/
theorem clear_lsb_testBit (bb ℓ : Nat) (hbit : bb.testBit ℓ = true)
    (hlow : ∀ j, j < ℓ → bb.testBit j = false) :
    ∀ i, (bb &&& (bb - 1)).testBit i = (bb.testBit i && decide (ℓ < i)) := by
  have hp2 : 0 < 2 ^ ℓ := Nat.pos_pow_of_pos ℓ (by omega)
  have hp2s : (2 : Nat) ^ ℓ < 2 ^ (ℓ + 1) := by
    rw [pow_succ]
    omega
  have hmod : bb % 2 ^ ℓ = 0 := by
    apply Nat.eq_of_testBit_eq
    intro j
    rw [Nat.testBit_mod_two_pow, Nat.zero_testBit]
    by_cases hj : j < ℓ
    · rw [hlow j hj, Bool.and_false]
    · have hd : decide (j < ℓ) = false := by
        rw [decide_eq_false_iff_not]
        exact hj
      rw [hd, Bool.false_and]
  have hq : bb = 2 ^ ℓ * (bb / 2 ^ ℓ) := by
    have hdm := Nat.div_add_mod bb (2 ^ ℓ)
    omega
  have hodd : bb / 2 ^ ℓ % 2 = 1 := by
    rw [Nat.testBit_to_div_mod] at hbit
    exact of_decide_eq_true hbit
  have hq2 : bb / 2 ^ ℓ = 2 * (bb / 2 ^ ℓ / 2) + 1 := by
    have hdm := Nat.div_add_mod (bb / 2 ^ ℓ) 2
    omega
  have ha : bb = 2 ^ (ℓ + 1) * (bb / 2 ^ ℓ / 2) + 2 ^ ℓ := by
    calc bb = 2 ^ ℓ * (bb / 2 ^ ℓ) := hq
    _ = 2 ^ ℓ * (2 * (bb / 2 ^ ℓ / 2) + 1) := by rw [← hq2]
    _ = 2 ^ (ℓ + 1) * (bb / 2 ^ ℓ / 2) + 2 ^ ℓ := by
      rw [pow_succ]
      ring
  have hsub : bb - 1 = 2 ^ (ℓ + 1) * (bb / 2 ^ ℓ / 2) + (2 ^ ℓ - 1) := by
    omega
  intro i
  rw [Nat.testBit_and]
  rw [show bb.testBit i = ((2 ^ ℓ : Nat).testBit i ||
      (decide (ℓ + 1 ≤ i) && (bb / 2 ^ ℓ / 2).testBit (i - (ℓ + 1)))) from by
    conv_lhs => rw [ha]
    exact testBit_two_pow_mul_add (ℓ + 1) _ _ i hp2s]
  rw [show (bb - 1).testBit i = ((2 ^ ℓ - 1 : Nat).testBit i ||
      (decide (ℓ + 1 ≤ i) && (bb / 2 ^ ℓ / 2).testBit (i - (ℓ + 1)))) from by
    conv_lhs => rw [hsub]
    exact testBit_two_pow_mul_add (ℓ + 1) _ _ i (by omega)]
  rw [Nat.testBit_two_pow, Nat.testBit_two_pow_sub_one]
  rcases Nat.lt_trichotomy i ℓ with hti | hti | hti
  · have e1 : decide (ℓ = i) = false := by
      rw [decide_eq_false_iff_not]
      omega
    have e2 : decide (i < ℓ) = true := by
      rw [decide_eq_true_eq]
      exact hti
    have e3 : decide (ℓ < i) = false := by
      rw [decide_eq_false_iff_not]
      omega
    have e4 : decide (ℓ + 1 ≤ i) = false := by
      rw [decide_eq_false_iff_not]
      omega
    rw [e1, e2, e3, e4]
    cases (bb / 2 ^ ℓ / 2).testBit (i - (ℓ + 1)) <;> rfl
  · have e1 : decide (ℓ = i) = true := by
      rw [decide_eq_true_eq]
      omega
    have e2 : decide (i < ℓ) = false := by
      rw [decide_eq_false_iff_not]
      omega
    have e3 : decide (ℓ < i) = false := by
      rw [decide_eq_false_iff_not]
      omega
    have e4 : decide (ℓ + 1 ≤ i) = false := by
      rw [decide_eq_false_iff_not]
      omega
    rw [e1, e2, e3, e4]
    cases (bb / 2 ^ ℓ / 2).testBit (i - (ℓ + 1)) <;> rfl
  · have e1 : decide (ℓ = i) = false := by
      rw [decide_eq_false_iff_not]
      omega
    have e2 : decide (i < ℓ) = false := by
      rw [decide_eq_false_iff_not]
      omega
    have e3 : decide (ℓ < i) = true := by
      rw [decide_eq_true_eq]
      exact hti
    have e4 : decide (ℓ + 1 ≤ i) = true := by
      rw [decide_eq_true_eq]
      omega
    rw [e1, e2, e3, e4]
    cases (bb / 2 ^ ℓ / 2).testBit (i - (ℓ + 1)) <;> rfl

/-- bitScanForwardAux finds the least significant set bit. -/
theorem bitScanForwardAux_spec : ∀ (fuel bb : Nat), bb ≠ 0 → bb < 2 ^ fuel →
    bb.testBit (bitScanForwardAux fuel bb) = true ∧
      ∀ j, j < bitScanForwardAux fuel bb → bb.testBit j = false := by
  intro fuel
  induction fuel with
  | zero =>
    intro bb hne hlt
    exact absurd (by omega : bb = 0) hne
  | succ f ih =>
    intro bb hne hlt
    have hv : bitScanForwardAux (f + 1) bb =
        if bb % 2 = 1 then 0 else bitScanForwardAux f (bb / 2) + 1 := rfl
    by_cases h2 : bb % 2 = 1
    · rw [hv, if_pos h2]
      refine ⟨?_, ?_⟩
      · rw [Nat.testBit_zero, decide_eq_true_eq]
        exact h2
      · intro j hj
        exact absurd hj (Nat.not_lt_zero j)
    · have hne2 : bb / 2 ≠ 0 := by omega
      have hlt2 : bb / 2 < 2 ^ f := by
        have hpow : (2 : Nat) ^ (f + 1) = 2 ^ f * 2 := by rw [pow_succ]
        omega
      obtain ⟨ih1, ih2⟩ := ih (bb / 2) hne2 hlt2
      rw [hv, if_neg h2]
      refine ⟨?_, ?_⟩
      · rw [Nat.testBit_add_one]
        exact ih1
      · intro j hj
        cases j with
        | zero =>
          rw [Nat.testBit_zero, decide_eq_false_iff_not]
          omega
        | succ j' =>
          rw [Nat.testBit_add_one]
          exact ih2 j' (by omega)

/-- Filtering a range by a predicate whose least hit is ℓ peels off ℓ. -/
theorem filter_range_least (n ℓ : Nat) (p q : Nat → Bool) (hn : ℓ < n)
    (hlow : ∀ j, j < ℓ → p j = false) (hp : p ℓ = true)
    (hq : ∀ j, q j = (p j && decide (ℓ < j))) :
    (List.range n).filter p = ℓ :: (List.range n).filter q := by
  induction n with
  | zero => omega
  | succ m ih =>
    by_cases hm : ℓ < m
    · rw [List.range_succ, List.filter_append, List.filter_append, ih hm, List.cons_append]
      have hqm : q m = p m := by
        rw [hq m]
        have hd : decide (ℓ < m) = true := by
          rw [decide_eq_true_eq]
          exact hm
        rw [hd, Bool.and_true]
      simp only [List.filter_cons, List.filter_nil, hqm]
    · have hlm : ℓ = m := by omega
      subst hlm
      rw [List.range_succ, List.filter_append, List.filter_append]
      have h1 : (List.range ℓ).filter p = [] := by
        rw [List.filter_eq_nil_iff]
        intro a ha
        rw [List.mem_range] at ha
        rw [hlow a ha]
        exact Bool.false_ne_true
      have h2 : (List.range ℓ).filter q = [] := by
        rw [List.filter_eq_nil_iff]
        intro a ha
        rw [List.mem_range] at ha
        rw [hq a]
        have hd : decide (ℓ < a) = false := by
          rw [decide_eq_false_iff_not]
          omega
        rw [hd, Bool.and_false]
        exact Bool.false_ne_true
      have h3 : q ℓ = false := by
        rw [hq ℓ]
        have hd : decide (ℓ < ℓ) = false := by
          rw [decide_eq_false_iff_not]
          omega
        rw [hd, Bool.and_false]
      rw [h1, h2]
      simp [hp, h3]

theorem filter_range_zero_testBit :
    (List.range 64).filter (fun i => (0 : Nat).testBit i) = [] := by
  rw [List.filter_eq_nil_iff]
  intro a ha
  simp only [Nat.zero_testBit]
  exact Bool.false_ne_true

/-- The bit-extraction loop of getValidMovesAI produces exactly the set
bits of its 64-bit argument, in increasing order. -/
theorem movesLoopAux_filter : ∀ (fuel bb : Nat), bb < 2 ^ 64 →
    (∀ j, bb.testBit j = true → 64 - fuel ≤ j) →
    movesLoopAux fuel bb = (List.range 64).filter (fun i => bb.testBit i) := by
  intro fuel
  induction fuel with
  | zero =>
    intro bb hlt hge
    have hz : bb = 0 := by
      apply Nat.eq_of_testBit_eq
      intro j
      rw [Nat.zero_testBit]
      cases hj : bb.testBit j
      · rfl
      · exfalso
        have h1 := hge j hj
        have h2 : j < 64 := by
          by_contra hc
          rw [testBit_ge_64 hlt (le_of_not_lt hc)] at hj
          exact Bool.false_ne_true hj
        omega
    rw [hz, filter_range_zero_testBit]
    rfl
  | succ f ih =>
    intro bb hlt hge
    by_cases hz : bb = 0
    · rw [hz, filter_range_zero_testBit]
      rfl
    · have hbit : bb.testBit (bitScanForward bb) = true :=
        (bitScanForwardAux_spec 64 bb hz hlt).1
      have hlow : ∀ j, j < bitScanForward bb → bb.testBit j = false :=
        (bitScanForwardAux_spec 64 bb hz hlt).2
      have hl64 : bitScanForward bb < 64 := by
        by_contra hc
        rw [testBit_ge_64 hlt (le_of_not_lt hc)] at hbit
        exact Bool.false_ne_true hbit
      have hclear := clear_lsb_testBit bb (bitScanForward bb) hbit hlow
      have hge2 : ∀ j, (bb &&& (bb - 1)).testBit j = true → 64 - f ≤ j := by
        intro j hj
        rw [hclear j, Bool.and_eq_true] at hj
        have hlj : bitScanForward bb < j := of_decide_eq_true hj.2
        have hgl := hge (bitScanForward bb) hbit
        omega
      have hlhs : movesLoopAux (f + 1) bb =
          bitScanForward bb :: movesLoopAux f (bb &&& (bb - 1)) := by
        have hv : movesLoopAux (f + 1) bb = if bb = 0 then [] else
            bitScanForward bb :: movesLoopAux f (bb &&& (bb - 1)) := rfl
        rw [hv, if_neg hz]
      rw [hlhs, ih (bb &&& (bb - 1)) (and_lt_64_left hlt) hge2]
      exact (filter_range_least 64 (bitScanForward bb) (fun i => bb.testBit i)
        (fun i => (bb &&& (bb - 1)).testBit i) hl64 hlow hbit hclear).symm

theorem movesLoop_eq_filter (bb : Nat) (hlt : bb < 2 ^ 64) :
    movesLoop bb = (List.range 64).filter (fun i => bb.testBit i) :=
  movesLoopAux_filter 64 bb hlt (fun j _ => by omega)

theorem generateMovesInDirection_lt (p o : Nat) (hp : p < 2 ^ 64) (ho : o < 2 ^ 64)
    (sh : Nat → Nat) : generateMovesInDirection p o sh < 2 ^ 64 := by
  unfold generateMovesInDirection
  exact and_lt_64_right (not64_lt (lor_lt_64 hp ho))

theorem getValidMovesBitmap_lt (p o : Nat) (hp : p < 2 ^ 64) (ho : o < 2 ^ 64) :
    getValidMovesBitmap p o < 2 ^ 64 := by
  unfold getValidMovesBitmap
  have h := generateMovesInDirection_lt p o hp ho
  exact lor_lt_64 (lor_lt_64 (lor_lt_64 (lor_lt_64 (lor_lt_64 (lor_lt_64 (lor_lt_64
    (h shiftN) (h shiftS)) (h shiftE)) (h shiftW)) (h shiftNE)) (h shiftNW)) (h shiftSE))
    (h shiftSW)

/-- Claim C10: for a board with 64-bit masks the list produced by
getValidMovesAI is exactly the filter of the square indices 0..63 by the
legal-move bitmap: membership is equivalent to the bit being set, the list
is strictly increasing, and it has no duplicates. -/
theorem claim_C10_moves_list (board : Board_t) (player : PlayerColor_t)
    (hb : board.black < 2 ^ 64) (hw : board.white < 2 ^ 64) :
    getValidMovesAI board player =
      (List.range 64).filter
        (fun i => (getValidMovesBitmap (getPlayerBitboard board player)
          (getOpponentBitboard board player)).testBit i) ∧
    (∀ m, m ∈ getValidMovesAI board player ↔
      (getValidMovesBitmap (getPlayerBitboard board player)
        (getOpponentBitboard board player)).testBit m = true) ∧
    List.Pairwise (fun a b => a < b) (getValidMovesAI board player) ∧
    (getValidMovesAI board player).Nodup := by
  have hP : getPlayerBitboard board player < 2 ^ 64 := by
    cases player
    · exact hb
    · exact hw
  have hO : getOpponentBitboard board player < 2 ^ 64 := by
    cases player
    · exact hw
    · exact hb
  have hbm := getValidMovesBitmap_lt _ _ hP hO
  have hmain : getValidMovesAI board player =
      (List.range 64).filter
        (fun i => (getValidMovesBitmap (getPlayerBitboard board player)
          (getOpponentBitboard board player)).testBit i) := by
    unfold getValidMovesAI
    exact movesLoop_eq_filter _ hbm
  have hpw : List.Pairwise (fun a b => a < b) (getValidMovesAI board player) := by
    rw [hmain]
    exact List.Pairwise.sublist (List.filter_sublist _) (List.pairwise_lt_range 64)
  refine ⟨hmain, ?_, hpw, ?_⟩
  · intro m
    rw [hmain, List.mem_filter, List.mem_range]
    constructor
    · exact fun h => h.2
    · intro h
      refine ⟨?_, h⟩
      by_contra hc
      rw [testBit_ge_64 hbm (le_of_not_lt hc)] at h
      exact Bool.false_ne_true h
  · exact hpw.imp (fun hab => Nat.ne_of_lt hab)

/-- Witness for claim C10 at the initial position for black. -/
theorem claim_C10_witness :
    getValidMovesAI startModel.board PlayerColor_t.black =
      (List.range 64).filter
        (fun i => (getValidMovesBitmap (getPlayerBitboard startModel.board PlayerColor_t.black)
          (getOpponentBitboard startModel.board PlayerColor_t.black)).testBit i) ∧
    (∀ m, m ∈ getValidMovesAI startModel.board PlayerColor_t.black ↔
      (getValidMovesBitmap (getPlayerBitboard startModel.board PlayerColor_t.black)
        (getOpponentBitboard startModel.board PlayerColor_t.black)).testBit m = true) ∧
    List.Pairwise (fun a b => a < b) (getValidMovesAI startModel.board PlayerColor_t.black) ∧
    (getValidMovesAI startModel.board PlayerColor_t.black).Nodup :=
  claim_C10_moves_list startModel.board PlayerColor_t.black (by decide) (by decide)

/-! ## Claim C4: Zobrist hash incrementality -/

theorem lt_two_pow_64_of_bits (x : Nat) (h : ∀ i, 64 ≤ i → x.testBit i = false) :
    x < 2 ^ 64 := by
  have hx : x = x % 2 ^ 64 := by
    apply Nat.eq_of_testBit_eq
    intro i
    rw [Nat.testBit_mod_two_pow]
    by_cases hi : i < 64
    · have hd : decide (i < 64) = true := by
        rw [decide_eq_true_eq]
        exact hi
      rw [hd, Bool.true_and]
    · have hd : decide (i < 64) = false := by
        rw [decide_eq_false_iff_not]
        exact hi
      rw [h i (le_of_not_lt hi), hd, Bool.false_and]
  rw [hx]
  exact mod_two_pow_lt_64 x

/-- Every bit the directional flip walker accumulates is an opponent bit. -/
theorem flipsLoop_subset (p o : Nat) (step : Int) (dir : Nat) :
    ∀ (fuel : Nat) (pos : Int) (acc : Nat),
      (∀ i, acc.testBit i = true → o.testBit i = true) →
      ∀ i, (flipsLoop p o step dir fuel pos acc).testBit i = true → o.testBit i = true := by
  intro fuel
  induction fuel with
  | zero =>
    intro pos acc hacc i hi
    rw [show flipsLoop p o step dir 0 pos acc = 0 from rfl, Nat.zero_testBit] at hi
    exact absurd hi Bool.false_ne_true
  | succ f ih =>
    intro pos acc hacc i hi
    rw [show flipsLoop p o step dir (f + 1) pos acc =
        if isSquareValid pos dir then
          if o &&& (1 <<< pos.toNat) ≠ 0 then
            flipsLoop p o step dir f (pos + step) (acc ||| (1 <<< pos.toNat))
          else if p &&& (1 <<< pos.toNat) ≠ 0 then acc else 0
        else 0 from rfl] at hi
    split_ifs at hi with h1 h2 h3
    · refine ih (pos + step) (acc ||| (1 <<< pos.toNat)) ?_ i hi
      intro j hj
      rw [Nat.testBit_or, Bool.or_eq_true] at hj
      rcases hj with hj | hj
      · exact hacc j hj
      · rw [testBit_one_shiftLeft] at hj
        have hji : pos.toNat = j := of_decide_eq_true hj
        rw [← hji]
        exact (and_one_shiftLeft_ne_zero o pos.toNat).mp h2
    · exact hacc i hi
    · rw [Nat.zero_testBit] at hi
      exact absurd hi Bool.false_ne_true
    · rw [Nat.zero_testBit] at hi
      exact absurd hi Bool.false_ne_true

theorem getFlipsInDirection_subset (p o : Nat) (s step : Int) (dir : Nat) :
    ∀ i, (getFlipsInDirection p o s step dir).testBit i = true → o.testBit i = true := by
  intro i hi
  refine flipsLoop_subset p o step dir 128 (s + step) 0 ?_ i hi
  intro j hj
  rw [Nat.zero_testBit] at hj
  exact absurd hj Bool.false_ne_true

theorem foldl_or_testBit (g : Nat → Nat) :
    ∀ (l : List Nat) (acc : Nat) (i : Nat),
      (l.foldl (fun a d => a ||| g d) acc).testBit i = true →
      acc.testBit i = true ∨ ∃ d, d ∈ l ∧ (g d).testBit i = true := by
  intro l
  induction l with
  | nil =>
    intro acc i h
    exact Or.inl h
  | cons x xs ih =>
    intro acc i h
    rw [List.foldl_cons] at h
    rcases ih (acc ||| g x) i h with hacc | ⟨d, hd, hbit⟩
    · rw [Nat.testBit_or, Bool.or_eq_true] at hacc
      rcases hacc with h1 | h1
      · exact Or.inl h1
      · exact Or.inr ⟨x, List.mem_cons_self x xs, h1⟩
    · exact Or.inr ⟨d, List.mem_cons_of_mem x hd, hbit⟩

/-- Every bit of calculateFlips is an opponent bit. -/
theorem calculateFlips_subset (p o m : Nat) :
    ∀ i, (calculateFlips p o m).testBit i = true → o.testBit i = true := by
  intro i hi
  unfold calculateFlips at hi
  rcases foldl_or_testBit (fun dir => getFlipsInDirection p o (m : Int) (DIRECTIONS dir) dir)
      (List.range 8) 0 i hi with h0 | ⟨d, _, hbit⟩
  · rw [Nat.zero_testBit] at h0
    exact absurd h0 Bool.false_ne_true
  · exact getFlipsInDirection_subset p o (m : Int) (DIRECTIONS d) d i hbit

theorem calculateFlips_lt (p o m : Nat) (ho : o < 2 ^ 64) : calculateFlips p o m < 2 ^ 64 := by
  apply lt_two_pow_64_of_bits
  intro i hi
  cases hbit : (calculateFlips p o m).testBit i
  · rfl
  · have h1 := calculateFlips_subset p o m i hbit
    rw [testBit_ge_64 ho hi] at h1
    exact absurd h1 Bool.false_ne_true

theorem or_eq_xor_of_and_eq_zero (x y : Nat) (h : x &&& y = 0) : x ||| y = x ^^^ y := by
  apply Nat.eq_of_testBit_eq
  intro i
  rw [Nat.testBit_or, Nat.testBit_xor]
  cases hx : x.testBit i
  · cases hy : y.testBit i <;> rfl
  · rw [testBit_of_and_eq_zero h hx]
    rfl

theorem and_not64_eq_xor_of_subset (w f : Nat) (hw : w < 2 ^ 64)
    (hsub : ∀ i, f.testBit i = true → w.testBit i = true) :
    w &&& not64 f = w ^^^ f := by
  apply Nat.eq_of_testBit_eq
  intro i
  rw [Nat.testBit_and, Nat.testBit_xor]
  by_cases hi : i < 64
  · rw [testBit_not64_any _ _ hi]
    cases hf : f.testBit i
    · cases hwb : w.testBit i <;> rfl
    · rw [hsub i hf]
      rfl
  · have hwi : w.testBit i = false := testBit_ge_64 hw (le_of_not_lt hi)
    have hfi : f.testBit i = false := by
      cases hf : f.testBit i
      · rfl
      · exact absurd (hsub i hf) (by rw [hwi]; exact Bool.false_ne_true)
    rw [hwi, hfi, testBit_not64_ge _ _ (le_of_not_lt hi), hfi]
    rfl

theorem foldl_xor_init (g : Nat → Nat) (l : List Nat) :
    ∀ h : Nat, l.foldl (fun a i => a ^^^ g i) h = h ^^^ l.foldl (fun a i => a ^^^ g i) 0 := by
  induction l with
  | nil =>
    intro h
    exact (Nat.xor_zero h).symm
  | cons x xs ih =>
    intro h
    rw [List.foldl_cons, List.foldl_cons, ih (h ^^^ g x), ih (0 ^^^ g x), Nat.zero_xor,
      Nat.xor_assoc]

theorem foldl_xor2_eq (ko kp : Nat → Nat) (l : List Nat) :
    ∀ h : Nat, l.foldl (fun a i => (a ^^^ ko i) ^^^ kp i) h =
      l.foldl (fun a i => a ^^^ (ko i ^^^ kp i)) h := by
  induction l with
  | nil =>
    intro h
    rfl
  | cons x xs ih =>
    intro h
    rw [List.foldl_cons, List.foldl_cons, Nat.xor_assoc, ih]

theorem foldl_xor_split (ko kp : Nat → Nat) (l : List Nat) :
    l.foldl (fun a i => a ^^^ (ko i ^^^ kp i)) 0 =
      l.foldl (fun a i => a ^^^ ko i) 0 ^^^ l.foldl (fun a i => a ^^^ kp i) 0 := by
  induction l with
  | nil => exact (Nat.xor_zero 0).symm
  | cons x xs ih =>
    rw [List.foldl_cons, List.foldl_cons, List.foldl_cons,
      foldl_xor_init (fun i => ko i ^^^ kp i) xs (0 ^^^ (ko x ^^^ kp x)),
      foldl_xor_init ko xs (0 ^^^ ko x), foldl_xor_init kp xs (0 ^^^ kp x), ih]
    apply Nat.eq_of_testBit_eq
    intro i
    simp only [Nat.testBit_xor, Nat.zero_testBit]
    cases (ko x).testBit i <;> cases (kp x).testBit i <;>
      cases (xs.foldl (fun a i => a ^^^ ko i) 0).testBit i <;>
      cases (xs.foldl (fun a i => a ^^^ kp i) 0).testBit i <;> rfl

theorem xorFold_cons (key : Nat → Nat) (x : Nat) (l : List Nat) :
    xorFold key (x :: l) = key x ^^^ xorFold key l := by
  unfold xorFold
  rw [List.foldl_cons, foldl_xor_init key l (0 ^^^ key x), Nat.zero_xor]

/-- XOR-linearity of the keyed fold over the bits of a bitboard. -/
theorem xorFold_filter_xor (key : Nat → Nat) (a b : Nat) :
    ∀ l : List Nat,
      xorFold key (l.filter (fun i => (a ^^^ b).testBit i)) =
        xorFold key (l.filter (fun i => a.testBit i)) ^^^
          xorFold key (l.filter (fun i => b.testBit i)) := by
  intro l
  induction l with
  | nil => exact (Nat.xor_zero 0).symm
  | cons x xs ih =>
    simp only [List.filter_cons]
    by_cases hax : a.testBit x = true
    · by_cases hbx : b.testBit x = true
      · have hab : (a ^^^ b).testBit x = false := by
          rw [Nat.testBit_xor, hax, hbx]
          rfl
        rw [if_neg (by rw [hab]; exact Bool.false_ne_true), if_pos hax, if_pos hbx,
          xorFold_cons, xorFold_cons, ih]
        apply Nat.eq_of_testBit_eq
        intro i
        simp only [Nat.testBit_xor]
        cases (key x).testBit i <;>
          cases (xorFold key (xs.filter (fun i => a.testBit i))).testBit i <;>
          cases (xorFold key (xs.filter (fun i => b.testBit i))).testBit i <;> rfl
      · have hbx' : b.testBit x = false := by
          cases hb2 : b.testBit x
          · rfl
          · exact absurd hb2 hbx
        have hab : (a ^^^ b).testBit x = true := by
          rw [Nat.testBit_xor, hax, hbx']
          rfl
        rw [if_pos hab, if_pos hax, if_neg (by rw [hbx']; exact Bool.false_ne_true),
          xorFold_cons, xorFold_cons, ih, Nat.xor_assoc]
    · have hax' : a.testBit x = false := by
        cases ha2 : a.testBit x
        · rfl
        · exact absurd ha2 hax
      by_cases hbx : b.testBit x = true
      · have hab : (a ^^^ b).testBit x = true := by
          rw [Nat.testBit_xor, hax', hbx]
          rfl
        rw [if_pos hab, if_neg (by rw [hax']; exact Bool.false_ne_true), if_pos hbx,
          xorFold_cons, xorFold_cons, ih]
        apply Nat.eq_of_testBit_eq
        intro i
        simp only [Nat.testBit_xor]
        cases (key x).testBit i <;>
          cases (xorFold key (xs.filter (fun i => a.testBit i))).testBit i <;>
          cases (xorFold key (xs.filter (fun i => b.testBit i))).testBit i <;> rfl
      · have hbx' : b.testBit x = false := by
          cases hb2 : b.testBit x
          · rfl
          · exact absurd hb2 hbx
        have hab : (a ^^^ b).testBit x = false := by
          rw [Nat.testBit_xor, hax', hbx']
          rfl
        rw [if_neg (by rw [hab]; exact Bool.false_ne_true),
          if_neg (by rw [hax']; exact Bool.false_ne_true),
          if_neg (by rw [hbx']; exact Bool.false_ne_true), ih]

theorem bitsXor_xor (key : Nat → Nat) (a b : Nat) :
    bitsXor key (a ^^^ b) = bitsXor key a ^^^ bitsXor key b :=
  xorFold_filter_xor key a b (List.range 64)

theorem bitsXor_single (key : Nat → Nat) (m : Nat) (hm : m < 64) :
    bitsXor key (1 <<< m) = key m := by
  have hfil : (List.range 64).filter (fun i => (1 <<< m).testBit i) = [m] := by
    have h1 := filter_range_least 64 m (fun i => (1 <<< m).testBit i)
        (fun i => ((1 <<< m).testBit i && decide (m < i))) hm
        (fun j hj => by
          simp only [testBit_one_shiftLeft]
          rw [decide_eq_false_iff_not]
          omega)
        (by
          simp only [testBit_one_shiftLeft]
          exact decide_eq_true trivial)
        (fun j => rfl)
    rw [h1]
    have h2 : (List.range 64).filter
        (fun i => ((1 <<< m).testBit i && decide (m < i))) = [] := by
      rw [List.filter_eq_nil_iff]
      intro j hj
      simp only [testBit_one_shiftLeft]
      intro hcon
      rw [Bool.and_eq_true] at hcon
      have h3 := of_decide_eq_true hcon.1
      have h4 := of_decide_eq_true hcon.2
      omega
    rw [h2]
  unfold bitsXor xorFold
  rw [hfil, List.foldl_cons, List.foldl_nil, Nat.zero_xor]

theorem hashPiecesAux_eq_foldl (key : Nat → Nat) :
    ∀ (fuel bb h : Nat),
      TranspositionTable.hashPiecesAux key fuel bb h =
        (movesLoopAux fuel bb).foldl (fun a i => a ^^^ key i) h := by
  intro fuel
  induction fuel with
  | zero =>
    intro bb h
    rfl
  | succ f ih =>
    intro bb h
    by_cases hz : bb = 0
    · subst hz
      rfl
    · have h1 : TranspositionTable.hashPiecesAux key (f + 1) bb h =
          TranspositionTable.hashPiecesAux key f (bb &&& (bb - 1))
            (h ^^^ key (bitScanForward bb)) := by
        have hv : TranspositionTable.hashPiecesAux key (f + 1) bb h =
            if bb = 0 then h else TranspositionTable.hashPiecesAux key f (bb &&& (bb - 1))
              (h ^^^ key (bitScanForward bb)) := rfl
        rw [hv, if_neg hz]
      have h2 : movesLoopAux (f + 1) bb =
          bitScanForward bb :: movesLoopAux f (bb &&& (bb - 1)) := by
        have hv : movesLoopAux (f + 1) bb = if bb = 0 then [] else
            bitScanForward bb :: movesLoopAux f (bb &&& (bb - 1)) := rfl
        rw [hv, if_neg hz]
      rw [h1, h2, List.foldl_cons, ih]

theorem updateFlipsAux_eq_foldl (ko kp : Nat → Nat) :
    ∀ (fuel bb h : Nat),
      TranspositionTable.updateFlipsAux ko kp fuel bb h =
        (movesLoopAux fuel bb).foldl (fun a i => (a ^^^ ko i) ^^^ kp i) h := by
  intro fuel
  induction fuel with
  | zero =>
    intro bb h
    rfl
  | succ f ih =>
    intro bb h
    by_cases hz : bb = 0
    · subst hz
      rfl
    · have h1 : TranspositionTable.updateFlipsAux ko kp (f + 1) bb h =
          TranspositionTable.updateFlipsAux ko kp f (bb &&& (bb - 1))
            ((h ^^^ ko (bitScanForward bb)) ^^^ kp (bitScanForward bb)) := by
        have hv : TranspositionTable.updateFlipsAux ko kp (f + 1) bb h =
            if bb = 0 then h else TranspositionTable.updateFlipsAux ko kp f (bb &&& (bb - 1))
              ((h ^^^ ko (bitScanForward bb)) ^^^ kp (bitScanForward bb)) := rfl
        rw [hv, if_neg hz]
      have h2 : movesLoopAux (f + 1) bb =
          bitScanForward bb :: movesLoopAux f (bb &&& (bb - 1)) := by
        have hv : movesLoopAux (f + 1) bb = if bb = 0 then [] else
            bitScanForward bb :: movesLoopAux f (bb &&& (bb - 1)) := rfl
        rw [hv, if_neg hz]
      rw [h1, h2, List.foldl_cons, ih]

/-- The full-fuel computeHash piece loop equals an XOR over the set bits. -/
theorem hashPiecesAux_full (key : Nat → Nat) (bb h : Nat) (hlt : bb < 2 ^ 64) :
    TranspositionTable.hashPiecesAux key 64 bb h = h ^^^ bitsXor key bb := by
  calc TranspositionTable.hashPiecesAux key 64 bb h
      = (movesLoopAux 64 bb).foldl (fun a i => a ^^^ key i) h :=
        hashPiecesAux_eq_foldl key 64 bb h
    _ = ((List.range 64).filter (fun i => bb.testBit i)).foldl (fun a i => a ^^^ key i) h := by
        rw [show movesLoopAux 64 bb = (List.range 64).filter (fun i => bb.testBit i) from
          movesLoop_eq_filter bb hlt]
    _ = h ^^^ bitsXor key bb :=
        foldl_xor_init key ((List.range 64).filter (fun i => bb.testBit i)) h

/-- The full-fuel updateHash flip loop XORs out the opponent keys and XORs
in the mover keys over the set bits of the flip mask. -/
theorem updateFlipsAux_full (ko kp : Nat → Nat) (f h : Nat) (hlt : f < 2 ^ 64) :
    TranspositionTable.updateFlipsAux ko kp 64 f h =
      h ^^^ (bitsXor ko f ^^^ bitsXor kp f) := by
  calc TranspositionTable.updateFlipsAux ko kp 64 f h
      = (movesLoopAux 64 f).foldl (fun a i => (a ^^^ ko i) ^^^ kp i) h :=
        updateFlipsAux_eq_foldl ko kp 64 f h
    _ = (movesLoopAux 64 f).foldl (fun a i => a ^^^ (ko i ^^^ kp i)) h :=
        foldl_xor2_eq ko kp (movesLoopAux 64 f) h
    _ = ((List.range 64).filter (fun i => f.testBit i)).foldl
          (fun a i => a ^^^ (ko i ^^^ kp i)) h := by
        rw [show movesLoopAux 64 f = (List.range 64).filter (fun i => f.testBit i) from
          movesLoop_eq_filter f hlt]
    _ = h ^^^ ((List.range 64).filter (fun i => f.testBit i)).foldl
          (fun a i => a ^^^ (ko i ^^^ kp i)) 0 :=
        foldl_xor_init (fun i => ko i ^^^ kp i)
          ((List.range 64).filter (fun i => f.testBit i)) h
    _ = h ^^^ (bitsXor ko f ^^^ bitsXor kp f) := by
        rw [foldl_xor_split ko kp ((List.range 64).filter (fun i => f.testBit i))]
        rfl

/-- Claim C4: for a board with disjoint 64-bit masks and a legal move of
side p with flip set f = calculateFlips, the Zobrist hash of the post-move
position with the opposite side to move, computed from scratch, equals the
incremental updateHash of the pre-move hash. -/
theorem claim_C4_hash_incremental (tt : TranspositionTable) (board : Board_t)
    (player : PlayerColor_t) (move : Nat)
    (hb : board.black < 2 ^ 64) (hw : board.white < 2 ^ 64)
    (hdisj : disjointMasks board)
    (hlegal : (getValidMovesBitmap (getPlayerBitboard board player)
        (getOpponentBitboard board player)).testBit move = true) :
    TranspositionTable.computeHash tt (makeMove board player move).2.1 (getOpponent player) =
      TranspositionTable.updateHash tt (TranspositionTable.computeHash tt board player) move
        (calculateFlips (getPlayerBitboard board player) (getOpponentBitboard board player)
          move) player := by
  have hdisj' : board.black &&& board.white = 0 := hdisj
  cases player with
  | black =>
    have hlegal' : (getValidMovesBitmap board.black board.white).testBit move = true := hlegal
    have hm : move < 64 := by
      by_contra hc
      rw [testBit_ge_64 (getValidMovesBitmap_lt _ _ hb hw) (le_of_not_lt hc)] at hlegal'
      exact Bool.false_ne_true hlegal'
    have hempty := valid_move_empty board.black board.white move hm hlegal'
    rw [Nat.testBit_or, Bool.or_eq_false_iff] at hempty
    have hsub : ∀ i, (calculateFlips board.black board.white move).testBit i = true →
        board.white.testBit i = true := calculateFlips_subset _ _ _
    have hflt : calculateFlips board.black board.white move < 2 ^ 64 :=
      calculateFlips_lt _ _ _ hw
    show TranspositionTable.computeHash tt
        (Board_t.mk
          (board.black ||| (1 <<< move ||| calculateFlips board.black board.white move))
          (board.white &&& not64 (calculateFlips board.black board.white move)))
        PlayerColor_t.white =
      TranspositionTable.updateHash tt
        (TranspositionTable.computeHash tt board PlayerColor_t.black) move
        (calculateFlips board.black board.white move) PlayerColor_t.black
    generalize hfeq : calculateFlips board.black board.white move = f
    rw [hfeq] at hsub hflt
    have hmb_lt : (1 <<< move) < 2 ^ 64 := by
      rw [Nat.one_shiftLeft]
      exact Nat.pow_lt_pow_right (by omega) hm
    have hfm : f.testBit move = false := by
      cases hfm2 : f.testBit move
      · rfl
      · have h1 := hsub move hfm2
        rw [hempty.2] at h1
        exact absurd h1 Bool.false_ne_true
    have hor1 : (1 <<< move) ||| f = (1 <<< move) ^^^ f := by
      apply or_eq_xor_of_and_eq_zero
      apply and_eq_zero_of_testBit
      intro i hi
      rw [testBit_one_shiftLeft] at hi
      have hmi : move = i := of_decide_eq_true hi
      rw [← hmi]
      exact hfm
    have hor2 : board.black ||| ((1 <<< move) ^^^ f) =
        board.black ^^^ ((1 <<< move) ^^^ f) := by
      apply or_eq_xor_of_and_eq_zero
      apply and_eq_zero_of_testBit
      intro i hi
      rw [Nat.testBit_xor]
      have h1 : (1 <<< move).testBit i = false := by
        rw [testBit_one_shiftLeft, decide_eq_false_iff_not]
        intro he
        rw [← he] at hi
        rw [hempty.1] at hi
        exact Bool.false_ne_true hi
      have h2 : f.testBit i = false := by
        cases hf2 : f.testBit i
        · rfl
        · have hwi := hsub i hf2
          have hbi := testBit_of_and_eq_zero hdisj' hi
          rw [hbi] at hwi
          exact absurd hwi Bool.false_ne_true
      rw [h1, h2]
      rfl
    have hwh : board.white &&& not64 f = board.white ^^^ f :=
      and_not64_eq_xor_of_subset _ _ hw hsub
    rw [hor1, hor2, hwh]
    have hL : TranspositionTable.computeHash tt
        (Board_t.mk (board.black ^^^ ((1 <<< move) ^^^ f)) (board.white ^^^ f))
        PlayerColor_t.white =
        TranspositionTable.hashPiecesAux (tt.zobristPieces PlayerColor_t.white) 64
          (board.white ^^^ f)
          (TranspositionTable.hashPiecesAux (tt.zobristPieces PlayerColor_t.black) 64
            (board.black ^^^ ((1 <<< move) ^^^ f)) 0) := by
      simp only [TranspositionTable.computeHash]
      rw [if_neg (fun h => PlayerColor_t.noConfusion h)]
    have hH0 : TranspositionTable.computeHash tt board PlayerColor_t.black =
        TranspositionTable.hashPiecesAux (tt.zobristPieces PlayerColor_t.white) 64 board.white
          (TranspositionTable.hashPiecesAux (tt.zobristPieces PlayerColor_t.black) 64
            board.black 0) ^^^ tt.zobristPlayer := by
      simp only [TranspositionTable.computeHash]
      rw [if_pos trivial]
    have hR : ∀ h0 : Nat, TranspositionTable.updateHash tt h0 move f PlayerColor_t.black =
        TranspositionTable.updateFlipsAux (tt.zobristPieces PlayerColor_t.white)
          (tt.zobristPieces PlayerColor_t.black) 64 f
          (h0 ^^^ tt.zobristPieces PlayerColor_t.black move) ^^^ tt.zobristPlayer :=
      fun h0 => by simp only [TranspositionTable.updateHash, getOpponent]
    rw [hL, hH0, hR]
    rw [hashPiecesAux_full (tt.zobristPieces PlayerColor_t.black)
        (board.black ^^^ ((1 <<< move) ^^^ f)) 0
        (Nat.xor_lt_two_pow hb (Nat.xor_lt_two_pow hmb_lt hflt)),
      hashPiecesAux_full (tt.zobristPieces PlayerColor_t.white) (board.white ^^^ f)
        (0 ^^^ bitsXor (tt.zobristPieces PlayerColor_t.black)
          (board.black ^^^ ((1 <<< move) ^^^ f)))
        (Nat.xor_lt_two_pow hw hflt),
      hashPiecesAux_full (tt.zobristPieces PlayerColor_t.black) board.black 0 hb,
      hashPiecesAux_full (tt.zobristPieces PlayerColor_t.white) board.white
        (0 ^^^ bitsXor (tt.zobristPieces PlayerColor_t.black) board.black) hw,
      updateFlipsAux_full (tt.zobristPieces PlayerColor_t.white)
        (tt.zobristPieces PlayerColor_t.black) f _ hflt,
      bitsXor_xor (tt.zobristPieces PlayerColor_t.black) board.black ((1 <<< move) ^^^ f),
      bitsXor_xor (tt.zobristPieces PlayerColor_t.black) (1 <<< move) f,
      bitsXor_xor (tt.zobristPieces PlayerColor_t.white) board.white f,
      bitsXor_single (tt.zobristPieces PlayerColor_t.black) move hm]
    apply Nat.eq_of_testBit_eq
    intro i
    simp only [Nat.testBit_xor, Nat.zero_testBit]
    cases (bitsXor (tt.zobristPieces PlayerColor_t.black) board.black).testBit i <;>
      cases (bitsXor (tt.zobristPieces PlayerColor_t.white) board.white).testBit i <;>
      cases (tt.zobristPieces PlayerColor_t.black move).testBit i <;>
      cases (bitsXor (tt.zobristPieces PlayerColor_t.black) f).testBit i <;>
      cases (bitsXor (tt.zobristPieces PlayerColor_t.white) f).testBit i <;>
      cases tt.zobristPlayer.testBit i <;> rfl
  | white =>
    have hlegal' : (getValidMovesBitmap board.white board.black).testBit move = true := hlegal
    have hm : move < 64 := by
      by_contra hc
      rw [testBit_ge_64 (getValidMovesBitmap_lt _ _ hw hb) (le_of_not_lt hc)] at hlegal'
      exact Bool.false_ne_true hlegal'
    have hempty := valid_move_empty board.white board.black move hm hlegal'
    rw [Nat.testBit_or, Bool.or_eq_false_iff] at hempty
    have hsub : ∀ i, (calculateFlips board.white board.black move).testBit i = true →
        board.black.testBit i = true := calculateFlips_subset _ _ _
    have hflt : calculateFlips board.white board.black move < 2 ^ 64 :=
      calculateFlips_lt _ _ _ hb
    show TranspositionTable.computeHash tt
        (Board_t.mk
          (board.black &&& not64 (calculateFlips board.white board.black move))
          (board.white ||| (1 <<< move ||| calculateFlips board.white board.black move)))
        PlayerColor_t.black =
      TranspositionTable.updateHash tt
        (TranspositionTable.computeHash tt board PlayerColor_t.white) move
        (calculateFlips board.white board.black move) PlayerColor_t.white
    generalize hfeq : calculateFlips board.white board.black move = f
    rw [hfeq] at hsub hflt
    have hmb_lt : (1 <<< move) < 2 ^ 64 := by
      rw [Nat.one_shiftLeft]
      exact Nat.pow_lt_pow_right (by omega) hm
    have hfm : f.testBit move = false := by
      cases hfm2 : f.testBit move
      · rfl
      · have h1 := hsub move hfm2
        rw [hempty.2] at h1
        exact absurd h1 Bool.false_ne_true
    have hor1 : (1 <<< move) ||| f = (1 <<< move) ^^^ f := by
      apply or_eq_xor_of_and_eq_zero
      apply and_eq_zero_of_testBit
      intro i hi
      rw [testBit_one_shiftLeft] at hi
      have hmi : move = i := of_decide_eq_true hi
      rw [← hmi]
      exact hfm
    have hor2 : board.white ||| ((1 <<< move) ^^^ f) =
        board.white ^^^ ((1 <<< move) ^^^ f) := by
      apply or_eq_xor_of_and_eq_zero
      apply and_eq_zero_of_testBit
      intro i hi
      rw [Nat.testBit_xor]
      have h1 : (1 <<< move).testBit i = false := by
        rw [testBit_one_shiftLeft, decide_eq_false_iff_not]
        intro he
        rw [← he] at hi
        rw [hempty.1] at hi
        exact Bool.false_ne_true hi
      have h2 : f.testBit i = false := by
        cases hf2 : f.testBit i
        · rfl
        · have hbi := hsub i hf2
          have hwi := testBit_of_and_eq_zero hdisj' hbi
          rw [hwi] at hi
          exact absurd hi Bool.false_ne_true
      rw [h1, h2]
      rfl
    have hbl : board.black &&& not64 f = board.black ^^^ f :=
      and_not64_eq_xor_of_subset _ _ hb hsub
    rw [hor1, hor2, hbl]
    have hL : TranspositionTable.computeHash tt
        (Board_t.mk (board.black ^^^ f) (board.white ^^^ ((1 <<< move) ^^^ f)))
        PlayerColor_t.black =
        TranspositionTable.hashPiecesAux (tt.zobristPieces PlayerColor_t.white) 64
          (board.white ^^^ ((1 <<< move) ^^^ f))
          (TranspositionTable.hashPiecesAux (tt.zobristPieces PlayerColor_t.black) 64
            (board.black ^^^ f) 0) ^^^ tt.zobristPlayer := by
      simp only [TranspositionTable.computeHash]
      rw [if_pos trivial]
    have hH0 : TranspositionTable.computeHash tt board PlayerColor_t.white =
        TranspositionTable.hashPiecesAux (tt.zobristPieces PlayerColor_t.white) 64 board.white
          (TranspositionTable.hashPiecesAux (tt.zobristPieces PlayerColor_t.black) 64
            board.black 0) := by
      simp only [TranspositionTable.computeHash]
      rw [if_neg (fun h => PlayerColor_t.noConfusion h)]
    have hR : ∀ h0 : Nat, TranspositionTable.updateHash tt h0 move f PlayerColor_t.white =
        TranspositionTable.updateFlipsAux (tt.zobristPieces PlayerColor_t.black)
          (tt.zobristPieces PlayerColor_t.white) 64 f
          (h0 ^^^ tt.zobristPieces PlayerColor_t.white move) ^^^ tt.zobristPlayer :=
      fun h0 => by simp only [TranspositionTable.updateHash, getOpponent]
    rw [hL, hH0, hR]
    rw [hashPiecesAux_full (tt.zobristPieces PlayerColor_t.black) (board.black ^^^ f) 0
        (Nat.xor_lt_two_pow hb hflt),
      hashPiecesAux_full (tt.zobristPieces PlayerColor_t.white)
        (board.white ^^^ ((1 <<< move) ^^^ f))
        (0 ^^^ bitsXor (tt.zobristPieces PlayerColor_t.black) (board.black ^^^ f))
        (Nat.xor_lt_two_pow hw (Nat.xor_lt_two_pow hmb_lt hflt)),
      hashPiecesAux_full (tt.zobristPieces PlayerColor_t.black) board.black 0 hb,
      hashPiecesAux_full (tt.zobristPieces PlayerColor_t.white) board.white
        (0 ^^^ bitsXor (tt.zobristPieces PlayerColor_t.black) board.black) hw,
      updateFlipsAux_full (tt.zobristPieces PlayerColor_t.black)
        (tt.zobristPieces PlayerColor_t.white) f _ hflt,
      bitsXor_xor (tt.zobristPieces PlayerColor_t.black) board.black f,
      bitsXor_xor (tt.zobristPieces PlayerColor_t.white) board.white ((1 <<< move) ^^^ f),
      bitsXor_xor (tt.zobristPieces PlayerColor_t.white) (1 <<< move) f,
      bitsXor_single (tt.zobristPieces PlayerColor_t.white) move hm]
    apply Nat.eq_of_testBit_eq
    intro i
    simp only [Nat.testBit_xor, Nat.zero_testBit]
    cases (bitsXor (tt.zobristPieces PlayerColor_t.black) board.black).testBit i <;>
      cases (bitsXor (tt.zobristPieces PlayerColor_t.white) board.white).testBit i <;>
      cases (tt.zobristPieces PlayerColor_t.white move).testBit i <;>
      cases (bitsXor (tt.zobristPieces PlayerColor_t.black) f).testBit i <;>
      cases (bitsXor (tt.zobristPieces PlayerColor_t.white) f).testBit i <;>
      cases tt.zobristPlayer.testBit i <;> rfl

/-- Witness for claim C4: sample table, initial position, black move 19. -/
theorem claim_C4_witness :
    TranspositionTable.computeHash sampleTT
        (makeMove startModel.board PlayerColor_t.black 19).2.1
        (getOpponent PlayerColor_t.black) =
      TranspositionTable.updateHash sampleTT
        (TranspositionTable.computeHash sampleTT startModel.board PlayerColor_t.black) 19
        (calculateFlips (getPlayerBitboard startModel.board PlayerColor_t.black)
          (getOpponentBitboard startModel.board PlayerColor_t.black) 19)
        PlayerColor_t.black :=
  claim_C4_hash_incremental sampleTT startModel.board PlayerColor_t.black 19
    (by decide) (by decide) (by decide) (by decide)

/-! ## Claim C7: iterative deepening in ai.cpp SearchEngine::search -/

/-- The root-search move loop never returns a negative best move when its
incoming best move is nonnegative. -/
theorem rootLoop_nonneg (oracle : Nat → Bool)
    (recur : SearchEngine.SState → PlayerColor_t → Int → Int → Int × SearchEngine.SState)
    (player : PlayerColor_t) :
    ∀ (moves : List Nat) (s : SearchEngine.SState) (alpha beta bestMove bestScore : Int),
      0 ≤ bestMove →
      0 ≤ (SearchEngine.rootLoop oracle recur player moves s alpha beta
        bestMove bestScore).1 := by
  intro moves
  induction moves with
  | nil =>
    intro s alpha beta bm bs hbm
    exact hbm
  | cons mv rest ih =>
    intro s alpha beta bm bs hbm
    unfold SearchEngine.rootLoop
    dsimp only [SearchEngine.checkTime]
    split_ifs
    all_goals first
      | exact hbm
      | exact Int.natCast_nonneg mv
      | exact ih _ _ _ _ _ (Int.natCast_nonneg mv)
      | exact ih _ _ _ _ _ hbm

/-- With at least one legal move, rootSearch returns a nonnegative move
(in particular not MOVE_NONE). -/
theorem rootSearch_nonneg (oracle : Nat → Bool) (s : SearchEngine.SState)
    (player : PlayerColor_t) (depth : Nat) (alpha beta : Int)
    (hmv : getValidMovesAI s.board player ≠ []) :
    0 ≤ (SearchEngine.rootSearch oracle s player depth alpha beta).1 := by
  unfold SearchEngine.rootSearch
  dsimp only
  rw [if_neg (fun h => hmv (List.isEmpty_iff.mp h))]
  exact rootLoop_nonneg oracle _ player _ _ _ _ _ _ (Int.natCast_nonneg _)

/-- One iteration of the deepening loop of ai.cpp: if the clock has not
expired and the position has a legal move, the loop stops after the very
first depth it tries and returns that root search's move. -/
theorem searchLoop_first (oracle : Nat → Bool) (player : PlayerColor_t) (d : Nat)
    (rest : List Nat) (s : SearchEngine.SState)
    (h0 : oracle s.timeCalls = false)
    (hmv : getValidMovesAI s.board player ≠ []) :
    SearchEngine.searchLoop oracle player (d :: rest) s MOVE_NONE =
      ((SearchEngine.rootSearch oracle { s with timeCalls := s.timeCalls + 1 } player d
          (-INFINITY_SCORE) INFINITY_SCORE).1,
        [d],
        { (SearchEngine.rootSearch oracle { s with timeCalls := s.timeCalls + 1 } player d
            (-INFINITY_SCORE) INFINITY_SCORE).2 with
          pvMove := (SearchEngine.rootSearch oracle { s with timeCalls := s.timeCalls + 1 }
            player d (-INFINITY_SCORE) INFINITY_SCORE).1,
          maxDepthReached := d }) := by
  have hnn : 0 ≤ (SearchEngine.rootSearch oracle { s with timeCalls := s.timeCalls + 1 }
      player d (-INFINITY_SCORE) INFINITY_SCORE).1 :=
    rootSearch_nonneg oracle _ player d _ _ hmv
  have hne : (SearchEngine.rootSearch oracle { s with timeCalls := s.timeCalls + 1 } player d
      (-INFINITY_SCORE) INFINITY_SCORE).1 ≠ MOVE_NONE := by
    intro h
    rw [h] at hnn
    exact absurd hnn (by decide)
  unfold SearchEngine.searchLoop
  dsimp only [SearchEngine.checkTime]
  rw [h0]
  rw [if_neg Bool.false_ne_true]
  rw [if_pos hne]
  dsimp only
  rw [if_pos hne]

/-- ai.cpp SearchEngine::search with an unexpired clock and a legal move:
only depth 1 is ever given to rootSearch and its move is returned. -/
theorem search_first_depth (oracle : Nat → Bool) (board : Board_t) (player : PlayerColor_t)
    (h0 : oracle 0 = false)
    (hmv : getValidMovesAI board player ≠ []) :
    SearchEngine.search oracle board player =
      ((SearchEngine.rootSearch oracle (SearchEngine.SState.mk board 0 0 0 MOVE_NONE 1)
          player 1 (-INFINITY_SCORE) INFINITY_SCORE).1,
        [1],
        { (SearchEngine.rootSearch oracle (SearchEngine.SState.mk board 0 0 0 MOVE_NONE 1)
            player 1 (-INFINITY_SCORE) INFINITY_SCORE).2 with
          pvMove := (SearchEngine.rootSearch oracle
            (SearchEngine.SState.mk board 0 0 0 MOVE_NONE 1) player 1
            (-INFINITY_SCORE) INFINITY_SCORE).1,
          maxDepthReached := 1 }) := by
  obtain ⟨k, hk⟩ : ∃ k : Nat, (if getEmptyCount board ≤ ENDGAME_THRESHOLD then ENDGAME_DEPTH
      else MAX_SEARCH_DEPTH) = k + 1 := by
    by_cases hh : getEmptyCount board ≤ ENDGAME_THRESHOLD
    · refine ⟨15, ?_⟩
      rw [if_pos hh]
      decide
    · refine ⟨11, ?_⟩
      rw [if_neg hh]
      decide
  unfold SearchEngine.search
  dsimp only
  rw [hk, List.range'_succ 1 k 1]
  rw [searchLoop_first oracle player 1 (List.range' (1 + 1) k 1)
    (SearchEngine.SState.mk board 0 0 0 MOVE_NONE 0) h0 hmv]

/-- Counterexample for claim C7: on the initial position with a clock that
never expires, ai.cpp SearchEngine::search hands rootSearch only depth 1
(the instrumented invocation trace is [1]) although the phase-dependent
maximum depth is 12; the depths 2..12 promised by the claim are never
searched, because the loop breaks unconditionally once a root search
returns any move. -/
theorem claim_C7_counterexample :
    (SearchEngine.search (fun _ => false) startModel.board PlayerColor_t.black).2.1 = [1] ∧
    (if getEmptyCount startModel.board ≤ ENDGAME_THRESHOLD then ENDGAME_DEPTH
      else MAX_SEARCH_DEPTH) = 12 := by
  constructor
  · rw [search_first_depth (fun _ => false) startModel.board PlayerColor_t.black rfl
      (by decide)]
  · decide

/-- Claim C7, amended for ai.cpp: whenever the first time check has not
expired and the side to move has a legal move, SearchEngine::search
invokes rootSearch only at depth 1 — the loop breaks unconditionally
after the first iteration that produced a move — and the returned move is
exactly that first completed iteration's move. -/
theorem claim_C7_first_completed_depth (oracle : Nat → Bool) (board : Board_t)
    (player : PlayerColor_t) (h0 : oracle 0 = false)
    (hmv : getValidMovesAI board player ≠ []) :
    SearchEngine.search oracle board player =
      ((SearchEngine.rootSearch oracle (SearchEngine.SState.mk board 0 0 0 MOVE_NONE 1)
          player 1 (-INFINITY_SCORE) INFINITY_SCORE).1,
        [1],
        { (SearchEngine.rootSearch oracle (SearchEngine.SState.mk board 0 0 0 MOVE_NONE 1)
            player 1 (-INFINITY_SCORE) INFINITY_SCORE).2 with
          pvMove := (SearchEngine.rootSearch oracle
            (SearchEngine.SState.mk board 0 0 0 MOVE_NONE 1) player 1
            (-INFINITY_SCORE) INFINITY_SCORE).1,
          maxDepthReached := 1 }) :=
  search_first_depth oracle board player h0 hmv

/-- Witness for the amended claim C7 at the initial position. -/
theorem claim_C7_witness :
    SearchEngine.search (fun _ => false) startModel.board PlayerColor_t.black =
      ((SearchEngine.rootSearch (fun _ => false)
          (SearchEngine.SState.mk startModel.board 0 0 0 MOVE_NONE 1) PlayerColor_t.black 1
          (-INFINITY_SCORE) INFINITY_SCORE).1,
        [1],
        { (SearchEngine.rootSearch (fun _ => false)
            (SearchEngine.SState.mk startModel.board 0 0 0 MOVE_NONE 1) PlayerColor_t.black 1
            (-INFINITY_SCORE) INFINITY_SCORE).2 with
          pvMove := (SearchEngine.rootSearch (fun _ => false)
            (SearchEngine.SState.mk startModel.board 0 0 0 MOVE_NONE 1) PlayerColor_t.black 1
            (-INFINITY_SCORE) INFINITY_SCORE).1,
          maxDepthReached := 1 }) :=
  claim_C7_first_completed_depth (fun _ => false) startModel.board PlayerColor_t.black rfl
    (by decide)

/-! ## Claim C8: the AIExtreme search mutates and restores the board -/

/-- The negamax move loop of ai_extreme.cpp restores the board on every
exit path: each iteration overwrites the board with the unmade snapshot
before looping, cutting off, or returning. -/
theorem negamaxXLoop_board
    (recur : AIExtreme.XState → PlayerColor_t → Int → Int → Nat → Int × AIExtreme.XState)
    (player : PlayerColor_t) (hash : Nat) :
    ∀ (moves : List Nat) (s : AIExtreme.XState) (alpha beta bestScore bestMove : Int)
      (bound : Nat),
      (AIExtreme.negamaxXLoop recur player hash moves s alpha beta bestScore bestMove
        bound).2.2.2.board = s.board := by
  intro moves
  induction moves with
  | nil =>
    intro s alpha beta bs bm bound
    rfl
  | cons mv rest ih =>
    intro s alpha beta bs bm bound
    unfold AIExtreme.negamaxXLoop
    dsimp only
    split_ifs
    all_goals first
      | rfl
      | (rw [ih]; try rfl)

/-- The root move loop of ai_extreme.cpp restores the board on every exit
path. -/
theorem rootXLoop_board (oracle : Nat → Bool)
    (recur : AIExtreme.XState → PlayerColor_t → Int → Int → Nat → Int × AIExtreme.XState)
    (player : PlayerColor_t) (hash : Nat) :
    ∀ (moves : List Nat) (s : AIExtreme.XState) (alpha beta bestScore bestMove : Int)
      (bound : Nat),
      (AIExtreme.rootXLoop oracle recur player hash moves s alpha beta bestScore bestMove
        bound).2.2.2.board = s.board := by
  intro moves
  induction moves with
  | nil =>
    intro s alpha beta bs bm bound
    rfl
  | cons mv rest ih =>
    intro s alpha beta bs bm bound
    unfold AIExtreme.rootXLoop
    dsimp only [AIExtreme.checkTime]
    split_ifs
    all_goals first
      | rfl
      | (rw [ih]; try rfl)

/-- AIExtreme::SearchEngine::negamax returns with the caller's board
bit-identical to its value at entry, on every path: transposition-table
hits, terminal positions, time and node cutoffs, passes, and move loops. -/
theorem negamaxX_board (oracle : Nat → Bool) :
    ∀ (depth : Nat) (s : AIExtreme.XState) (player : PlayerColor_t) (alpha beta : Int)
      (hash : Nat),
      (AIExtreme.negamaxX oracle depth s player alpha beta hash).2.board = s.board := by
  intro depth
  induction depth with
  | zero =>
    intro s player alpha beta hash
    unfold AIExtreme.negamaxX
    dsimp only
    split_ifs
    all_goals rfl
  | succ d ih =>
    intro s player alpha beta hash
    unfold AIExtreme.negamaxX
    dsimp only [AIExtreme.checkTime]
    split_ifs
    all_goals first
      | rfl
      | (rw [ih]; try rfl)
      | (dsimp only; rw [negamaxXLoop_board]; try rfl)

/-- AIExtreme::SearchEngine::rootSearch returns with the caller's board
bit-identical to its value at entry. -/
theorem rootSearchX_board (oracle : Nat → Bool) (s : AIExtreme.XState)
    (player : PlayerColor_t) (depth : Nat) (alpha beta : Int) :
    (AIExtreme.rootSearchX oracle s player depth alpha beta).2.board = s.board := by
  unfold AIExtreme.rootSearchX
  dsimp only
  split_ifs
  all_goals first
    | rfl
    | (dsimp only; rw [rootXLoop_board]; try rfl)

/-- Claim C8: whenever the AIExtreme recursive negamax or root search
returns — including transposition-table hits, time-budget or node-budget
cutoffs, passes, and beta cutoffs — the caller's board masks are
bit-identical to their values at entry, and the side-to-move snapshot
taken by makeMove is restored verbatim by the unmakeMove every iteration
performs. -/
theorem claim_C8_mutate_restore (oracle : Nat → Bool) :
    (∀ (depth : Nat) (s : AIExtreme.XState) (player : PlayerColor_t) (alpha beta : Int)
      (hash : Nat),
      (AIExtreme.negamaxX oracle depth s player alpha beta hash).2.board = s.board) ∧
    (∀ (s : AIExtreme.XState) (player : PlayerColor_t) (depth : Nat) (alpha beta : Int),
      (AIExtreme.rootSearchX oracle s player depth alpha beta).2.board = s.board) ∧
    (∀ (board : Board_t) (player : PlayerColor_t) (move : Nat),
      unmakeMove (makeMove board player move).1 = (board, player)) :=
  ⟨fun depth s player alpha beta hash => negamaxX_board oracle depth s player alpha beta hash,
   fun s player depth alpha beta => rootSearchX_board oracle s player depth alpha beta,
   fun board player move => rfl⟩

/-! ## Claim C9: loading a truncated opening-book stream -/

theorem getD_append_left (l m : List Nat) (i : Nat) (h : i < l.length) (d : Nat) :
    (l ++ m).getD i d = l.getD i d := by
  rw [List.getD_eq_getElem?_getD, List.getD_eq_getElem?_getD, List.getElem?_append_left h]

/-- With fewer than 68 bytes left, the game loop stops and reports the
games loaded so far (the failed record read breaks the C loop). -/
theorem loadGamesLoop_short (tt : TranspositionTable) :
    ∀ (g : Nat) (stream : List Nat) (book : OpeningBook.Book) (loaded : Nat),
      stream.length < 68 →
      OpeningBook.loadGamesLoop tt g stream book loaded = (loaded, book) := by
  intro g stream book loaded hlen
  cases g with
  | zero => rfl
  | succ g' =>
    unfold OpeningBook.loadGamesLoop
    rw [if_pos hlen]

/-- One complete, score-valid record with at least one decoded move is
ingested: it is added to the book and counted. -/
theorem loadGamesLoop_step (tt : TranspositionTable) (g : Nat) (rec stream : List Nat)
    (book : OpeningBook.Book) (loaded : Nat)
    (hlen : rec.length = 68)
    (hscore : rec.getD 7 0 ≤ 64)
    (hmv : OpeningBook.extractMoves (rec.drop 8) ≠ []) :
    OpeningBook.loadGamesLoop tt (g + 1) (rec ++ stream) book loaded =
      OpeningBook.loadGamesLoop tt g stream
        (OpeningBook.addGame tt (OpeningBook.extractMoves (rec.drop 8))
          ((rec.getD 7 0 : Nat) : Int) book)
        (loaded + 1) := by
  have hlen2 : ¬(rec ++ stream).length < 68 := by
    rw [List.length_append, hlen]
    omega
  have htake : (rec ++ stream).take 68 = rec := by
    rw [← hlen]
    exact List.take_left rec stream
  have hdrop : (rec ++ stream).drop 68 = stream := by
    rw [← hlen]
    exact List.drop_left rec stream
  unfold OpeningBook.loadGamesLoop
  rw [if_neg hlen2]
  dsimp only
  rw [htake, hdrop]
  rw [if_pos ⟨hscore, fun h => hmv (List.isEmpty_iff.mp h)⟩]
  cases g with
  | zero => rfl
  | succ g2 => rfl

/-- Claim C9: a byte stream whose 16-byte header declares 10 games but
which holds only 3 complete 68-byte records (each with an in-range score
byte and at least one decodable move) followed by a truncated remainder
loads exactly the 3 complete records — not the declared 10 — keeps them
in the book, and skips the truncated tail. -/
theorem claim_C9_truncated_load (tt : TranspositionTable) (hdr r1 r2 r3 tail : List Nat)
    (book : OpeningBook.Book)
    (hhdr : hdr.length = 16)
    (hc4 : hdr.getD 4 0 = 10) (hc5 : hdr.getD 5 0 = 0) (hc6 : hdr.getD 6 0 = 0)
    (hc7 : hdr.getD 7 0 = 0)
    (h1l : r1.length = 68) (h1s : r1.getD 7 0 ≤ 64)
    (h1m : OpeningBook.extractMoves (r1.drop 8) ≠ [])
    (h2l : r2.length = 68) (h2s : r2.getD 7 0 ≤ 64)
    (h2m : OpeningBook.extractMoves (r2.drop 8) ≠ [])
    (h3l : r3.length = 68) (h3s : r3.getD 7 0 ≤ 64)
    (h3m : OpeningBook.extractMoves (r3.drop 8) ≠ [])
    (htail : tail.length < 68) :
    OpeningBook.loadWTBFile tt (hdr ++ (r1 ++ (r2 ++ (r3 ++ tail)))) book =
      (3, OpeningBook.addGame tt (OpeningBook.extractMoves (r3.drop 8))
          ((r3.getD 7 0 : Nat) : Int)
        (OpeningBook.addGame tt (OpeningBook.extractMoves (r2.drop 8))
          ((r2.getD 7 0 : Nat) : Int)
          (OpeningBook.addGame tt (OpeningBook.extractMoves (r1.drop 8))
            ((r1.getD 7 0 : Nat) : Int) book))) := by
  have hbl : ¬(hdr ++ (r1 ++ (r2 ++ (r3 ++ tail)))).length < 16 := by
    rw [List.length_append, hhdr]
    omega
  have htk : (hdr ++ (r1 ++ (r2 ++ (r3 ++ tail)))).take 16 = hdr := by
    rw [← hhdr]
    exact List.take_left _ _
  have hdp : (hdr ++ (r1 ++ (r2 ++ (r3 ++ tail)))).drop 16 = r1 ++ (r2 ++ (r3 ++ tail)) := by
    rw [← hhdr]
    exact List.drop_left _ _
  unfold OpeningBook.loadWTBFile
  rw [if_neg hbl]
  dsimp only
  rw [htk, hdp, hc4, hc5, hc6, hc7]
  rw [show (10 : Nat) ||| 0 <<< 8 ||| 0 <<< 16 ||| 0 <<< 24 = 10 by decide]
  rw [if_pos (show (10 : Nat) < 2 ^ 31 by decide)]
  rw [Int.toNat_natCast]
  rw [show (10 : Nat) = 9 + 1 by decide]
  rw [loadGamesLoop_step tt 9 r1 (r2 ++ (r3 ++ tail)) book 0 h1l h1s h1m]
  rw [show (9 : Nat) = 8 + 1 by decide]
  rw [loadGamesLoop_step tt 8 r2 (r3 ++ tail) _ _ h2l h2s h2m]
  rw [show (8 : Nat) = 7 + 1 by decide]
  rw [loadGamesLoop_step tt 7 r3 tail _ _ h3l h3s h3m]
  rw [loadGamesLoop_short tt 7 tail _ _ htail]

/-- Witness for claim C9: a concrete stream with a header declaring 10
games, three identical complete records (score byte 34, one decoded move
d5), and a 3-byte truncated tail. -/
theorem claim_C9_witness :
    OpeningBook.loadWTBFile sampleTT
        (([87, 84, 66, 0, 10, 0, 0, 0] ++ List.replicate 8 0) ++
          (([0, 0, 0, 0, 0, 0, 0, 34, 56] ++ List.replicate 59 0) ++
            (([0, 0, 0, 0, 0, 0, 0, 34, 56] ++ List.replicate 59 0) ++
              (([0, 0, 0, 0, 0, 0, 0, 34, 56] ++ List.replicate 59 0) ++ [1, 2, 3])))) [] =
      (3, OpeningBook.addGame sampleTT
          (OpeningBook.extractMoves
            (([0, 0, 0, 0, 0, 0, 0, 34, 56] ++ List.replicate 59 0).drop 8))
          ((([0, 0, 0, 0, 0, 0, 0, 34, 56] ++ List.replicate 59 0).getD 7 0 : Nat) : Int)
        (OpeningBook.addGame sampleTT
          (OpeningBook.extractMoves
            (([0, 0, 0, 0, 0, 0, 0, 34, 56] ++ List.replicate 59 0).drop 8))
          ((([0, 0, 0, 0, 0, 0, 0, 34, 56] ++ List.replicate 59 0).getD 7 0 : Nat) : Int)
          (OpeningBook.addGame sampleTT
            (OpeningBook.extractMoves
              (([0, 0, 0, 0, 0, 0, 0, 34, 56] ++ List.replicate 59 0).drop 8))
            ((([0, 0, 0, 0, 0, 0, 0, 34, 56] ++ List.replicate 59 0).getD 7 0 : Nat) : Int)
            []))) :=
  claim_C9_truncated_load sampleTT ([87, 84, 66, 0, 10, 0, 0, 0] ++ List.replicate 8 0)
    ([0, 0, 0, 0, 0, 0, 0, 34, 56] ++ List.replicate 59 0)
    ([0, 0, 0, 0, 0, 0, 0, 34, 56] ++ List.replicate 59 0)
    ([0, 0, 0, 0, 0, 0, 0, 34, 56] ++ List.replicate 59 0)
    [1, 2, 3] []
    (by decide) (by decide) (by decide) (by decide) (by decide)
    (by decide) (by decide) (by decide)
    (by decide) (by decide) (by decide)
    (by decide) (by decide) (by decide)
    (by decide)

end EDAversi
